import Mathlib

/-!
# FOXXLL addressable queues and Windows file base: a shallow embedding

The C++ containers of `foxxll/common/addressable_queues.hpp` are embedded as
pure state-passing functions.  Heap nodes of the standard containers
(`std::list`, `std::set`, `std::map`) carry an explicit address, so that an
iterator is the address of the node it designates and a stale iterator is an
address that no live node has.  Addresses are handed out by a counter and are
never reused; dereferencing or erasing through an address without a live node
is undefined behaviour of the C++ program and is reported as such.
-/

set_option linter.unusedSectionVars false
set_option linter.unusedVariables false
set_option linter.dupNamespace false

namespace Foxxll

/-- C++ exceptions raised by the embedded code. `io_error` carries the name of
the failing call, as in the message of the source. -/
inductive Exn where
  | io_error (call : String)
  deriving DecidableEq, Repr

/-- Result of running a piece of the C++ code: a normal return, a thrown
exception, a failed `assert`, or undefined behaviour. -/
inductive Outcome (α : Type) where
  | ok (a : α)
  | throws (e : Exn)
  | assertFailed
  | undefined
  deriving DecidableEq, Repr

/-! ## Standard containers with addressed nodes -/

/-- Node of a `std::list<KeyType>`: its address and the stored key. -/
structure ListNode (K : Type) where
  addr : Nat
  key : K
  deriving DecidableEq, Repr

/-- Node of a `std::map<KeyType, container_iterator>`: its address, the key and
the mapped container iterator (the address of a container node). -/
structure MapNode (K : Type) where
  addr : Nat
  key : K
  it : Nat
  deriving DecidableEq, Repr

/-- The call `container.erase(it)` of a node-based container: unlinks the node
at address `it`; there must be one (otherwise the iterator is invalid). -/
def erase_node {N : Type} (addr : N → Nat) (it : Nat) (l : List N) : Option (List N) :=
  if l.any (fun n => addr n == it) then some (l.filter (fun n => addr n != it)) else none

/-- The call `meta.find(e)`: the map node holding key `e`, if any. Keys of a
`std::map` are compared through `<`, a strict total order on the key type,
under which two keys are equivalent exactly when they are equal. -/
def map_find {K : Type} [DecidableEq K] (e : K) (m : List (MapNode K)) : Option (MapNode K) :=
  m.find? (fun n => n.key == e)

/-- The assignment `i->second = ei` through the map iterator `i`. -/
def map_assign {K : Type} (i : Nat) (ei : Nat) (m : List (MapNode K)) : List (MapNode K) :=
  m.map (fun n => if n.addr == i then { n with it := ei } else n)

/-- The call `meta.erase(e)` by key: removes the node with key `e` if there is one. -/
def map_erase_key {K : Type} [DecidableEq K] (e : K) (m : List (MapNode K)) : List (MapNode K) :=
  m.filter (fun n => n.key != e)

/-! ## addressable_fifo_queue -/

/-- State of an `addressable_fifo_queue<KeyType>`: the list `vals`, the map
`meta` from keys to list iterators, and the next free heap address. The order
in which the nodes of `meta` are listed carries no meaning: no operation of
the queue traverses the map. -/
structure addressable_fifo_queue (K : Type) where
  vals : List (ListNode K)
  meta : List (MapNode K)
  heap : Nat
  deriving DecidableEq, Repr

namespace addressable_fifo_queue

variable {K : Type} [DecidableEq K]

/-- The constructor `addressable_fifo_queue()`. -/
def create : addressable_fifo_queue K := { vals := [], meta := [], heap := 0 }

/-- The member `empty()`. -/
def empty (q : addressable_fifo_queue K) : Bool := q.vals.isEmpty

/-- The member `insert(e)`; returns the handle (a map iterator) and whether
the element was newly inserted. -/
def insert (e : K) (q : addressable_fifo_queue K) :
    Outcome ((Nat × Bool) × addressable_fifo_queue K) :=
  -- container_iterator ei = vals.insert(vals.end(), e);
  let ei := q.heap
  let vals1 := q.vals ++ [{ addr := ei, key := e }]
  -- std::pair<handle, bool> r = meta.insert(std::make_pair(e, ei));
  match map_find e q.meta with
  | none =>
    let h := q.heap + 1
    .ok ((h, true), { vals := vals1, meta := q.meta ++ [{ addr := h, key := e, it := ei }],
                      heap := q.heap + 2 })
  | some n =>
    -- element was already in: vals.erase(r.first->second); r.first->second = ei;
    match erase_node ListNode.addr n.it vals1 with
    | none => .undefined
    | some vals2 =>
      .ok ((n.addr, false), { vals := vals2, meta := map_assign n.addr ei q.meta,
                              heap := q.heap + 1 })

/-- The member `erase(const KeyType& e)`. -/
def erase (e : K) (q : addressable_fifo_queue K) : Outcome (Bool × addressable_fifo_queue K) :=
  match map_find e q.meta with
  | none => .ok (false, q)
  | some mi =>
    match erase_node ListNode.addr mi.it q.vals, erase_node MapNode.addr mi.addr q.meta with
    | some vals1, some meta1 => .ok (true, { q with vals := vals1, meta := meta1 })
    | _, _ => .undefined

/-- The member `erase(handle i)`: the handle must designate a live map node. -/
def erase_handle (i : Nat) (q : addressable_fifo_queue K) : Outcome (addressable_fifo_queue K) :=
  match q.meta.find? (fun n => n.addr == i) with
  | none => .undefined
  | some mi =>
    match erase_node ListNode.addr mi.it q.vals, erase_node MapNode.addr i q.meta with
    | some vals1, some meta1 => .ok { q with vals := vals1, meta := meta1 }
    | _, _ => .undefined

/-- The member `top()`: `vals.front()`, which is undefined on an empty list. -/
def top (q : addressable_fifo_queue K) : Outcome K :=
  match q.vals with
  | [] => .undefined
  | n :: _ => .ok n.key

/-- The member `pop()`, with assertions enabled. -/
def pop (q : addressable_fifo_queue K) : Outcome (K × addressable_fifo_queue K) :=
  if q.empty then .assertFailed
  else
    match top q with
    | .ok e => .ok (e, { q with meta := map_erase_key e q.meta, vals := q.vals.tail })
    | .throws x => .throws x
    | .assertFailed => .assertFailed
    | .undefined => .undefined

/-- The keys held by the queue, front first. -/
def keys (q : addressable_fifo_queue K) : List K := q.vals.map ListNode.key

/-- A call of the public interface that changes the queue. -/
inductive Op (K : Type) where
  | insert (e : K)
  | erase (e : K)
  | erase_handle (i : Nat)
  | pop
  deriving DecidableEq, Repr

/-- Runs one call and keeps the queue it leaves; the returned value is dropped. -/
def step (o : Op K) (q : addressable_fifo_queue K) : Outcome (addressable_fifo_queue K) :=
  match o with
  | .insert e => match insert e q with
    | .ok r => .ok r.2 | .throws x => .throws x | .assertFailed => .assertFailed
    | .undefined => .undefined
  | .erase e => match erase e q with
    | .ok r => .ok r.2 | .throws x => .throws x | .assertFailed => .assertFailed
    | .undefined => .undefined
  | .erase_handle i => erase_handle i q
  | .pop => match pop q with
    | .ok r => .ok r.2 | .throws x => .throws x | .assertFailed => .assertFailed
    | .undefined => .undefined

/-- Runs a sequence of calls, stopping at the first one that does not return. -/
def run : List (Op K) → addressable_fifo_queue K → Outcome (addressable_fifo_queue K)
  | [], q => .ok q
  | o :: os, q => match step o q with
    | .ok q1 => run os q1
    | .throws x => .throws x
    | .assertFailed => .assertFailed
    | .undefined => .undefined

/-- States reachable from the empty queue by calls that return normally. -/
inductive Reachable : addressable_fifo_queue K → Prop where
  | create : Reachable create
  | step (o : Op K) (q q1 : addressable_fifo_queue K) :
      Reachable q → step o q = .ok q1 → Reachable q1

/-- The client loop `while (!q.empty()) out.push_back(q.pop());` with a bound
on the number of iterations; `none` when the bound is hit or a `pop` does not
return. -/
def drain : Nat → addressable_fifo_queue K → Option (List K × addressable_fifo_queue K)
  | 0, q => if q.empty then some ([], q) else none
  | n + 1, q =>
    if q.empty then some ([], q)
    else match pop q with
      | .ok (e, q1) => (drain n q1).map (fun r => (e :: r.1, r.2))
      | _ => none

/-- Representation invariant of the queue: node addresses are distinct and
below the allocation counter, no key is stored twice, and `meta` maps exactly
the keys of `vals`, each to the list node that stores it. -/
structure Inv (q : addressable_fifo_queue K) : Prop where
  vals_addr : (q.vals.map ListNode.addr).Nodup
  vals_lt : ∀ n ∈ q.vals, n.addr < q.heap
  vals_key : (q.vals.map ListNode.key).Nodup
  meta_addr : (q.meta.map MapNode.addr).Nodup
  meta_lt : ∀ n ∈ q.meta, n.addr < q.heap
  meta_key : (q.meta.map MapNode.key).Nodup
  meta_vals : ∀ m ∈ q.meta, (⟨m.it, m.key⟩ : ListNode K) ∈ q.vals
  vals_meta : ∀ n ∈ q.vals, ∃ m ∈ q.meta, m.key = n.key ∧ m.it = n.addr

/-- A call `insert(key)` or `erase(key)`, the calls of the sequences whose
surviving keys are compared with a mathematical set. -/
inductive KeyOp (K : Type) where
  | insert (e : K)
  | erase (e : K)
  deriving DecidableEq, Repr

/-- The interface call a `KeyOp` stands for. -/
def KeyOp.toOp : KeyOp K → Op K
  | .insert e => Op.insert e
  | .erase e => Op.erase e

/-- The mathematical set obtained by applying the insertions and removals of
the sequence, in order, to the empty set. -/
def specSet (ops : List (KeyOp K)) : Finset K :=
  ops.foldl (fun s o => match o with
    | .insert e => s ∪ {e}
    | .erase e => s \ {e}) ∅

/-- Scans the calls from index `i` on, remembering in `acc` the index of the
latest `insert(k)` seen. -/
def lastInsertPosAux (k : K) : List (KeyOp K) → Nat → Option Nat → Option Nat
  | [], _, acc => acc
  | o :: os, i, acc => lastInsertPosAux k os (i + 1) (if o = .insert k then some i else acc)

/-- Position in the sequence of the most recent `insert(k)`, if there is one. -/
def lastInsertPos (ops : List (KeyOp K)) (k : K) : Option Nat :=
  lastInsertPosAux k ops 0 none

/-- The call `o`, issued in state `q`, concerns a key other than `e`: it
inserts or erases another key, erases through a handle that designates another
key, or pops another key. -/
def Avoids (e : K) (o : Op K) (q : addressable_fifo_queue K) : Prop :=
  match o with
  | .insert k => k ≠ e
  | .erase k => k ≠ e
  | .erase_handle i => ∀ m ∈ q.meta, m.addr = i → m.key ≠ e
  | .pop => top q ≠ .ok e

/-- Runs a sequence of returning calls none of which concerns the key `e`. -/
inductive RunAvoiding (e : K) :
    List (Op K) → addressable_fifo_queue K → addressable_fifo_queue K → Prop where
  | nil (q : addressable_fifo_queue K) : RunAvoiding e [] q q
  | cons (o : Op K) (os : List (Op K)) (q q1 q2 : addressable_fifo_queue K) :
      Avoids e o q → step o q = .ok q1 → RunAvoiding e os q1 q2 → RunAvoiding e (o :: os) q q2

/-- The most recent `insert(a)` of the sequence comes before the most recent
`insert(b)`. -/
def PosLt (ops : List (KeyOp K)) (a b : K) : Prop :=
  ∃ i j, lastInsertPos ops a = some i ∧ lastInsertPos ops b = some j ∧ i < j

/-- The list `l` holds the surviving keys of the sequence `ops`, each once, in
increasing order of their most recent insertion. -/
structure Survivors (ops : List (KeyOp K)) (l : List K) : Prop where
  nodup : l.Nodup
  mem : ∀ k, k ∈ l ↔ k ∈ specSet ops
  pos : ∀ k ∈ l, ∃ i, lastInsertPos ops k = some i
  order : l.Pairwise (PosLt ops)

end addressable_fifo_queue

/-! ## addressable_priority_queue -/

/-- Node of the `std::set<std::pair<PriorityType, KeyType>, cmp>`: its address
and the stored pair (priority first, key second). -/
structure SetNode (P K : Type) where
  addr : Nat
  val : P × K
  deriving DecidableEq, Repr

/-- The comparison object `cmp` of the set: like `<` for pairs, but uses `Cmp`
(here `c`) for `<` on the first component. -/
def cmp {P K : Type} [LinearOrder K] (c : P → P → Bool) (left right : P × K) : Bool :=
  c left.1 right.1 || ((! c right.1 left.1) && decide (left.2 < right.2))

/-- The call `vals.insert(v)` of the ordered set, whose nodes are listed in
increasing order: the search passes the nodes that compare below `v`; at the
first node `x` that does not, `v` is linked in before `x` (at address `a`)
when `v` compares below `x`, and otherwise `x` is equivalent to `v` and the set
is left as it is. Returns the set, the iterator and whether `v` was inserted. -/
def set_insert {P K : Type} [LinearOrder K] (c : P → P → Bool) (a : Nat) (v : P × K) :
    List (SetNode P K) → List (SetNode P K) × Nat × Bool
  | [] => ([⟨a, v⟩], a, true)
  | x :: xs =>
    if cmp c x.val v then
      let r := set_insert c a v xs
      (x :: r.1, r.2.1, r.2.2)
    else if cmp c v x.val then (⟨a, v⟩ :: x :: xs, a, true)
    else (x :: xs, x.addr, false)

/-- State of an `addressable_priority_queue<KeyType, PriorityType, Cmp>`: the
ordered set `vals`, the map `meta` from keys to set iterators, and the next
free heap address. -/
structure addressable_priority_queue (K P : Type) where
  vals : List (SetNode P K)
  meta : List (MapNode K)
  heap : Nat
  deriving DecidableEq, Repr

namespace addressable_priority_queue

variable {K P : Type} [LinearOrder K]

/-- The constructor `addressable_priority_queue()`. -/
def create : addressable_priority_queue K P := { vals := [], meta := [], heap := 0 }

/-- The member `empty()`. -/
def empty (q : addressable_priority_queue K P) : Bool := q.vals.isEmpty

/-- The member `insert(e, o)`; returns the handle (a map iterator) and whether
the element was newly inserted. -/
def insert (c : P → P → Bool) (e : K) (o : P) (q : addressable_priority_queue K P) :
    Outcome ((Nat × Bool) × addressable_priority_queue K P) :=
  -- std::pair<container_iterator, bool> s = vals.insert(std::make_pair(o, e));
  let s := set_insert c q.heap (o, e) q.vals
  let heap1 := if s.2.2 then q.heap + 1 else q.heap
  -- std::pair<handle, bool> r = meta.insert(std::make_pair(e, s.first));
  match map_find e q.meta with
  | none =>
    .ok ((heap1, true), { vals := s.1, meta := q.meta ++ [{ addr := heap1, key := e, it := s.2.1 }],
                          heap := heap1 + 1 })
  | some n =>
    if s.2.2 then
      -- was already in with different priority:
      -- vals.erase(r.first->second); r.first->second = s.first;
      match erase_node SetNode.addr n.it s.1 with
      | none => .undefined
      | some vals2 =>
        .ok ((n.addr, false), { vals := vals2, meta := map_assign n.addr s.2.1 q.meta,
                                heap := heap1 })
    else
      .ok ((n.addr, false), { vals := s.1, meta := q.meta, heap := heap1 })

/-- The member `erase(const KeyType& e)`. -/
def erase (e : K) (q : addressable_priority_queue K P) :
    Outcome (Bool × addressable_priority_queue K P) :=
  match map_find e q.meta with
  | none => .ok (false, q)
  | some mi =>
    match erase_node SetNode.addr mi.it q.vals, erase_node MapNode.addr mi.addr q.meta with
    | some vals1, some meta1 => .ok (true, { q with vals := vals1, meta := meta1 })
    | _, _ => .undefined

/-- The member `erase(handle i)`: the handle must designate a live map node. -/
def erase_handle (i : Nat) (q : addressable_priority_queue K P) :
    Outcome (addressable_priority_queue K P) :=
  match q.meta.find? (fun n => n.addr == i) with
  | none => .undefined
  | some mi =>
    match erase_node SetNode.addr mi.it q.vals, erase_node MapNode.addr i q.meta with
    | some vals1, some meta1 => .ok { q with vals := vals1, meta := meta1 }
    | _, _ => .undefined

/-- The member `top()`: `vals.begin()->second`, which dereferences the end
iterator of an empty set. -/
def top (q : addressable_priority_queue K P) : Outcome K :=
  match q.vals with
  | [] => .undefined
  | n :: _ => .ok n.val.2

/-- The member `pop()`, with assertions enabled. -/
def pop (q : addressable_priority_queue K P) : Outcome (K × addressable_priority_queue K P) :=
  if q.empty then .assertFailed
  else
    match top q with
    | .ok e => .ok (e, { q with meta := map_erase_key e q.meta, vals := q.vals.tail })
    | .throws x => .throws x
    | .assertFailed => .assertFailed
    | .undefined => .undefined

/-- The (priority, key) pairs held by the queue, in the order of the set. -/
def entries (q : addressable_priority_queue K P) : List (P × K) := q.vals.map SetNode.val

/-- The keys held by the queue, in the order of the set. -/
def keys (q : addressable_priority_queue K P) : List K := q.vals.map (fun n => n.val.2)

/-- A call of the public interface that changes the queue. -/
inductive Op (K P : Type) where
  | insert (e : K) (o : P)
  | erase (e : K)
  | erase_handle (i : Nat)
  | pop

/-- Runs one call and keeps the queue it leaves; the returned value is dropped. -/
def step (c : P → P → Bool) (o : Op K P) (q : addressable_priority_queue K P) :
    Outcome (addressable_priority_queue K P) :=
  match o with
  | .insert e p => match insert c e p q with
    | .ok r => .ok r.2 | .throws x => .throws x | .assertFailed => .assertFailed
    | .undefined => .undefined
  | .erase e => match erase e q with
    | .ok r => .ok r.2 | .throws x => .throws x | .assertFailed => .assertFailed
    | .undefined => .undefined
  | .erase_handle i => erase_handle i q
  | .pop => match pop q with
    | .ok r => .ok r.2 | .throws x => .throws x | .assertFailed => .assertFailed
    | .undefined => .undefined

/-- States reachable from the empty queue by calls that return normally. -/
inductive Reachable (c : P → P → Bool) : addressable_priority_queue K P → Prop where
  | create : Reachable c create
  | step (o : Op K P) (q q1 : addressable_priority_queue K P) :
      Reachable c q → step c o q = .ok q1 → Reachable c q1

/-- The requirement on `Cmp`: a strict weak ordering of the priorities
(irreflexive, transitive, with a transitive incomparability relation). -/
structure StrictWeakOrder (c : P → P → Bool) : Prop where
  irrefl : ∀ a, c a a = false
  trans : ∀ a b d, c a b = true → c b d = true → c a d = true
  equiv_trans : ∀ a b d, c a b = false → c b a = false → c b d = false → c d b = false →
    c a d = false ∧ c d a = false

/-- Priorities `a` and `b` are equivalent under `Cmp`: neither is below the other. -/
def Equiv (c : P → P → Bool) (a b : P) : Prop := c a b = false ∧ c b a = false

/-- Representation invariant of the queue: node addresses are distinct and
below the allocation counter, the set is strictly increasing under `cmp`, no
key is stored twice, and `meta` maps exactly the keys of `vals`, each to the
set node that stores it. -/
structure Inv (c : P → P → Bool) (q : addressable_priority_queue K P) : Prop where
  vals_addr : (q.vals.map SetNode.addr).Nodup
  vals_lt : ∀ n ∈ q.vals, n.addr < q.heap
  vals_key : (q.vals.map (fun n => n.val.2)).Nodup
  sorted : q.vals.Pairwise (fun a b => cmp c a.val b.val = true)
  meta_addr : (q.meta.map MapNode.addr).Nodup
  meta_lt : ∀ n ∈ q.meta, n.addr < q.heap
  meta_key : (q.meta.map MapNode.key).Nodup
  meta_vals : ∀ m ∈ q.meta, ∃ n ∈ q.vals, n.addr = m.it ∧ n.val.2 = m.key
  vals_meta : ∀ n ∈ q.vals, ∃ m ∈ q.meta, m.key = n.val.2 ∧ m.it = n.addr

end addressable_priority_queue

/-! ## wfs_file_base: opening a file -/

/-- Modelled from the spec: the `int mode` bit mask of `file::open_mode`, whose
flag values are declared in `foxxll/io/file.hpp` (not among the sources). The
spec lists the flags `READ_ONLY | WRITE_ONLY | READ_WRITE | CREATE | TRUNCATE |
DIRECT | REQUIRE_DIRECT | SYNCHRONOUS | NO_LOCK`; each is one bit of the mask,
so a mode is given by which flags it has, and `mode & file::X` is non-zero
exactly when the flag `X` is set. -/
structure open_mode where
  RDONLY : Bool
  WRONLY : Bool
  RDWR : Bool
  CREAT : Bool
  TRUNC : Bool
  DIRECT : Bool
  REQUIRE_DIRECT : Bool
  SYNC : Bool
  NO_LOCK : Bool
  deriving DecidableEq, Repr

/-- A Windows `HANDLE`, as a number. -/
abbrev HANDLE := Nat

/-- The sentinel `INVALID_HANDLE_VALUE` of the Windows API, `(HANDLE)-1`. -/
def INVALID_HANDLE_VALUE : HANDLE := 0xFFFFFFFFFFFFFFFF

/-- Windows API constant `GENERIC_READ`. -/
def GENERIC_READ : Nat := 0x80000000

/-- Windows API constant `GENERIC_WRITE`. -/
def GENERIC_WRITE : Nat := 0x40000000

/-- Windows API constant `FILE_ATTRIBUTE_READONLY`. -/
def FILE_ATTRIBUTE_READONLY : Nat := 0x1

/-- Windows API constant `FILE_FLAG_NO_BUFFERING`, the unbuffered (direct I/O) flag. -/
def FILE_FLAG_NO_BUFFERING : Nat := 0x20000000

/-- Windows API constant `OPEN_ALWAYS`. -/
def OPEN_ALWAYS : Nat := 4

/-- Windows API constant `TRUNCATE_EXISTING`. -/
def TRUNCATE_EXISTING : Nat := 5

/-- The arguments of a `CreateFileA` call that `open_file_impl` chooses (the
security attributes and the template file are always `nullptr`). All four
numbers are `DWORD`s. -/
structure CreateFileArgs where
  lpFileName : String
  dwDesiredAccess : Nat
  dwShareMode : Nat
  dwCreationDisposition : Nat
  dwFlagsAndAttributes : Nat
  deriving DecidableEq, Repr

/-- The Windows API calls made by `wfs_file_base`, as transitions of an
operating-system state `σ`. A call that the API reports as failed returns
`INVALID_HANDLE_VALUE`, `false` or `none`. -/
structure WinApi (σ : Type) where
  CreateFileA : CreateFileArgs → σ → HANDLE × σ
  CloseHandle : HANDLE → σ → Bool × σ
  LockFile : HANDLE → σ → Bool × σ
  GetFileSizeEx : HANDLE → σ → Option Nat × σ
  SetFilePointerEx : HANDLE → Nat → σ → Bool × σ
  SetEndOfFile : HANDLE → σ → Bool × σ
  GetFullPathNameA : String → σ → Option String × σ
  GetDiskFreeSpaceA : String → σ → Option Nat × σ
  DeleteFileA : String → σ → Bool × σ

/-- A Windows API call, as recorded in the call history. -/
inductive ApiCall where
  | CreateFileA (args : CreateFileArgs)
  | CloseHandle (h : HANDLE)
  | LockFile (h : HANDLE)
  | GetFileSizeEx (h : HANDLE)
  | SetFilePointerEx (h : HANDLE) (pos : Nat)
  | SetEndOfFile (h : HANDLE)
  | GetFullPathNameA (name : String)
  | GetDiskFreeSpaceA (path : String)
  | DeleteFileA (name : String)
  deriving DecidableEq, Repr

/-- The operating-system state together with the history of the API calls made
so far, oldest first. -/
structure World (σ : Type) where
  os : σ
  calls : List ApiCall

/-- The call `::CreateFileA(...)`, recorded in the history. -/
def call_CreateFileA {σ : Type} (api : WinApi σ) (args : CreateFileArgs) (w : World σ) :
    HANDLE × World σ :=
  ((api.CreateFileA args w.os).1,
   { os := (api.CreateFileA args w.os).2, calls := w.calls ++ [ApiCall.CreateFileA args] })

/-- The value of `dwDesiredAccess` that `open_file_impl` computes from the mode. -/
def desired_access (mode : open_mode) : Nat :=
  let a := 0
  let a := if mode.RDONLY then a ||| GENERIC_READ else a
  let a := if mode.WRONLY then a ||| GENERIC_WRITE else a
  let a := if mode.RDWR then a ||| (GENERIC_READ ||| GENERIC_WRITE) else a
  a

/-- The value of `dwCreationDisposition` that `open_file_impl` computes from the mode. -/
def creation_disposition (mode : open_mode) : Nat :=
  if mode.TRUNC then 0 ||| TRUNCATE_EXISTING else 0 ||| OPEN_ALWAYS

/-- The value of `dwFlagsAndAttributes` that `open_file_impl` computes from the
mode for its first `CreateFileA` call; the unbuffered flag is set only in a
build without `FOXXLL_DIRECT_IO_OFF`. -/
def flags_and_attributes (direct_io_off : Bool) (mode : open_mode) : Nat :=
  let f := 0
  let f := if mode.RDONLY then f ||| FILE_ATTRIBUTE_READONLY else f
  let f := if mode.DIRECT && !direct_io_off then f ||| FILE_FLAG_NO_BUFFERING else f
  f

/-- The arguments of the first `CreateFileA` call of `open_file_impl`. -/
def first_args (direct_io_off : Bool) (filename : String) (mode : open_mode) : CreateFileArgs :=
  { lpFileName := filename, dwDesiredAccess := desired_access mode, dwShareMode := 0,
    dwCreationDisposition := creation_disposition mode,
    dwFlagsAndAttributes := flags_and_attributes direct_io_off mode }

/-- The statement `dwFlagsAndAttributes &= ~FILE_FLAG_NO_BUFFERING;` on a `DWORD`. -/
def clear_no_buffering (args : CreateFileArgs) : CreateFileArgs :=
  { args with dwFlagsAndAttributes :=
      args.dwFlagsAndAttributes &&& (0xFFFFFFFF ^^^ FILE_FLAG_NO_BUFFERING) }

/-- The function `open_file_impl(filename, mode)`. The parameter
`direct_io_off` is the value of the build macro `FOXXLL_DIRECT_IO_OFF`, which
is set outside the sources; log output is not modelled. -/
def open_file_impl {σ : Type} (api : WinApi σ) (direct_io_off : Bool) (filename : String)
    (mode : open_mode) (w : World σ) : Outcome HANDLE × World σ :=
  if mode.DIRECT && direct_io_off && mode.REQUIRE_DIRECT then
    -- DIRECT mode required, but the system does not support it
    (.ok INVALID_HANDLE_VALUE, w)
  else
    let r1 := call_CreateFileA api (first_args direct_io_off filename mode) w
    if r1.1 ≠ INVALID_HANDLE_VALUE then (.ok r1.1, r1.2)
    else if !direct_io_off && mode.DIRECT && !mode.REQUIRE_DIRECT then
      -- retrying without DIRECT mode
      let r2 := call_CreateFileA api
        (clear_no_buffering (first_args direct_io_off filename mode)) r1.2
      if r2.1 ≠ INVALID_HANDLE_VALUE then (.ok r2.1, r2.2)
      else (.throws (.io_error "CreateFile()"), r2.2)
    else (.throws (.io_error "CreateFile()"), r1.2)

/-- An operating system for examples: `CreateFileA` refuses unbuffered access
and otherwise returns the handle 7; the state counts the calls. -/
def no_direct_api : WinApi Nat :=
  { CreateFileA := fun a s =>
      (if a.dwFlagsAndAttributes &&& FILE_FLAG_NO_BUFFERING = 0 then 7
       else INVALID_HANDLE_VALUE, s + 1)
    CloseHandle := fun _ s => (true, s + 1)
    LockFile := fun _ s => (true, s + 1)
    GetFileSizeEx := fun _ s => (some 0, s + 1)
    SetFilePointerEx := fun _ _ s => (true, s + 1)
    SetEndOfFile := fun _ s => (true, s + 1)
    GetFullPathNameA := fun n s => (some n, s + 1)
    GetDiskFreeSpaceA := fun _ s => (some 4096, s + 1)
    DeleteFileA := fun _ s => (true, s + 1) }

/-- The mode `RDWR | CREAT | DIRECT`. -/
def mode_rdwr_direct : open_mode :=
  { RDONLY := false, WRONLY := false, RDWR := true, CREAT := true, TRUNC := false,
    DIRECT := true, REQUIRE_DIRECT := false, SYNC := false, NO_LOCK := false }

/-- The mode `RDWR | CREAT | DIRECT | REQUIRE_DIRECT`. -/
def mode_rdwr_require_direct : open_mode :=
  { RDONLY := false, WRONLY := false, RDWR := true, CREAT := true, TRUNC := false,
    DIRECT := true, REQUIRE_DIRECT := true, SYNC := false, NO_LOCK := false }

/-! ## wfs_file_base: the file object -/

/-- The call `::CloseHandle(h)`, recorded in the history. -/
def call_CloseHandle {σ : Type} (api : WinApi σ) (h : HANDLE) (w : World σ) : Bool × World σ :=
  ((api.CloseHandle h w.os).1,
   { os := (api.CloseHandle h w.os).2, calls := w.calls ++ [ApiCall.CloseHandle h] })

/-- The call `LockFile(h, 0, 0, 0xffffffff, 0xffffffff)`, recorded in the history. -/
def call_LockFile {σ : Type} (api : WinApi σ) (h : HANDLE) (w : World σ) : Bool × World σ :=
  ((api.LockFile h w.os).1,
   { os := (api.LockFile h w.os).2, calls := w.calls ++ [ApiCall.LockFile h] })

/-- The call `GetFileSizeEx(h, &result)`, recorded in the history. -/
def call_GetFileSizeEx {σ : Type} (api : WinApi σ) (h : HANDLE) (w : World σ) :
    Option Nat × World σ :=
  ((api.GetFileSizeEx h w.os).1,
   { os := (api.GetFileSizeEx h w.os).2, calls := w.calls ++ [ApiCall.GetFileSizeEx h] })

/-- The call `SetFilePointerEx(h, desired_pos, nullptr, FILE_BEGIN)`, recorded
in the history. -/
def call_SetFilePointerEx {σ : Type} (api : WinApi σ) (h : HANDLE) (pos : Nat) (w : World σ) :
    Bool × World σ :=
  ((api.SetFilePointerEx h pos w.os).1,
   { os := (api.SetFilePointerEx h pos w.os).2,
     calls := w.calls ++ [ApiCall.SetFilePointerEx h pos] })

/-- The call `SetEndOfFile(h)`, recorded in the history. -/
def call_SetEndOfFile {σ : Type} (api : WinApi σ) (h : HANDLE) (w : World σ) : Bool × World σ :=
  ((api.SetEndOfFile h w.os).1,
   { os := (api.SetEndOfFile h w.os).2, calls := w.calls ++ [ApiCall.SetEndOfFile h] })

/-- The call `GetFullPathNameA(name, sizeof(buf), buf, &part)`, recorded in the
history; the result is the full path written to `buf`. -/
def call_GetFullPathNameA {σ : Type} (api : WinApi σ) (name : String) (w : World σ) :
    Option String × World σ :=
  ((api.GetFullPathNameA name w.os).1,
   { os := (api.GetFullPathNameA name w.os).2,
     calls := w.calls ++ [ApiCall.GetFullPathNameA name] })

/-- The call `GetDiskFreeSpaceA(path, nullptr, &bytes_per_sector, nullptr,
nullptr)`, recorded in the history; the result is the sector size reported. -/
def call_GetDiskFreeSpaceA {σ : Type} (api : WinApi σ) (path : String) (w : World σ) :
    Option Nat × World σ :=
  ((api.GetDiskFreeSpaceA path w.os).1,
   { os := (api.GetDiskFreeSpaceA path w.os).2,
     calls := w.calls ++ [ApiCall.GetDiskFreeSpaceA path] })

/-- The characters of a path up to and including its last backslash. -/
def directory_chars : List Char → List Char
  | [] => []
  | c :: cs =>
    if cs.contains (Char.ofNat 92) then c :: directory_chars cs
    else if c = Char.ofNat 92 then [c] else []

/-- The content of `buf` after `part[0] = char();`: `part` points at the file
name, the last component of the full path, so the path is cut after its last
backslash. -/
def directory_part (buf : String) : String := String.mk (directory_chars buf.data)

/-- The data members of a `wfs_file_base` that the member functions of
`wfs_file_base.cpp` use (the mutex `fd_mutex_` is left out: the calls are taken
one at a time). The member `bytes_per_sector_` has no initializer, so it is
`none` until a value is assigned to it; reading it before that is undefined. -/
structure wfs_file_base where
  file_des_ : HANDLE
  mode_ : open_mode
  filename_ : String
  locked_ : Bool
  bytes_per_sector_ : Option Nat
  need_alignment_ : Bool
  deriving DecidableEq, Repr

/-- The member `lock()`. A member function returns its outcome together with
the object as the call leaves it (also when it throws) and the world. -/
def wfs_file_base.lock {σ : Type} (api : WinApi σ) (fb : wfs_file_base) (w : World σ) :
    Outcome Unit × wfs_file_base × World σ :=
  if fb.locked_ then (.ok (), fb, w) -- already locked
  else if (call_LockFile api fb.file_des_ w).1 = false then
    (.throws (.io_error "LockFile()"), fb, (call_LockFile api fb.file_des_ w).2)
  else (.ok (), { fb with locked_ := true }, (call_LockFile api fb.file_des_ w).2)

/-- The member `close()`. -/
def wfs_file_base.close {σ : Type} (api : WinApi σ) (fb : wfs_file_base) (w : World σ) :
    Outcome Unit × wfs_file_base × World σ :=
  if fb.file_des_ = INVALID_HANDLE_VALUE then (.ok (), fb, w)
  else if (call_CloseHandle api fb.file_des_ w).1 = false then
    (.throws (.io_error "CloseHandle() of file"), fb, (call_CloseHandle api fb.file_des_ w).2)
  else
    (.ok (), { fb with file_des_ := INVALID_HANDLE_VALUE },
      (call_CloseHandle api fb.file_des_ w).2)

/-- The member `_size()`. -/
def wfs_file_base._size {σ : Type} (api : WinApi σ) (fb : wfs_file_base) (w : World σ) :
    Outcome Nat × wfs_file_base × World σ :=
  match call_GetFileSizeEx api fb.file_des_ w with
  | (none, w1) => (.throws (.io_error "GetFileSizeEx()"), fb, w1)
  | (some result, w1) => (.ok result, fb, w1)

/-- The member `size()`. -/
def wfs_file_base.size {σ : Type} (api : WinApi σ) (fb : wfs_file_base) (w : World σ) :
    Outcome Nat × wfs_file_base × World σ :=
  wfs_file_base._size api fb w

/-- The mode `WRONLY` alone, as passed in `open_file_impl(filename_, WRONLY)`. -/
def mode_WRONLY : open_mode :=
  { RDONLY := false, WRONLY := true, RDWR := false, CREAT := false, TRUNC := false,
    DIRECT := false, REQUIRE_DIRECT := false, SYNC := false, NO_LOCK := false }

/-- The value of `(mode_ & file::DIRECT) && (newsize % bytes_per_sector_)` in
`set_size`; `none` when evaluating it is undefined: the second operand is
evaluated only in `DIRECT` mode, and then reads `bytes_per_sector_`, which must
have been assigned and must not be zero. -/
def direct_with_bad_size (fb : wfs_file_base) (newsize : Nat) : Option Bool :=
  if fb.mode_.DIRECT then
    match fb.bytes_per_sector_ with
    | none => none
    | some s => if s = 0 then none else some (decide (newsize % s ≠ 0))
  else some false

/-- The block of `set_size` that is run when `direct_with_bad_size` holds,
once before and once after the resize: `CloseHandle(file_des_)`, then
`file_des_ = INVALID_HANDLE_VALUE; file_des_ = open_file_impl(filename_, m);`. -/
def set_size_reopen {σ : Type} (api : WinApi σ) (direct_io_off : Bool) (m : open_mode)
    (fb : wfs_file_base) (w : World σ) : Outcome Unit × wfs_file_base × World σ :=
  if (call_CloseHandle api fb.file_des_ w).1 = false then
    (.throws (.io_error "closing file (call of ::CloseHandle() from set_size) "), fb,
      (call_CloseHandle api fb.file_des_ w).2)
  else
    match open_file_impl api direct_io_off fb.filename_ m (call_CloseHandle api fb.file_des_ w).2
      with
    | (.ok h, w2) => (.ok (), { fb with file_des_ := h }, w2)
    | (.throws e, w2) => (.throws e, { fb with file_des_ := INVALID_HANDLE_VALUE }, w2)
    | (.assertFailed, w2) => (.assertFailed, { fb with file_des_ := INVALID_HANDLE_VALUE }, w2)
    | (.undefined, w2) => (.undefined, { fb with file_des_ := INVALID_HANDLE_VALUE }, w2)

/-- The two calls of `set_size` that move the end of the file:
`SetFilePointerEx(file_des_, desired_pos, nullptr, FILE_BEGIN)` and
`SetEndOfFile(file_des_)`. Sizes are taken below 2^63, where the assignment
`desired_pos.QuadPart = newsize` to the signed 64-bit position is exact. -/
def set_size_move_end {σ : Type} (api : WinApi σ) (newsize : Nat) (fb : wfs_file_base)
    (w : World σ) : Outcome Unit × wfs_file_base × World σ :=
  if (call_SetFilePointerEx api fb.file_des_ newsize w).1 = false then
    (.throws (.io_error "SetFilePointerEx() in wfs_file_base::set_size(..)"), fb,
      (call_SetFilePointerEx api fb.file_des_ newsize w).2)
  else if (call_SetEndOfFile api fb.file_des_
      (call_SetFilePointerEx api fb.file_des_ newsize w).2).1 = false then
    (.throws (.io_error "SetEndOfFile()"), fb,
      (call_SetEndOfFile api fb.file_des_
        (call_SetFilePointerEx api fb.file_des_ newsize w).2).2)
  else
    (.ok (), fb,
      (call_SetEndOfFile api fb.file_des_
        (call_SetFilePointerEx api fb.file_des_ newsize w).2).2)

/-- The member `set_size(newsize)`. -/
def wfs_file_base.set_size {σ : Type} (api : WinApi σ) (direct_io_off : Bool) (newsize : Nat)
    (fb : wfs_file_base) (w : World σ) : Outcome Unit × wfs_file_base × World σ :=
  -- offset_type cur_size = _size();
  match wfs_file_base._size api fb w with
  | (.throws e, fb1, w1) => (.throws e, fb1, w1)
  | (.assertFailed, fb1, w1) => (.assertFailed, fb1, w1)
  | (.undefined, fb1, w1) => (.undefined, fb1, w1)
  | (.ok _, fb1, w1) =>
    if fb1.mode_.RDONLY then (.ok (), fb1, w1)
    else
      match direct_with_bad_size fb1 newsize with
      | none => (.undefined, fb1, w1)
      | some false => set_size_move_end api newsize fb1 w1
      | some true =>
        match set_size_reopen api direct_io_off mode_WRONLY fb1 w1 with
        | (.ok _, fb2, w2) =>
          match set_size_move_end api newsize fb2 w2 with
          | (.ok _, fb3, w3) =>
            set_size_reopen api direct_io_off { fb3.mode_ with TRUNC := false } fb3 w3
          | r => r
        | r => r

/-- The member `close_remove()`. -/
def wfs_file_base.close_remove {σ : Type} (api : WinApi σ) (fb : wfs_file_base) (w : World σ) :
    Outcome Unit × wfs_file_base × World σ :=
  match wfs_file_base.close api fb w with
  | (.ok _, fb1, w1) =>
    (.ok (), fb1, { os := (api.DeleteFileA fb1.filename_ w1.os).2,
                    calls := w1.calls ++ [ApiCall.DeleteFileA fb1.filename_] })
  | r => r

/-- The constructor `wfs_file_base(filename, mode)`; when it throws there is no
object. The member initializers set `file_des_`, `mode_`, `filename_` and
`locked_`; `bytes_per_sector_` is not among them. In the branch where the full
path is resolved, the declaration `DWORD bytes_per_sector_;` introduces a local
variable of the member's name, and both assignments that follow it (`= 512`
and `bytes_per_sector_ = bytes_per_sector_`) assign to that local variable. -/
def wfs_file_base.wfs_file_base {σ : Type} (api : WinApi σ) (direct_io_off : Bool)
    (filename : String) (mode : open_mode) (w : World σ) :
    Outcome wfs_file_base × World σ :=
  -- file_des_ = open_file_impl(filename, mode); need_alignment_ = (mode & file::DIRECT) != 0;
  match open_file_impl api direct_io_off filename mode w with
  | (.throws e, w1) => (.throws e, w1)
  | (.assertFailed, w1) => (.assertFailed, w1)
  | (.undefined, w1) => (.undefined, w1)
  | (.ok h, w1) =>
    -- if (!(mode & NO_LOCK)) lock();
    match (if !mode.NO_LOCK then
            lock api
              { file_des_ := h, mode_ := mode, filename_ := filename, locked_ := false,
                bytes_per_sector_ := none, need_alignment_ := mode.DIRECT } w1
           else
            (.ok (), { file_des_ := h, mode_ := mode, filename_ := filename, locked_ := false,
                       bytes_per_sector_ := none, need_alignment_ := mode.DIRECT }, w1)) with
    | (.throws e, _, w2) => (.throws e, w2)
    | (.assertFailed, _, w2) => (.assertFailed, w2)
    | (.undefined, _, w2) => (.undefined, w2)
    | (.ok _, fb, w2) =>
      if !mode.RDONLY && mode.DIRECT then
        match call_GetFullPathNameA api filename w2 with
        | (none, w3) => (.ok { fb with bytes_per_sector_ := some 512 }, w3)
        | (some buf, w3) =>
          -- DWORD bytes_per_sector_;  (the local variable)
          match call_GetDiskFreeSpaceA api (directory_part buf) w3 with
          | (none, w4) => (.ok fb, w4)   -- the local variable is set to 512
          | (some _, w4) => (.ok fb, w4) -- the local variable is assigned to itself
      else (.ok fb, w2)

/-- An operating system for examples: every `CreateFileA` returns a fresh
handle (1, 2, 3, ...), resolving the full path fails, and every other call
succeeds; the state counts the handles given out. -/
def fresh_handle_api : WinApi Nat :=
  { CreateFileA := fun _ s => (s + 1, s + 1)
    CloseHandle := fun _ s => (true, s)
    LockFile := fun _ s => (true, s)
    GetFileSizeEx := fun _ s => (some 0, s)
    SetFilePointerEx := fun _ _ s => (true, s)
    SetEndOfFile := fun _ s => (true, s)
    GetFullPathNameA := fun _ s => (none, s)
    GetDiskFreeSpaceA := fun _ s => (some 4096, s)
    DeleteFileA := fun _ s => (true, s) }

/-- The mode `RDWR | CREAT | TRUNC | DIRECT`. -/
def mode_rdwr_trunc_direct : open_mode :=
  { RDONLY := false, WRONLY := false, RDWR := true, CREAT := true, TRUNC := true,
    DIRECT := true, REQUIRE_DIRECT := false, SYNC := false, NO_LOCK := false }

/-- The full path `C:` + backslash + `disk0`. -/
def example_full_path : String := String.mk ['C', ':', Char.ofNat 92, 'd', 'i', 's', 'k', '0']

/-- An operating system for examples: as `fresh_handle_api`, but resolving the
full path succeeds; the sector size reported is 4096. -/
def sector_4096_api : WinApi Nat :=
  { fresh_handle_api with GetFullPathNameA := fun _ s => (some example_full_path, s) }

/-- An operating system for examples: as `sector_4096_api`, but querying the
disk's sector size fails. -/
def no_sector_size_api : WinApi Nat :=
  { sector_4096_api with GetDiskFreeSpaceA := fun _ s => (none, s) }

/-! ## disk_queue -/

/-- The enumeration `disk_queue::priority_op`. -/
inductive priority_op where
  | READ
  | WRITE
  | NONE
  deriving DecidableEq, Repr

/-- The data members of a `disk_queue` that hold requests: the two
`std::queue<request_ptr>` (oldest request first) and the semaphore `sem`, as
its count. The mutexes and the thread are left out: the calls are taken one at
a time. `R` stands for `request_ptr`, declared in `request.h`, which is not
among the sources. -/
structure disk_queue (R : Type) where
  write_queue : List R
  read_queue : List R
  sem : Nat
  deriving DecidableEq, Repr

/-- The static constant `_priority_op` of `disk_queue`. -/
def disk_queue._priority_op : priority_op := priority_op.WRITE

/-- The member `set_priority_op(op)`: its body is `UNUSED(op);`, the assignment
to `_priority_op` is commented out. -/
def disk_queue.set_priority_op {R : Type} (op : priority_op) (q : disk_queue R) :
    Outcome Unit × disk_queue R :=
  (.ok (), q)

/-- Modelled from the spec: the constructor `disk_queue(n)`, defined in
`disk_queue.cpp`, which is not among the sources. Both queues start empty and
no permit is released: "each enqueue increments it, the worker decrements it
before processing, so the worker blocks (suspends) only when both queues are
empty". -/
def disk_queue.create {R : Type} : disk_queue R :=
  { write_queue := [], read_queue := [], sem := 0 }

/-- Modelled from the spec: the member `add_readreq(req)`, defined in
`disk_queue.cpp`, which is not among the sources: "enqueue and release one
permit to the worker". -/
def disk_queue.add_readreq {R : Type} (req : R) (q : disk_queue R) : disk_queue R :=
  { q with read_queue := q.read_queue ++ [req], sem := q.sem + 1 }

/-- Modelled from the spec: the member `add_writereq(req)`, defined in
`disk_queue.cpp`, which is not among the sources: "enqueue and release one
permit to the worker". -/
def disk_queue.add_writereq {R : Type} (req : R) (q : disk_queue R) : disk_queue R :=
  { q with write_queue := q.write_queue ++ [req], sem := q.sem + 1 }

/-- A request taken by the worker and handed to the file layer, with the queue
it was taken from. -/
inductive Dispatched (R : Type) where
  | WRITE (req : R)
  | READ (req : R)
  deriving DecidableEq, Repr

/-- Takes the oldest request of the write queue, if there is one. -/
def disk_queue.take_write {R : Type} (q : disk_queue R) : Option (Dispatched R × disk_queue R) :=
  match q.write_queue with
  | [] => none
  | req :: rest => some (Dispatched.WRITE req, { q with write_queue := rest })

/-- Takes the oldest request of the read queue, if there is one. -/
def disk_queue.take_read {R : Type} (q : disk_queue R) : Option (Dispatched R × disk_queue R) :=
  match q.read_queue with
  | [] => none
  | req :: rest => some (Dispatched.READ req, { q with read_queue := rest })

/-- Modelled from the spec: the selection step of `disk_queue::worker`, defined
in `disk_queue.cpp`, which is not among the sources: the worker "selects the
next request according to the fairness policy (if policy is WRITE and the
write queue is non-empty, take from it; else take from read queue; else take
from write queue)". -/
def disk_queue.select {R : Type} (policy : priority_op) (q : disk_queue R) :
    Option (Dispatched R × disk_queue R) :=
  if policy = priority_op.WRITE ∧ q.write_queue.isEmpty = false then q.take_write
  else if q.read_queue.isEmpty = false then q.take_read
  else q.take_write

/-- Modelled from the spec: one pickup of the loop of `disk_queue::worker`,
defined in `disk_queue.cpp`, which is not among the sources. The worker blocks
(`none`) while the semaphore has no permit; otherwise it "decrements it before
processing" and selects under the policy `_priority_op`. -/
def disk_queue.worker_pickup {R : Type} (q : disk_queue R) :
    Option (Dispatched R × disk_queue R) :=
  if q.sem = 0 then none
  else disk_queue.select disk_queue._priority_op { q with sem := q.sem - 1 }

/-- What happens at a disk queue: a producer submits a read or a write, or the
worker attempts a pickup. -/
inductive QueueEvent (R : Type) where
  | add_readreq (req : R)
  | add_writereq (req : R)
  | pickup
  deriving DecidableEq, Repr

/-- Runs the events in order on a queue and the log of the requests dispatched
so far; a pickup attempted while the worker is blocked changes nothing. -/
def run_events {R : Type} :
    List (QueueEvent R) → disk_queue R × List (Dispatched R) → disk_queue R × List (Dispatched R)
  | [], s => s
  | .add_readreq req :: es, s => run_events es (s.1.add_readreq req, s.2)
  | .add_writereq req :: es, s => run_events es (s.1.add_writereq req, s.2)
  | .pickup :: es, s =>
    match s.1.worker_pickup with
    | none => run_events es s
    | some r => run_events es (r.2, s.2 ++ [r.1])

/-- The write requests submitted by the events, in submission order. -/
def submitted_writes {R : Type} (es : List (QueueEvent R)) : List R :=
  es.filterMap (fun e => match e with
    | .add_writereq req => some req
    | _ => none)

/-- The read requests submitted by the events, in submission order. -/
def submitted_reads {R : Type} (es : List (QueueEvent R)) : List R :=
  es.filterMap (fun e => match e with
    | .add_readreq req => some req
    | _ => none)

/-- The write requests of a dispatch log, in dispatch order. -/
def dispatched_writes {R : Type} (log : List (Dispatched R)) : List R :=
  log.filterMap (fun d => match d with
    | .WRITE req => some req
    | _ => none)

/-- The read requests of a dispatch log, in dispatch order. -/
def dispatched_reads {R : Type} (log : List (Dispatched R)) : List R :=
  log.filterMap (fun d => match d with
    | .READ req => some req
    | _ => none)

/-- Modelled from the spec: the part of a Request that the dispatch scenario
names, its "byte offset" and "byte length"; the request class is declared in
`request.h`, which is not among the sources. -/
structure request where
  offset : Nat
  bytes : Nat
  deriving DecidableEq, Repr

/-- The bookkeeping invariant of a queue and its dispatch log after the events
`es`: the semaphore counts the pending requests, and the requests submitted of
each kind are those dispatched, in order, followed by those still pending. -/
structure QueueInv {R : Type} (es : List (QueueEvent R))
    (s : disk_queue R × List (Dispatched R)) : Prop where
  permits : s.1.sem = s.1.write_queue.length + s.1.read_queue.length
  writes : submitted_writes es = dispatched_writes s.2 ++ s.1.write_queue
  reads : submitted_reads es = dispatched_reads s.2 ++ s.1.read_queue

/-- A member call that took the object `fb` and the world `w` to `fb1` and
`w1` left `locked_` as it was and made no `LockFile` call. -/
def NoLocking {σ : Type} (fb : wfs_file_base) (w : World σ) (fb1 : wfs_file_base)
    (w1 : World σ) : Prop :=
  fb1.locked_ = fb.locked_ ∧
  ∃ cs, w1.calls = w.calls ++ cs ∧ ∀ h, ApiCall.LockFile h ∉ cs

/-! # Lemmas and theorems -/

/-! ## Container lemmas -/

theorem erase_node_of_mem {N : Type} (addr : N → Nat) (it : Nat) (l : List N)
    (h : ∃ n ∈ l, addr n = it) :
    erase_node addr it l = some (l.filter (fun n => addr n != it)) := by
  unfold erase_node
  rw [if_pos]
  simpa [List.any_eq_true] using h

theorem erase_node_some {N : Type} (addr : N → Nat) (it : Nat) (l l1 : List N)
    (h : erase_node addr it l = some l1) :
    (∃ n ∈ l, addr n = it) ∧ l1 = l.filter (fun n => addr n != it) := by
  unfold erase_node at h
  split at h
  · rename_i hany
    refine ⟨by simpa [List.any_eq_true] using hany, ?_⟩
    simpa using h.symm
  · simp at h

theorem map_find_none {K : Type} [DecidableEq K] (e : K) (m : List (MapNode K)) :
    map_find e m = none ↔ ∀ n ∈ m, n.key ≠ e := by
  simp [map_find, List.find?_eq_none]

theorem map_find_some {K : Type} [DecidableEq K] (e : K) (m : List (MapNode K)) (n : MapNode K)
    (h : map_find e m = some n) : n ∈ m ∧ n.key = e := by
  unfold map_find at h
  exact ⟨List.mem_of_find?_eq_some h, by simpa using List.find?_some h⟩

theorem map_find_of_mem {K : Type} [DecidableEq K] (m : List (MapNode K)) (n : MapNode K)
    (hk : (m.map MapNode.key).Nodup) (hn : n ∈ m) : map_find n.key m = some n := by
  cases hf : map_find n.key m with
  | none => exact absurd rfl ((map_find_none _ _).1 hf n hn)
  | some n1 =>
    obtain ⟨h1, h2⟩ := map_find_some _ _ _ hf
    rw [List.inj_on_of_nodup_map hk h1 hn h2]

theorem find_addr_of_mem {K : Type} (m : List (MapNode K)) (n : MapNode K)
    (ha : (m.map MapNode.addr).Nodup) (hn : n ∈ m) :
    m.find? (fun x => x.addr == n.addr) = some n := by
  cases hf : m.find? (fun x => x.addr == n.addr) with
  | none =>
    have := List.find?_eq_none.1 hf n hn
    simp at this
  | some n1 =>
    have h1 := List.mem_of_find?_eq_some hf
    have h2 : n1.addr = n.addr := by simpa using List.find?_some hf
    rw [List.inj_on_of_nodup_map ha h1 hn h2]

theorem map_assign_addr {K : Type} (i ei : Nat) (m : List (MapNode K)) :
    (map_assign i ei m).map MapNode.addr = m.map MapNode.addr := by
  unfold map_assign
  rw [List.map_map]
  apply List.map_congr_left
  intro n _
  simp only [Function.comp]
  split <;> rfl

theorem map_assign_key {K : Type} (i ei : Nat) (m : List (MapNode K)) :
    (map_assign i ei m).map MapNode.key = m.map MapNode.key := by
  unfold map_assign
  rw [List.map_map]
  apply List.map_congr_left
  intro n _
  simp only [Function.comp]
  split <;> rfl

theorem mem_map_assign {K : Type} (i ei : Nat) (m : List (MapNode K)) (x : MapNode K) :
    x ∈ map_assign i ei m ↔
      ∃ n ∈ m, (n.addr = i ∧ x = ⟨n.addr, n.key, ei⟩) ∨ (n.addr ≠ i ∧ x = n) := by
  unfold map_assign
  rw [List.mem_map]
  constructor
  · rintro ⟨n, hn, rfl⟩
    refine ⟨n, hn, ?_⟩
    by_cases h : n.addr = i
    · left; simp [h]
    · right; simp [h]
  · rintro ⟨n, hn, h | h⟩
    · exact ⟨n, hn, by simp [h.1, h.2]⟩
    · exact ⟨n, hn, by simp [h.1, h.2]⟩

/-! ## addressable_fifo_queue: the operations on states satisfying the invariant -/

namespace addressable_fifo_queue

variable {K : Type} [DecidableEq K]

theorem fifo_mem_keys_iff_meta (q : addressable_fifo_queue K) (hq : Inv q) (e : K) :
    e ∈ keys q ↔ ∃ m ∈ q.meta, m.key = e := by
  constructor
  · intro h
    obtain ⟨n, hn, rfl⟩ := List.mem_map.1 h
    obtain ⟨m, hm, hk, _⟩ := hq.vals_meta n hn
    exact ⟨m, hm, hk⟩
  · rintro ⟨m, hm, rfl⟩
    exact List.mem_map.2 ⟨_, hq.meta_vals m hm, rfl⟩

theorem mem_keys_iff_meta_keys (q : addressable_fifo_queue K) (hq : Inv q) (e : K) :
    e ∈ keys q ↔ e ∈ q.meta.map MapNode.key := by
  rw [fifo_mem_keys_iff_meta q hq, List.mem_map]

/-- Erasing the list node a map node points to removes exactly that map node's key. -/
theorem fifo_filter_addr_eq_filter_key (q : addressable_fifo_queue K) (hq : Inv q)
    (m : MapNode K) (hm : m ∈ q.meta) :
    q.vals.filter (fun n => n.addr != m.it) = q.vals.filter (fun n => n.key != m.key) := by
  apply List.filter_congr
  intro n hn
  have hmv := hq.meta_vals m hm
  by_cases ha : n.addr = m.it
  · have : n = ⟨m.it, m.key⟩ := List.inj_on_of_nodup_map hq.vals_addr hn hmv ha
    subst this
    simp
  · have hk : n.key ≠ m.key := by
      intro hk
      have : n = ⟨m.it, m.key⟩ := List.inj_on_of_nodup_map hq.vals_key hn hmv hk
      exact ha (by rw [this])
    have h1 : (n.addr != m.it) = true := by simpa using ha
    have h2 : (n.key != m.key) = true := by simpa using hk
    rw [h1, h2]

theorem fifo_filter_meta_addr_eq_filter_key (q : addressable_fifo_queue K) (hq : Inv q)
    (m : MapNode K) (hm : m ∈ q.meta) :
    q.meta.filter (fun n => n.addr != m.addr) = q.meta.filter (fun n => n.key != m.key) := by
  apply List.filter_congr
  intro n hn
  by_cases ha : n.addr = m.addr
  · have : n = m := List.inj_on_of_nodup_map hq.meta_addr hn hm ha
    subst this
    simp
  · have hk : n.key ≠ m.key := by
      intro hk
      exact ha (by rw [List.inj_on_of_nodup_map hq.meta_key hn hm hk])
    have h1 : (n.addr != m.addr) = true := by simpa using ha
    have h2 : (n.key != m.key) = true := by simpa using hk
    rw [h1, h2]

theorem fifo_keys_filter (l : List (ListNode K)) (e : K) :
    (l.filter (fun n => n.key != e)).map ListNode.key
      = (l.map ListNode.key).filter (fun k => k != e) := by
  rw [List.filter_map]
  rfl

/-- Removing the key `e` from both containers keeps the invariant. -/
theorem fifo_Inv_remove_key (q : addressable_fifo_queue K) (hq : Inv q) (e : K) :
    Inv { vals := q.vals.filter (fun n => n.key != e),
          meta := q.meta.filter (fun n => n.key != e), heap := q.heap } := by
  constructor
  · exact hq.vals_addr.sublist ((List.filter_sublist _).map _)
  · intro n hn
    exact hq.vals_lt n (List.mem_filter.1 hn).1
  · exact hq.vals_key.sublist ((List.filter_sublist _).map _)
  · exact hq.meta_addr.sublist ((List.filter_sublist _).map _)
  · intro n hn
    exact hq.meta_lt n (List.mem_filter.1 hn).1
  · exact hq.meta_key.sublist ((List.filter_sublist _).map _)
  · intro m hm
    obtain ⟨hm1, hm2⟩ := List.mem_filter.1 hm
    exact List.mem_filter.2 ⟨hq.meta_vals m hm1, hm2⟩
  · intro n hn
    obtain ⟨hn1, hn2⟩ := List.mem_filter.1 hn
    obtain ⟨m, hm, hk, hi⟩ := hq.vals_meta n hn1
    exact ⟨m, List.mem_filter.2 ⟨hm, by rw [hk]; exact hn2⟩, hk, hi⟩

theorem fifo_Inv_create : Inv (create : addressable_fifo_queue K) := by
  constructor <;> simp [create]

/-- On a state satisfying the invariant `erase(e)` returns whether `e` was
held and leaves both containers without `e`. -/
theorem fifo_erase_eq (q : addressable_fifo_queue K) (hq : Inv q) (e : K) :
    erase e q = .ok (decide (e ∈ keys q),
      { vals := q.vals.filter (fun n => n.key != e),
        meta := q.meta.filter (fun n => n.key != e), heap := q.heap }) := by
  unfold erase
  cases hf : map_find e q.meta with
  | none =>
    have hnone := (map_find_none _ _).1 hf
    have hk : e ∉ keys q := by
      rw [fifo_mem_keys_iff_meta q hq]
      rintro ⟨m, hm, hme⟩
      exact hnone m hm hme
    have h1 : q.meta.filter (fun n => n.key != e) = q.meta :=
      List.filter_eq_self.2 (fun n hn => by simpa using hnone n hn)
    have h2 : q.vals.filter (fun n => n.key != e) = q.vals :=
      List.filter_eq_self.2 (fun n hn => by
        have : n.key ≠ e := fun h => hk (h ▸ List.mem_map.2 ⟨n, hn, rfl⟩)
        simpa using this)
    simp [hk, h1, h2]
  | some m =>
    obtain ⟨hm, hme⟩ := map_find_some _ _ _ hf
    subst hme
    have hk : m.key ∈ keys q := (fifo_mem_keys_iff_meta q hq _).2 ⟨m, hm, rfl⟩
    have e1 := erase_node_of_mem ListNode.addr m.it q.vals ⟨_, hq.meta_vals m hm, rfl⟩
    have e2 := erase_node_of_mem MapNode.addr m.addr q.meta ⟨_, hm, rfl⟩
    rw [fifo_filter_addr_eq_filter_key q hq m hm] at e1
    rw [fifo_filter_meta_addr_eq_filter_key q hq m hm] at e2
    simp [e1, e2, hk]

/-- A handle that designates the map node `m` erases the key of `m`. -/
theorem fifo_erase_handle_eq (q : addressable_fifo_queue K) (hq : Inv q) (m : MapNode K)
    (hm : m ∈ q.meta) :
    erase_handle m.addr q = .ok
      { vals := q.vals.filter (fun n => n.key != m.key),
        meta := q.meta.filter (fun n => n.key != m.key), heap := q.heap } := by
  unfold erase_handle
  rw [find_addr_of_mem q.meta m hq.meta_addr hm]
  have e1 := erase_node_of_mem ListNode.addr m.it q.vals ⟨_, hq.meta_vals m hm, rfl⟩
  have e2 := erase_node_of_mem MapNode.addr m.addr q.meta ⟨_, hm, rfl⟩
  rw [fifo_filter_addr_eq_filter_key q hq m hm] at e1
  rw [fifo_filter_meta_addr_eq_filter_key q hq m hm] at e2
  simp [e1, e2]

/-- A call `erase(handle)` that returns was given the address of a live map node. -/
theorem fifo_erase_handle_ok (q q1 : addressable_fifo_queue K) (i : Nat)
    (h : erase_handle i q = .ok q1) : ∃ m ∈ q.meta, m.addr = i := by
  unfold erase_handle at h
  cases hf : q.meta.find? (fun n => n.addr == i) with
  | none => simp [hf] at h
  | some m =>
    exact ⟨m, List.mem_of_find?_eq_some hf, by simpa using List.find?_some hf⟩

/-- On a non-empty state satisfying the invariant `pop()` returns the key of
the front node and leaves both containers without it. -/
theorem fifo_pop_eq (q : addressable_fifo_queue K) (hq : Inv q) (n : ListNode K)
    (rest : List (ListNode K)) (hv : q.vals = n :: rest) :
    top q = .ok n.key ∧
    pop q = .ok (n.key,
      { vals := rest, meta := q.meta.filter (fun x => x.key != n.key), heap := q.heap }) ∧
    rest = q.vals.filter (fun x => x.key != n.key) := by
  refine ⟨by simp [top, hv], by simp [pop, empty, top, hv, map_erase_key], ?_⟩
  have hk := hq.vals_key
  rw [hv] at hk ⊢
  rw [List.map_cons, List.nodup_cons] at hk
  rw [List.filter_cons_of_neg (by simp)]
  symm
  apply List.filter_eq_self.2
  intro x hx
  have : x.key ≠ n.key := fun h => hk.1 (h ▸ List.mem_map.2 ⟨x, hx, rfl⟩)
  simpa using this

/-- Inserting a key that is not held appends a list node and a map node. -/
theorem insert_new (q : addressable_fifo_queue K) (hq : Inv q) (e : K) (he : e ∉ keys q) :
    insert e q = .ok ((q.heap + 1, true),
      { vals := q.vals ++ [⟨q.heap, e⟩], meta := q.meta ++ [⟨q.heap + 1, e, q.heap⟩],
        heap := q.heap + 2 }) ∧
    Inv { vals := q.vals ++ [⟨q.heap, e⟩], meta := q.meta ++ [⟨q.heap + 1, e, q.heap⟩],
          heap := q.heap + 2 } := by
  have hnone : ∀ m ∈ q.meta, m.key ≠ e := fun m hm hme =>
    he ((fifo_mem_keys_iff_meta q hq e).2 ⟨m, hm, hme⟩)
  refine ⟨by simp [insert, (map_find_none e q.meta).2 hnone], ?_⟩
  constructor
  · simp only [List.map_append, List.map_cons, List.map_nil]
    rw [List.nodup_append]
    refine ⟨hq.vals_addr, List.nodup_singleton _, ?_⟩
    intro a ha hb
    obtain ⟨n, hn, rfl⟩ := List.mem_map.1 ha
    have := hq.vals_lt n hn
    simp at hb
    omega
  · intro n hn
    rcases List.mem_append.1 hn with h | h
    · have := hq.vals_lt n h
      show n.addr < q.heap + 2
      omega
    · simp at h
      subst h
      show q.heap < q.heap + 2
      omega
  · simp only [List.map_append, List.map_cons, List.map_nil]
    rw [List.nodup_append]
    refine ⟨hq.vals_key, List.nodup_singleton _, ?_⟩
    intro a ha hb
    simp at hb
    subst hb
    exact he ha
  · simp only [List.map_append, List.map_cons, List.map_nil]
    rw [List.nodup_append]
    refine ⟨hq.meta_addr, List.nodup_singleton _, ?_⟩
    intro a ha hb
    obtain ⟨n, hn, rfl⟩ := List.mem_map.1 ha
    have := hq.meta_lt n hn
    simp at hb
    omega
  · intro n hn
    rcases List.mem_append.1 hn with h | h
    · have := hq.meta_lt n h
      show n.addr < q.heap + 2
      omega
    · simp at h
      subst h
      show q.heap + 1 < q.heap + 2
      omega
  · simp only [List.map_append, List.map_cons, List.map_nil]
    rw [List.nodup_append]
    refine ⟨hq.meta_key, List.nodup_singleton _, ?_⟩
    intro a ha hb
    obtain ⟨n, hn, rfl⟩ := List.mem_map.1 ha
    simp at hb
    exact hnone n hn hb
  · intro m hm
    rcases List.mem_append.1 hm with h | h
    · exact List.mem_append_left _ (hq.meta_vals m h)
    · simp at h
      subst h
      simp
  · intro n hn
    rcases List.mem_append.1 hn with h | h
    · obtain ⟨m, hm, hk, hi⟩ := hq.vals_meta n h
      exact ⟨m, List.mem_append_left _ hm, hk, hi⟩
    · simp at h
      subst h
      exact ⟨⟨q.heap + 1, e, q.heap⟩, by simp, rfl, rfl⟩

/-- Inserting a key that is held, through the map node `m` that holds it:
the old list node is unlinked, a new one is appended and `m` is redirected. -/
theorem insert_old (q : addressable_fifo_queue K) (hq : Inv q) (m : MapNode K)
    (hm : m ∈ q.meta) :
    insert m.key q = .ok ((m.addr, false),
      { vals := q.vals.filter (fun n => n.key != m.key) ++ [⟨q.heap, m.key⟩],
        meta := map_assign m.addr q.heap q.meta, heap := q.heap + 1 }) ∧
    Inv { vals := q.vals.filter (fun n => n.key != m.key) ++ [⟨q.heap, m.key⟩],
          meta := map_assign m.addr q.heap q.meta, heap := q.heap + 1 } := by
  have hmv := hq.meta_vals m hm
  have hlt := hq.vals_lt _ hmv
  simp only at hlt
  constructor
  · unfold insert
    rw [map_find_of_mem q.meta m hq.meta_key hm]
    simp only
    rw [erase_node_of_mem ListNode.addr m.it _ ⟨_, List.mem_append_left _ hmv, rfl⟩]
    simp only [List.filter_append, fifo_filter_addr_eq_filter_key q hq m hm]
    have : (q.heap != m.it) = true := by
      simp only [bne_iff_ne]
      omega
    simp [List.filter_cons, this]
  · constructor
    · simp only [List.map_append, List.map_cons, List.map_nil]
      rw [List.nodup_append]
      refine ⟨hq.vals_addr.sublist ((List.filter_sublist _).map _), List.nodup_singleton _, ?_⟩
      intro a ha hb
      obtain ⟨n, hn, rfl⟩ := List.mem_map.1 ha
      have := hq.vals_lt n (List.mem_filter.1 hn).1
      simp at hb
      omega
    · intro n hn
      rcases List.mem_append.1 hn with h | h
      · have := hq.vals_lt n (List.mem_filter.1 h).1
        show n.addr < q.heap + 1
        omega
      · simp at h
        subst h
        show q.heap < q.heap + 1
        omega
    · simp only [List.map_append, List.map_cons, List.map_nil]
      rw [List.nodup_append]
      refine ⟨hq.vals_key.sublist ((List.filter_sublist _).map _), List.nodup_singleton _, ?_⟩
      intro a ha hb
      obtain ⟨n, hn, rfl⟩ := List.mem_map.1 ha
      simp at hb
      have := (List.mem_filter.1 hn).2
      simp [hb] at this
    · rw [map_assign_addr]
      exact hq.meta_addr
    · intro x hx
      obtain ⟨n, hn, h | h⟩ := (mem_map_assign _ _ _ _).1 hx
      · have := hq.meta_lt n hn
        rw [h.2]
        show n.addr < q.heap + 1
        omega
      · have := hq.meta_lt n hn
        rw [h.2]
        show n.addr < q.heap + 1
        omega
    · rw [map_assign_key]
      exact hq.meta_key
    · intro x hx
      obtain ⟨n, hn, h | h⟩ := (mem_map_assign _ _ _ _).1 hx
      · have hnm : n = m := List.inj_on_of_nodup_map hq.meta_addr hn hm h.1
        subst hnm
        rw [h.2]
        simp
      · have hnm : n.key ≠ m.key := fun hk =>
          h.1 (by rw [List.inj_on_of_nodup_map hq.meta_key hn hm hk])
        rw [h.2]
        apply List.mem_append_left
        exact List.mem_filter.2 ⟨hq.meta_vals n hn, by simpa using hnm⟩
    · intro n hn
      rcases List.mem_append.1 hn with h | h
      · obtain ⟨hn1, hn2⟩ := List.mem_filter.1 h
        obtain ⟨x, hx, hk, hi⟩ := hq.vals_meta n hn1
        refine ⟨x, (mem_map_assign _ _ _ _).2 ⟨x, hx, Or.inr ⟨?_, rfl⟩⟩, hk, hi⟩
        intro ha
        have hxm : x = m := List.inj_on_of_nodup_map hq.meta_addr hx hm ha
        subst hxm
        simp [hk] at hn2
      · simp at h
        subst h
        exact ⟨⟨m.addr, m.key, q.heap⟩,
          (mem_map_assign _ _ _ _).2 ⟨m, hm, Or.inl ⟨rfl, rfl⟩⟩, rfl, rfl⟩

/-- What `insert(e)` does on a state satisfying the invariant. -/
theorem fifo_insert_spec (q : addressable_fifo_queue K) (hq : Inv q) (e : K) :
    ∃ h q1, insert e q = .ok ((h, decide (e ∉ keys q)), q1) ∧ Inv q1 ∧
      keys q1 = (keys q).filter (fun k => k != e) ++ [e] ∧
      (∃ m ∈ q1.meta, m.addr = h ∧ m.key = e) ∧
      (∀ m ∈ q.meta, m.key ≠ e → m ∈ q1.meta) := by
  by_cases he : e ∈ keys q
  · obtain ⟨m, hm, rfl⟩ := (fifo_mem_keys_iff_meta q hq e).1 he
    obtain ⟨h1, h2⟩ := insert_old q hq m hm
    refine ⟨m.addr, _, ?_, h2, ?_, ?_, ?_⟩
    · rw [h1]; simp [he]
    · simp [keys, fifo_keys_filter]
    · exact ⟨⟨m.addr, m.key, q.heap⟩,
        (mem_map_assign _ _ _ _).2 ⟨m, hm, Or.inl ⟨rfl, rfl⟩⟩, rfl, rfl⟩
    · intro x hx hxk
      refine (mem_map_assign _ _ _ _).2 ⟨x, hx, Or.inr ⟨?_, rfl⟩⟩
      intro ha
      exact hxk (by rw [List.inj_on_of_nodup_map hq.meta_addr hx hm ha])
  · obtain ⟨h1, h2⟩ := insert_new q hq e he
    refine ⟨q.heap + 1, _, ?_, h2, ?_, ?_, ?_⟩
    · rw [h1]; simp [he]
    · have : (keys q).filter (fun k => k != e) = keys q :=
        List.filter_eq_self.2 (fun a ha => by
          have : a ≠ e := fun h => he (h ▸ ha)
          simpa using this)
      rw [this]
      simp [keys]
    · exact ⟨⟨q.heap + 1, e, q.heap⟩, by simp, rfl, rfl⟩
    · intro x hx _
      exact List.mem_append_left _ hx

/-- Every returning call preserves the invariant and changes the key sequence
as the abstract queue does. -/
theorem step_spec (q q1 : addressable_fifo_queue K) (hq : Inv q) (o : Op K)
    (h : step o q = .ok q1) :
    Inv q1 ∧
    (∀ e, o = .insert e → keys q1 = (keys q).filter (fun k => k != e) ++ [e]) ∧
    (∀ e, o = .erase e → keys q1 = (keys q).filter (fun k => k != e)) ∧
    (∀ i, o = .erase_handle i → ∃ m ∈ q.meta, m.addr = i ∧
        q1.meta = q.meta.filter (fun n => n.key != m.key) ∧
        keys q1 = (keys q).filter (fun k => k != m.key)) ∧
    (o = .pop → ∃ n rest, q.vals = n :: rest ∧ top q = .ok n.key ∧
        q1.meta = q.meta.filter (fun x => x.key != n.key) ∧ keys q1 = (keys q).tail) := by
  cases o with
  | insert e =>
    obtain ⟨hd, q2, h1, h2, h3, _⟩ := fifo_insert_spec q hq e
    simp only [step, h1] at h
    cases h
    refine ⟨h2, ?_, ?_, ?_, ?_⟩
    · intro e1 he; cases he; exact h3
    · intro e1 he; cases he
    · intro i he; cases he
    · intro he; cases he
  | erase e =>
    simp only [step, fifo_erase_eq q hq e] at h
    cases h
    refine ⟨fifo_Inv_remove_key q hq e, ?_, ?_, ?_, ?_⟩
    · intro e1 he; cases he
    · intro e1 he; cases he; simp [keys, fifo_keys_filter]
    · intro i he; cases he
    · intro he; cases he
  | erase_handle i =>
    simp only [step] at h
    obtain ⟨m, hm, rfl⟩ := fifo_erase_handle_ok q q1 i h
    rw [fifo_erase_handle_eq q hq m hm] at h
    cases h
    refine ⟨fifo_Inv_remove_key q hq m.key, ?_, ?_, ?_, ?_⟩
    · intro e1 he; cases he
    · intro e1 he; cases he
    · intro i he; cases he
      exact ⟨m, hm, rfl, rfl, by simp [keys, fifo_keys_filter]⟩
    · intro he; cases he
  | pop =>
    cases hv : q.vals with
    | nil => simp [step, pop, empty, hv] at h
    | cons n rest =>
      obtain ⟨h1, h2, h3⟩ := fifo_pop_eq q hq n rest hv
      simp only [step, h2] at h
      cases h
      refine ⟨?_, ?_, ?_, ?_, ?_⟩
      · have := fifo_Inv_remove_key q hq n.key
        rw [← h3] at this
        exact this
      · intro e1 he; cases he
      · intro e1 he; cases he
      · intro i he; cases he
      · intro _
        exact ⟨n, rest, rfl, h1, rfl, by simp [keys, hv]⟩

theorem Reachable.fifo_inv (q : addressable_fifo_queue K) (h : Reachable q) : Inv q := by
  induction h with
  | create => exact fifo_Inv_create
  | step o q q1 _ hs ih => exact (step_spec q q1 ih o hs).1

theorem run_snoc (os : List (Op K)) (o : Op K) (q q1 : addressable_fifo_queue K)
    (h : run os q = .ok q1) : run (os ++ [o]) q = step o q1 := by
  induction os generalizing q with
  | nil =>
    simp only [run] at h
    cases h
    simp only [List.nil_append, run]
    cases hs : step o q1 <;> rfl
  | cons a os ih =>
    simp only [List.cons_append, run] at h ⊢
    cases hs : step a q with
    | ok q2 =>
      rw [hs] at h
      exact ih q2 h
    | throws x => rw [hs] at h; cases h
    | assertFailed => rw [hs] at h; cases h
    | undefined => rw [hs] at h; cases h

theorem lastInsertPosAux_snoc (k : K) (os : List (KeyOp K)) (o : KeyOp K) (i : Nat)
    (acc : Option Nat) :
    lastInsertPosAux k (os ++ [o]) i acc
      = if o = .insert k then some (i + os.length) else lastInsertPosAux k os i acc := by
  induction os generalizing i acc with
  | nil => simp [lastInsertPosAux]
  | cons a os ih =>
    show lastInsertPosAux k (os ++ [o]) (i + 1) (if a = .insert k then some i else acc) = _
    rw [ih]
    by_cases ho : o = .insert k
    · rw [if_pos ho, if_pos ho, List.length_cons]
      congr 1
      omega
    · rw [if_neg ho, if_neg ho]
      rfl

theorem lastInsertPos_snoc (k : K) (os : List (KeyOp K)) (o : KeyOp K) :
    lastInsertPos (os ++ [o]) k
      = if o = .insert k then some os.length else lastInsertPos os k := by
  simp [lastInsertPos, lastInsertPosAux_snoc]

theorem lastInsertPos_lt (os : List (KeyOp K)) (k : K) (j : Nat)
    (h : lastInsertPos os k = some j) : j < os.length := by
  induction os using List.reverseRecOn generalizing j with
  | nil => simp [lastInsertPos, lastInsertPosAux] at h
  | append_singleton os o ih =>
    rw [lastInsertPos_snoc] at h
    rw [List.length_append, List.length_singleton]
    split at h
    · cases h; omega
    · have := ih j h; omega

theorem specSet_snoc_insert (os : List (KeyOp K)) (e : K) :
    specSet (os ++ [.insert e]) = specSet os ∪ {e} := by
  simp [specSet, List.foldl_append]

theorem specSet_snoc_erase (os : List (KeyOp K)) (e : K) :
    specSet (os ++ [.erase e]) = specSet os \ {e} := by
  simp [specSet, List.foldl_append]

theorem Survivors_nil : Survivors ([] : List (KeyOp K)) [] := by
  constructor <;> simp [specSet]

theorem Survivors_insert (ops : List (KeyOp K)) (l : List K) (e : K) (h : Survivors ops l) :
    Survivors (ops ++ [.insert e]) (l.filter (fun k => k != e) ++ [e]) := by
  have hpos_e : lastInsertPos (ops ++ [.insert e]) e = some ops.length := by
    rw [lastInsertPos_snoc]; simp
  have hpos_ne : ∀ k, k ≠ e → lastInsertPos (ops ++ [.insert e]) k = lastInsertPos ops k := by
    intro k hk
    rw [lastInsertPos_snoc, if_neg]
    intro heq
    cases heq
    exact hk rfl
  constructor
  · rw [List.nodup_append]
    refine ⟨h.nodup.filter _, List.nodup_singleton _, ?_⟩
    intro a ha hb
    simp at hb
    subst hb
    simpa using (List.mem_filter.1 ha).2
  · intro k
    rw [specSet_snoc_insert, Finset.mem_union, Finset.mem_singleton, ← h.mem k,
      List.mem_append, List.mem_filter, List.mem_singleton]
    by_cases hk : k = e <;> simp [hk]
  · intro k hk
    rcases List.mem_append.1 hk with hk | hk
    · obtain ⟨hk1, hk2⟩ := List.mem_filter.1 hk
      have hne : k ≠ e := by simpa using hk2
      rw [hpos_ne k hne]
      exact h.pos k hk1
    · simp at hk
      subst hk
      exact ⟨_, hpos_e⟩
  · rw [List.pairwise_append]
    refine ⟨?_, List.pairwise_singleton _ _, ?_⟩
    · refine (h.order.filter _).imp_of_mem ?_
      intro a b ha hb hab
      have hane : a ≠ e := by simpa using (List.mem_filter.1 ha).2
      have hbne : b ≠ e := by simpa using (List.mem_filter.1 hb).2
      obtain ⟨i, j, hi, hj, hij⟩ := hab
      exact ⟨i, j, by rw [hpos_ne a hane]; exact hi, by rw [hpos_ne b hbne]; exact hj, hij⟩
    · intro a ha b hb
      simp at hb
      subst hb
      obtain ⟨ha1, ha2⟩ := List.mem_filter.1 ha
      have hane : a ≠ b := by simpa using ha2
      obtain ⟨i, hi⟩ := h.pos a ha1
      exact ⟨i, ops.length, by rw [hpos_ne a hane]; exact hi, hpos_e,
        lastInsertPos_lt ops a i hi⟩

theorem Survivors_erase (ops : List (KeyOp K)) (l : List K) (e : K) (h : Survivors ops l) :
    Survivors (ops ++ [.erase e]) (l.filter (fun k => k != e)) := by
  have hpos : ∀ k, lastInsertPos (ops ++ [.erase e]) k = lastInsertPos ops k := by
    intro k
    rw [lastInsertPos_snoc, if_neg]
    intro heq
    cases heq
  constructor
  · exact h.nodup.filter _
  · intro k
    rw [specSet_snoc_erase, Finset.mem_sdiff, Finset.mem_singleton, ← h.mem k, List.mem_filter]
    simp
  · intro k hk
    rw [hpos k]
    exact h.pos k (List.mem_filter.1 hk).1
  · refine (h.order.filter _).imp ?_
    intro a b hab
    obtain ⟨i, j, hi, hj, hij⟩ := hab
    exact ⟨i, j, by rw [hpos a]; exact hi, by rw [hpos b]; exact hj, hij⟩

/-- Popping until `empty()` returns the keys front first and ends on an empty queue. -/
theorem drain_keys (fuel : Nat) (q : addressable_fifo_queue K) (hq : Inv q)
    (hf : q.vals.length ≤ fuel) :
    ∃ q1, drain fuel q = some (keys q, q1) ∧ q1.empty = true := by
  induction fuel generalizing q with
  | zero =>
    have : q.vals = [] := List.length_eq_zero.1 (by omega)
    exact ⟨q, by simp [drain, empty, keys, this], by simp [empty, this]⟩
  | succ n ih =>
    cases hv : q.vals with
    | nil => exact ⟨q, by simp [drain, empty, keys, hv], by simp [empty, hv]⟩
    | cons x rest =>
      obtain ⟨_, h2, h3⟩ := fifo_pop_eq q hq x rest hv
      have hinv := fifo_Inv_remove_key q hq x.key
      rw [← h3] at hinv
      have hlen : rest.length ≤ n := by
        rw [hv] at hf
        simp only [List.length_cons] at hf
        omega
      obtain ⟨q1, hd, he⟩ := ih _ hinv hlen
      refine ⟨q1, ?_, he⟩
      simp only [drain, empty, hv, h2, hd]
      simp [keys, hv]

/-- Every sequence of `insert`/`erase` calls returns, and leaves the survivors
of the sequence in order of their most recent insertion. -/
theorem run_keyops (ops : List (KeyOp K)) :
    ∃ q, run (ops.map KeyOp.toOp) (create : addressable_fifo_queue K) = .ok q ∧ Inv q ∧
      Survivors ops (keys q) := by
  induction ops using List.reverseRecOn with
  | nil => exact ⟨create, rfl, fifo_Inv_create, by simpa [keys, create] using Survivors_nil⟩
  | append_singleton ops o ih =>
    obtain ⟨q, hr, hq, hs⟩ := ih
    rw [List.map_append, List.map_singleton, run_snoc _ _ _ _ hr]
    cases o with
    | insert e =>
      obtain ⟨hd, q1, h1, h2, h3, _⟩ := fifo_insert_spec q hq e
      refine ⟨q1, by simp [KeyOp.toOp, step, h1], h2, ?_⟩
      rw [h3]
      exact Survivors_insert ops _ e hs
    | erase e =>
      refine ⟨_, by simp only [KeyOp.toOp, step, fifo_erase_eq q hq e], fifo_Inv_remove_key q hq e, ?_⟩
      show Survivors _ (List.map ListNode.key (q.vals.filter (fun n => n.key != e)))
      rw [fifo_keys_filter]
      exact Survivors_erase ops _ e hs

end addressable_fifo_queue

/-- C1: every finite sequence of `insert(key)`/`erase(key)` calls on an
initially empty `addressable_fifo_queue` returns; the keys held afterwards (in
`vals` and in `meta`) are those of the mathematical set obtained from the same
insertions and removals, and popping until `empty()` returns exactly those
keys, each once, in increasing order of the position of each key's most recent
`insert` in the sequence. -/
theorem C1_fifo_survivors_and_pop_order {K : Type} [DecidableEq K]
    (ops : List (addressable_fifo_queue.KeyOp K)) :
    ∃ q, addressable_fifo_queue.run (ops.map addressable_fifo_queue.KeyOp.toOp)
          (addressable_fifo_queue.create : addressable_fifo_queue K) = .ok q ∧
      (∀ k, k ∈ q.vals.map ListNode.key ↔ k ∈ addressable_fifo_queue.specSet ops) ∧
      (∀ k, k ∈ q.meta.map MapNode.key ↔ k ∈ addressable_fifo_queue.specSet ops) ∧
      ∀ fuel, q.vals.length ≤ fuel →
        ∃ l q1, addressable_fifo_queue.drain fuel q = some (l, q1) ∧ q1.empty = true ∧
          l.Nodup ∧ (∀ k, k ∈ l ↔ k ∈ addressable_fifo_queue.specSet ops) ∧
          (∀ k ∈ l, ∃ i, addressable_fifo_queue.lastInsertPos ops k = some i) ∧
          l.Pairwise (fun a b => ∃ i j, addressable_fifo_queue.lastInsertPos ops a = some i ∧
            addressable_fifo_queue.lastInsertPos ops b = some j ∧ i < j) := by
  obtain ⟨q, hr, hq, hs⟩ := addressable_fifo_queue.run_keyops ops
  refine ⟨q, hr, hs.mem, ?_, ?_⟩
  · intro k
    rw [← addressable_fifo_queue.mem_keys_iff_meta_keys q hq k]
    exact hs.mem k
  · intro fuel hf
    obtain ⟨q1, hd, he⟩ := addressable_fifo_queue.drain_keys fuel q hq hf
    exact ⟨_, q1, hd, he, hs.nodup, hs.mem, hs.pos, hs.order⟩

/-- C4: in every reachable state of an `addressable_fifo_queue`, `insert(e)`
returns `wasNew = true` iff `e` was not in the queue; afterwards `e` occurs
exactly once in the key sequence and is its last element, and the sequence of
the other keys is unchanged. -/
theorem C4_fifo_insert_moves_to_back {K : Type} [DecidableEq K]
    (q : addressable_fifo_queue K) (hq : addressable_fifo_queue.Reachable q) (e : K) :
    ∃ h wasNew q1, addressable_fifo_queue.insert e q = .ok ((h, wasNew), q1) ∧
      (wasNew = true ↔ e ∉ q.keys) ∧
      q1.keys.count e = 1 ∧ q1.keys.getLast? = some e ∧
      q1.keys.filter (fun k => k != e) = q.keys.filter (fun k => k != e) := by
  obtain ⟨h, q1, h1, _, h3, _⟩ := addressable_fifo_queue.fifo_insert_spec q hq.fifo_inv e
  refine ⟨h, _, q1, h1, by simp, ?_, ?_, ?_⟩
  · rw [h3, List.count_append]
    have : List.count e (q.keys.filter (fun k => k != e)) = 0 := by
      rw [List.count_eq_zero]
      intro hmem
      simpa using (List.mem_filter.1 hmem).2
    rw [this]
    simp
  · rw [h3]
    simp
  · rw [h3, List.filter_append, List.filter_filter]
    simp

/-- C4 at the state reached by `insert(1); insert(2)`, re-inserting the key 1. -/
theorem C4_fifo_insert_moves_to_back_witness :
    ∃ h wasNew q1, addressable_fifo_queue.insert 1
        ({ vals := [⟨0, 1⟩, ⟨2, 2⟩], meta := [⟨1, 1, 0⟩, ⟨3, 2, 2⟩], heap := 4 } :
          addressable_fifo_queue Nat) = .ok ((h, wasNew), q1) ∧
      (wasNew = true ↔ 1 ∉ ({ vals := [⟨0, 1⟩, ⟨2, 2⟩], meta := [⟨1, 1, 0⟩, ⟨3, 2, 2⟩],
                              heap := 4 } : addressable_fifo_queue Nat).keys) ∧
      q1.keys.count 1 = 1 ∧ q1.keys.getLast? = some 1 ∧
      q1.keys.filter (fun k => k != 1)
        = ({ vals := [⟨0, 1⟩, ⟨2, 2⟩], meta := [⟨1, 1, 0⟩, ⟨3, 2, 2⟩], heap := 4 } :
            addressable_fifo_queue Nat).keys.filter (fun k => k != 1) :=
  C4_fifo_insert_moves_to_back _
    (.step (.insert 2) { vals := [⟨0, 1⟩], meta := [⟨1, 1, 0⟩], heap := 2 } _
      (.step (.insert 1) addressable_fifo_queue.create _ .create rfl) rfl) 1

namespace addressable_fifo_queue

variable {K : Type} [DecidableEq K]

/-- Calls that concern other keys keep the map node of `e` alive and in place. -/
theorem RunAvoiding.keeps (e : K) (os : List (Op K)) (q q2 : addressable_fifo_queue K)
    (hr : RunAvoiding e os q q2) (hq : Inv q) (m : MapNode K) (hm : m ∈ q.meta)
    (hme : m.key = e) : Inv q2 ∧ m.addr ∈ q2.meta.map MapNode.addr ∧
      ∃ m2 ∈ q2.meta, m2.addr = m.addr ∧ m2.key = e := by
  induction hr generalizing m with
  | nil q => exact ⟨hq, List.mem_map.2 ⟨m, hm, rfl⟩, m, hm, rfl, hme⟩
  | cons o os q q1 q2 hav hs _ ih =>
    obtain ⟨hinv, h1, h2, h3, h4⟩ := step_spec q q1 hq o hs
    have key : ∃ m1 ∈ q1.meta, m1.addr = m.addr ∧ m1.key = e := by
      cases o with
      | insert k =>
        have hk : k ≠ e := hav
        obtain ⟨hd, q1', e1, _, _, _, e5⟩ := fifo_insert_spec q hq k
        simp only [step, e1] at hs
        cases hs
        exact ⟨m, e5 m hm (by rw [hme]; exact fun h => hk h.symm), rfl, hme⟩
      | erase k =>
        have hk : k ≠ e := hav
        simp only [step, fifo_erase_eq q hq k] at hs
        cases hs
        exact ⟨m, List.mem_filter.2 ⟨hm, by simpa [hme] using fun h : e = k => hk h.symm⟩,
          rfl, hme⟩
      | erase_handle i =>
        obtain ⟨x, hx, hxi, hmeta, _⟩ := h3 i rfl
        have hxe : x.key ≠ e := hav x hx hxi
        rw [hmeta]
        exact ⟨m, List.mem_filter.2 ⟨hm, by simpa [hme] using fun h : e = x.key => hxe h.symm⟩,
          rfl, hme⟩
      | pop =>
        obtain ⟨n, rest, _, ht, hmeta, _⟩ := h4 rfl
        have hne : n.key ≠ e := by
          intro h
          apply hav
          rw [ht, h]
        rw [hmeta]
        exact ⟨m, List.mem_filter.2 ⟨hm, by simpa [hme] using fun h : e = n.key => hne h.symm⟩,
          rfl, hme⟩
    obtain ⟨m1, hm1, ha, hk⟩ := key
    obtain ⟨r1, r2, m2, r3, r4, r5⟩ := ih hinv m1 hm1 hk
    exact ⟨r1, by rw [← ha]; exact r2, m2, r3, by rw [r4, ha], r5⟩

end addressable_fifo_queue

/-- C9: the handle returned by `addressable_fifo_queue::insert(e)` designates
`e` for as long as `e` stays in the queue: in every reachable state, after
`insert(e)` (new or re-inserted) and any further returning calls that concern
keys other than `e`, `erase(handle)` returns and yields the same queue state as
`erase(e)`, which reports that `e` was held. -/
theorem C9_fifo_handle_designates_key {K : Type} [DecidableEq K]
    (q q1 q2 : addressable_fifo_queue K) (e : K) (h : Nat) (wasNew : Bool)
    (os : List (addressable_fifo_queue.Op K))
    (hq : addressable_fifo_queue.Reachable q)
    (hi : addressable_fifo_queue.insert e q = .ok ((h, wasNew), q1))
    (hr : addressable_fifo_queue.RunAvoiding e os q1 q2) :
    ∃ q3, addressable_fifo_queue.erase_handle h q2 = .ok q3 ∧
      addressable_fifo_queue.erase e q2 = .ok (true, q3) := by
  obtain ⟨h', q1', e1, e2, _, ⟨m, hm, hma, hmk⟩, _⟩ :=
    addressable_fifo_queue.fifo_insert_spec q hq.fifo_inv e
  rw [e1] at hi
  cases hi
  obtain ⟨hinv, _, m2, hm2, ha2, hk2⟩ :=
    addressable_fifo_queue.RunAvoiding.keeps e os q1 q2 hr e2 m hm hmk
  have h1 := addressable_fifo_queue.fifo_erase_handle_eq q2 hinv m2 hm2
  rw [ha2, hma, hk2] at h1
  refine ⟨_, h1, ?_⟩
  rw [addressable_fifo_queue.fifo_erase_eq q2 hinv e]
  have : e ∈ q2.keys :=
    (addressable_fifo_queue.fifo_mem_keys_iff_meta q2 hinv e).2 ⟨m2, hm2, hk2⟩
  simp [this]

/-! ## addressable_priority_queue: the ordered set -/

namespace addressable_priority_queue

variable {K P : Type} [LinearOrder K]

/-- Negative transitivity of a strict weak ordering. -/
theorem StrictWeakOrder.neg_trans {c : P → P → Bool} (hc : StrictWeakOrder c) (a b d : P)
    (h : c a d = true) : c a b = true ∨ c b d = true := by
  by_contra hcon
  push_neg at hcon
  obtain ⟨h1, h2⟩ := hcon
  have h1' : c a b = false := by simpa using h1
  have h2' : c b d = false := by simpa using h2
  have h3 : c b a = false := by
    cases hba : c b a with
    | false => rfl
    | true => rw [hc.trans b a d hba h] at h2'; cases h2'
  have h4 : c d b = false := by
    cases hdb : c d b with
    | false => rfl
    | true => rw [hc.trans a d b h hdb] at h1'; cases h1'
  have := (hc.equiv_trans a b d h1' h3 h2' h4).1
  rw [h] at this
  cases this

theorem StrictWeakOrder.asymm {c : P → P → Bool} (hc : StrictWeakOrder c) (a b : P)
    (h : c a b = true) : c b a = false := by
  cases hba : c b a with
  | false => rfl
  | true =>
    have := hc.trans a b a h hba
    rw [hc.irrefl] at this
    cases this

theorem cmp_iff (c : P → P → Bool) (x y : P × K) :
    cmp c x y = true ↔ c x.1 y.1 = true ∨ (c y.1 x.1 = false ∧ x.2 < y.2) := by
  simp [cmp]

theorem cmp_irrefl {c : P → P → Bool} (hc : StrictWeakOrder c) (x : P × K) :
    cmp c x x = false := by
  cases h : cmp c x x with
  | false => rfl
  | true =>
    rw [cmp_iff] at h
    rcases h with h | h
    · rw [hc.irrefl] at h; cases h
    · exact absurd h.2 (lt_irrefl _)

theorem cmp_trans {c : P → P → Bool} (hc : StrictWeakOrder c) (x y z : P × K)
    (hxy : cmp c x y = true) (hyz : cmp c y z = true) : cmp c x z = true := by
  rw [cmp_iff] at *
  rcases hxy with h1 | ⟨h1, k1⟩ <;> rcases hyz with h2 | ⟨h2, k2⟩
  · exact Or.inl (hc.trans _ _ _ h1 h2)
  · rcases hc.neg_trans x.1 z.1 y.1 h1 with h | h
    · exact Or.inl h
    · rw [h2] at h; cases h
  · rcases hc.neg_trans y.1 x.1 z.1 h2 with h | h
    · rw [h1] at h; cases h
    · exact Or.inl h
  · right
    refine ⟨?_, lt_trans k1 k2⟩
    cases h : c z.1 x.1 with
    | false => rfl
    | true =>
      rcases hc.neg_trans z.1 y.1 x.1 h with h' | h'
      · rw [h2] at h'; cases h'
      · rw [h1] at h'; cases h'

theorem cmp_neg_trans {c : P → P → Bool} (hc : StrictWeakOrder c) (x y z : P × K)
    (hxz : cmp c x z = true) : cmp c x y = true ∨ cmp c y z = true := by
  rw [cmp_iff] at hxz
  rw [cmp_iff, cmp_iff]
  rcases hxz with h | ⟨h, k⟩
  · rcases hc.neg_trans x.1 y.1 z.1 h with h' | h'
    · exact Or.inl (Or.inl h')
    · exact Or.inr (Or.inl h')
  · cases hxy : c x.1 y.1 with
    | true => exact Or.inl (Or.inl rfl)
    | false =>
      cases hyz : c y.1 z.1 with
      | true => exact Or.inr (Or.inl rfl)
      | false =>
        have hyx : c y.1 x.1 = false := by
          cases h' : c y.1 x.1 with
          | false => rfl
          | true =>
            rcases hc.neg_trans y.1 z.1 x.1 h' with h'' | h''
            · rw [hyz] at h''; cases h''
            · rw [h] at h''; cases h''
        have hzy : c z.1 y.1 = false := by
          cases h' : c z.1 y.1 with
          | false => rfl
          | true =>
            rcases hc.neg_trans z.1 x.1 y.1 h' with h'' | h''
            · rw [h] at h''; cases h''
            · rw [hxy] at h''; cases h''
        rcases lt_or_le x.2 y.2 with hk | hk
        · exact Or.inl (Or.inr ⟨hyx, hk⟩)
        · exact Or.inr (Or.inr ⟨hzy, lt_of_le_of_lt hk k⟩)

/-- Two pairs are equivalent under `cmp` exactly when their priorities are
equivalent under `Cmp` and their keys are equal. -/
theorem cmp_equiv_iff (c : P → P → Bool) (x y : P × K) :
    (cmp c x y = false ∧ cmp c y x = false) ↔ (Equiv c x.1 y.1 ∧ x.2 = y.2) := by
  unfold Equiv
  constructor
  · rintro ⟨h1, h2⟩
    have h1' : ¬ (cmp c x y = true) := by simp [h1]
    have h2' : ¬ (cmp c y x = true) := by simp [h2]
    rw [cmp_iff] at h1' h2'
    push_neg at h1' h2'
    have a1 : c x.1 y.1 = false := by simpa using h1'.1
    have a2 : c y.1 x.1 = false := by simpa using h2'.1
    exact ⟨⟨a1, a2⟩, le_antisymm (h2'.2 a1) (h1'.2 a2)⟩
  · rintro ⟨⟨h1, h2⟩, hk⟩
    constructor
    · cases h : cmp c x y with
      | false => rfl
      | true =>
        rw [cmp_iff] at h
        rcases h with h | h
        · rw [h1] at h; cases h
        · rw [hk] at h; exact absurd h.2 (lt_irrefl _)
    · cases h : cmp c y x with
      | false => rfl
      | true =>
        rw [cmp_iff] at h
        rcases h with h | h
        · rw [h2] at h; cases h
        · rw [hk] at h; exact absurd h.2 (lt_irrefl _)

/-- When the set holds a node equivalent to `v`, `insert(v)` leaves the set as
it is and returns the iterator to that node. -/
theorem set_insert_found {c : P → P → Bool} (hc : StrictWeakOrder c) (a : Nat) (v : P × K)
    (l : List (SetNode P K)) (hs : l.Pairwise (fun x y => cmp c x.val y.val = true))
    (y : SetNode P K) (hy : y ∈ l) (h1 : cmp c y.val v = false) (h2 : cmp c v y.val = false) :
    set_insert c a v l = (l, y.addr, false) := by
  induction l with
  | nil => cases hy
  | cons x xs ih =>
    rw [List.pairwise_cons] at hs
    rcases List.mem_cons.1 hy with rfl | hy'
    · simp [set_insert, h1, h2]
    · have hxy := hs.1 y hy'
      have hxv : cmp c x.val v = true := by
        rcases cmp_neg_trans hc x.val v y.val hxy with h | h
        · exact h
        · rw [h2] at h; cases h
      simp [set_insert, hxv, ih hs.2 hy']

/-- When the set holds no node equivalent to `v`, `insert(v)` links in a new
node at address `a`, keeping the set increasing. -/
theorem set_insert_new {c : P → P → Bool} (hc : StrictWeakOrder c) (a : Nat) (v : P × K)
    (l : List (SetNode P K))
    (hne : ∀ y ∈ l, cmp c y.val v = true ∨ cmp c v y.val = true) :
    (set_insert c a v l).2 = (a, true) ∧
    (set_insert c a v l).1.Perm (⟨a, v⟩ :: l) ∧
    (l.Pairwise (fun x y => cmp c x.val y.val = true) →
      (set_insert c a v l).1.Pairwise (fun x y => cmp c x.val y.val = true)) := by
  induction l with
  | nil => simp [set_insert]
  | cons x xs ih =>
    obtain ⟨i1, i2, i3⟩ := ih (fun y hy => hne y (List.mem_cons_of_mem _ hy))
    by_cases hxv : cmp c x.val v = true
    · simp only [set_insert, hxv, if_true]
      refine ⟨i1, ?_, ?_⟩
      · exact (List.Perm.cons x i2).trans (List.Perm.swap _ _ _)
      · intro hs
        rw [List.pairwise_cons] at hs ⊢
        refine ⟨?_, i3 hs.2⟩
        intro y hy
        rcases List.mem_cons.1 (i2.subset hy) with rfl | hy'
        · exact hxv
        · exact hs.1 y hy'
    · have hvx : cmp c v x.val = true := by
        rcases hne x (List.mem_cons_self _ _) with h | h
        · exact absurd h hxv
        · exact h
      simp only [set_insert, hxv, hvx, if_true]
      refine ⟨rfl, List.Perm.refl _, ?_⟩
      intro hs
      refine List.pairwise_cons.2 ⟨?_, hs⟩
      intro y hy
      rcases List.mem_cons.1 hy with rfl | hy'
      · exact hvx
      · exact cmp_trans hc _ _ _ hvx ((List.pairwise_cons.1 hs).1 y hy')

end addressable_priority_queue

/-! ## addressable_priority_queue: the operations on states satisfying the invariant -/

namespace addressable_priority_queue

variable {K P : Type} [LinearOrder K]

theorem pq_mem_keys_iff_meta {c : P → P → Bool} (q : addressable_priority_queue K P)
    (hq : Inv c q) (e : K) : e ∈ keys q ↔ ∃ m ∈ q.meta, m.key = e := by
  constructor
  · intro h
    obtain ⟨n, hn, rfl⟩ := List.mem_map.1 h
    obtain ⟨m, hm, hk, _⟩ := hq.vals_meta n hn
    exact ⟨m, hm, hk⟩
  · rintro ⟨m, hm, rfl⟩
    obtain ⟨n, hn, _, hk⟩ := hq.meta_vals m hm
    exact List.mem_map.2 ⟨n, hn, hk⟩

theorem mem_keys_iff_entries (q : addressable_priority_queue K P) (e : K) :
    e ∈ keys q ↔ ∃ p, (p, e) ∈ entries q := by
  simp only [keys, entries, List.mem_map]
  constructor
  · rintro ⟨n, hn, rfl⟩
    exact ⟨n.val.1, n, hn, rfl⟩
  · rintro ⟨p, n, hn, h⟩
    exact ⟨n, hn, by rw [h]⟩

/-- Erasing the set node a map node points to removes exactly that map node's key. -/
theorem pq_filter_addr_eq_filter_key {c : P → P → Bool} (q : addressable_priority_queue K P)
    (hq : Inv c q) (m : MapNode K) (hm : m ∈ q.meta) :
    q.vals.filter (fun n => n.addr != m.it) = q.vals.filter (fun n => n.val.2 != m.key) := by
  apply List.filter_congr
  intro n hn
  obtain ⟨n0, hn0, ha0, hk0⟩ := hq.meta_vals m hm
  by_cases ha : n.addr = m.it
  · have : n = n0 := List.inj_on_of_nodup_map hq.vals_addr hn hn0 (by rw [ha, ha0])
    subst this
    simp [ha, hk0]
  · have hk : n.val.2 ≠ m.key := by
      intro hk
      have : n = n0 := List.inj_on_of_nodup_map hq.vals_key hn hn0 (by rw [hk, hk0])
      exact ha (by rw [this, ha0])
    have h1 : (n.addr != m.it) = true := by simpa using ha
    have h2 : (n.val.2 != m.key) = true := by simpa using hk
    rw [h1, h2]

theorem pq_filter_meta_addr_eq_filter_key {c : P → P → Bool} (q : addressable_priority_queue K P)
    (hq : Inv c q) (m : MapNode K) (hm : m ∈ q.meta) :
    q.meta.filter (fun n => n.addr != m.addr) = q.meta.filter (fun n => n.key != m.key) := by
  apply List.filter_congr
  intro n hn
  by_cases ha : n.addr = m.addr
  · have : n = m := List.inj_on_of_nodup_map hq.meta_addr hn hm ha
    subst this
    simp
  · have hk : n.key ≠ m.key := by
      intro hk
      exact ha (by rw [List.inj_on_of_nodup_map hq.meta_key hn hm hk])
    have h1 : (n.addr != m.addr) = true := by simpa using ha
    have h2 : (n.key != m.key) = true := by simpa using hk
    rw [h1, h2]

/-- Removing the key `e` from both containers keeps the invariant. -/
theorem pq_Inv_remove_key {c : P → P → Bool} (q : addressable_priority_queue K P) (hq : Inv c q)
    (e : K) :
    Inv c { vals := q.vals.filter (fun n => n.val.2 != e),
            meta := q.meta.filter (fun n => n.key != e), heap := q.heap } := by
  constructor
  · exact hq.vals_addr.sublist ((List.filter_sublist _).map _)
  · intro n hn
    exact hq.vals_lt n (List.mem_filter.1 hn).1
  · exact hq.vals_key.sublist ((List.filter_sublist _).map _)
  · exact hq.sorted.filter _
  · exact hq.meta_addr.sublist ((List.filter_sublist _).map _)
  · intro n hn
    exact hq.meta_lt n (List.mem_filter.1 hn).1
  · exact hq.meta_key.sublist ((List.filter_sublist _).map _)
  · intro m hm
    obtain ⟨hm1, hm2⟩ := List.mem_filter.1 hm
    obtain ⟨n, hn, ha, hk⟩ := hq.meta_vals m hm1
    exact ⟨n, List.mem_filter.2 ⟨hn, by rw [hk]; exact hm2⟩, ha, hk⟩
  · intro n hn
    obtain ⟨hn1, hn2⟩ := List.mem_filter.1 hn
    obtain ⟨m, hm, hk, hi⟩ := hq.vals_meta n hn1
    exact ⟨m, List.mem_filter.2 ⟨hm, by rw [hk]; exact hn2⟩, hk, hi⟩

theorem pq_Inv_create (c : P → P → Bool) : Inv c (create : addressable_priority_queue K P) := by
  constructor <;> simp [create]

/-- On a state satisfying the invariant `erase(e)` returns whether `e` was
held and leaves both containers without `e`. -/
theorem pq_erase_eq {c : P → P → Bool} (q : addressable_priority_queue K P) (hq : Inv c q) (e : K) :
    erase e q = .ok (decide (e ∈ keys q),
      { vals := q.vals.filter (fun n => n.val.2 != e),
        meta := q.meta.filter (fun n => n.key != e), heap := q.heap }) := by
  unfold erase
  cases hf : map_find e q.meta with
  | none =>
    have hnone := (map_find_none _ _).1 hf
    have hk : e ∉ keys q := by
      rw [pq_mem_keys_iff_meta q hq]
      rintro ⟨m, hm, hme⟩
      exact hnone m hm hme
    have h1 : q.meta.filter (fun n => n.key != e) = q.meta :=
      List.filter_eq_self.2 (fun n hn => by simpa using hnone n hn)
    have h2 : q.vals.filter (fun n => n.val.2 != e) = q.vals :=
      List.filter_eq_self.2 (fun n hn => by
        have : n.val.2 ≠ e := fun h => hk (h ▸ List.mem_map.2 ⟨n, hn, rfl⟩)
        simpa using this)
    simp [hk, h1, h2]
  | some m =>
    obtain ⟨hm, hme⟩ := map_find_some _ _ _ hf
    subst hme
    have hk : m.key ∈ keys q := (pq_mem_keys_iff_meta q hq _).2 ⟨m, hm, rfl⟩
    obtain ⟨n, hn, ha, _⟩ := hq.meta_vals m hm
    have e1 := erase_node_of_mem SetNode.addr m.it q.vals ⟨n, hn, ha⟩
    have e2 := erase_node_of_mem MapNode.addr m.addr q.meta ⟨_, hm, rfl⟩
    rw [pq_filter_addr_eq_filter_key q hq m hm] at e1
    rw [pq_filter_meta_addr_eq_filter_key q hq m hm] at e2
    simp [e1, e2, hk]

/-- A handle that designates the map node `m` erases the key of `m`. -/
theorem pq_erase_handle_eq {c : P → P → Bool} (q : addressable_priority_queue K P) (hq : Inv c q)
    (m : MapNode K) (hm : m ∈ q.meta) :
    erase_handle m.addr q = .ok
      { vals := q.vals.filter (fun n => n.val.2 != m.key),
        meta := q.meta.filter (fun n => n.key != m.key), heap := q.heap } := by
  unfold erase_handle
  rw [find_addr_of_mem q.meta m hq.meta_addr hm]
  obtain ⟨n, hn, ha, _⟩ := hq.meta_vals m hm
  have e1 := erase_node_of_mem SetNode.addr m.it q.vals ⟨n, hn, ha⟩
  have e2 := erase_node_of_mem MapNode.addr m.addr q.meta ⟨_, hm, rfl⟩
  rw [pq_filter_addr_eq_filter_key q hq m hm] at e1
  rw [pq_filter_meta_addr_eq_filter_key q hq m hm] at e2
  simp [e1, e2]

/-- A call `erase(handle)` that returns was given the address of a live map node. -/
theorem pq_erase_handle_ok (q q1 : addressable_priority_queue K P) (i : Nat)
    (h : erase_handle i q = .ok q1) : ∃ m ∈ q.meta, m.addr = i := by
  unfold erase_handle at h
  cases hf : q.meta.find? (fun n => n.addr == i) with
  | none => simp [hf] at h
  | some m =>
    exact ⟨m, List.mem_of_find?_eq_some hf, by simpa using List.find?_some hf⟩

/-- On a non-empty state satisfying the invariant `pop()` returns the key of
the first node of the set and leaves both containers without it. -/
theorem pq_pop_eq {c : P → P → Bool} (q : addressable_priority_queue K P) (hq : Inv c q)
    (n : SetNode P K) (rest : List (SetNode P K)) (hv : q.vals = n :: rest) :
    top q = .ok n.val.2 ∧
    pop q = .ok (n.val.2,
      { vals := rest, meta := q.meta.filter (fun x => x.key != n.val.2), heap := q.heap }) ∧
    rest = q.vals.filter (fun x => x.val.2 != n.val.2) := by
  refine ⟨by simp [top, hv], by simp [pop, empty, top, hv, map_erase_key], ?_⟩
  have hk := hq.vals_key
  rw [hv] at hk ⊢
  rw [List.map_cons, List.nodup_cons] at hk
  rw [List.filter_cons_of_neg (by simp)]
  symm
  apply List.filter_eq_self.2
  intro x hx
  have : x.val.2 ≠ n.val.2 := fun h => hk.1 (h ▸ List.mem_map.2 ⟨x, hx, rfl⟩)
  simpa using this

theorem cmp_total_of_key_ne (c : P → P → Bool) (x y : P × K) (h : x.2 ≠ y.2) :
    cmp c x y = true ∨ cmp c y x = true := by
  by_contra hcon
  push_neg at hcon
  have h1 : cmp c x y = false := by simpa using hcon.1
  have h2 : cmp c y x = false := by simpa using hcon.2
  exact h ((cmp_equiv_iff c x y).1 ⟨h1, h2⟩).2

theorem cmp_total_of_not_equiv (c : P → P → Bool) (x y : P × K) (h : ¬ Equiv c x.1 y.1) :
    cmp c x y = true ∨ cmp c y x = true := by
  by_contra hcon
  push_neg at hcon
  have h1 : cmp c x y = false := by simpa using hcon.1
  have h2 : cmp c y x = false := by simpa using hcon.2
  exact h ((cmp_equiv_iff c x y).1 ⟨h1, h2⟩).1

/-- Inserting a key that is not held links a new set node and a new map node. -/
theorem insert_absent {c : P → P → Bool} (hc : StrictWeakOrder c)
    (q : addressable_priority_queue K P) (hq : Inv c q) (e : K) (o : P) (he : e ∉ keys q) :
    insert c e o q = .ok ((q.heap + 1, true),
      { vals := (set_insert c q.heap (o, e) q.vals).1,
        meta := q.meta ++ [⟨q.heap + 1, e, q.heap⟩], heap := q.heap + 2 }) ∧
    (set_insert c q.heap (o, e) q.vals).1.Perm (⟨q.heap, (o, e)⟩ :: q.vals) ∧
    Inv c { vals := (set_insert c q.heap (o, e) q.vals).1,
            meta := q.meta ++ [⟨q.heap + 1, e, q.heap⟩], heap := q.heap + 2 } := by
  have hnone : ∀ m ∈ q.meta, m.key ≠ e := fun m hm hme =>
    he ((pq_mem_keys_iff_meta q hq e).2 ⟨m, hm, hme⟩)
  have hne : ∀ y ∈ q.vals, cmp c y.val (o, e) = true ∨ cmp c (o, e) y.val = true := by
    intro y hy
    apply cmp_total_of_key_ne
    intro h
    exact he (List.mem_map.2 ⟨y, hy, h⟩)
  obtain ⟨i1, i2, i3⟩ := set_insert_new hc q.heap (o, e) q.vals hne
  have hmem : ∀ n, n ∈ (set_insert c q.heap (o, e) q.vals).1 ↔
      n = ⟨q.heap, (o, e)⟩ ∨ n ∈ q.vals := by
    intro n
    rw [i2.mem_iff, List.mem_cons]
  refine ⟨?_, i2, ?_⟩
  · unfold insert
    simp only [(map_find_none e q.meta).2 hnone, i1, if_true]
  constructor
  · rw [(i2.map SetNode.addr).nodup_iff, List.map_cons, List.nodup_cons]
    refine ⟨?_, hq.vals_addr⟩
    intro ha
    obtain ⟨n, hn, hna⟩ := List.mem_map.1 ha
    have := hq.vals_lt n hn
    simp only at hna
    omega
  · intro n hn
    show n.addr < q.heap + 2
    rcases (hmem n).1 hn with rfl | h
    · simp
    · have := hq.vals_lt n h
      omega
  · rw [(i2.map (fun n => n.val.2)).nodup_iff, List.map_cons, List.nodup_cons]
    exact ⟨he, hq.vals_key⟩
  · exact i3 hq.sorted
  · simp only [List.map_append, List.map_cons, List.map_nil]
    rw [List.nodup_append]
    refine ⟨hq.meta_addr, List.nodup_singleton _, ?_⟩
    intro a ha hb
    obtain ⟨n, hn, rfl⟩ := List.mem_map.1 ha
    have := hq.meta_lt n hn
    simp at hb
    omega
  · intro n hn
    show n.addr < q.heap + 2
    rcases List.mem_append.1 hn with h | h
    · have := hq.meta_lt n h
      omega
    · simp at h
      subst h
      simp
  · simp only [List.map_append, List.map_cons, List.map_nil]
    rw [List.nodup_append]
    refine ⟨hq.meta_key, List.nodup_singleton _, ?_⟩
    intro a ha hb
    obtain ⟨n, hn, rfl⟩ := List.mem_map.1 ha
    simp at hb
    exact hnone n hn hb
  · intro m hm
    rcases List.mem_append.1 hm with h | h
    · obtain ⟨n, hn, h1, h2⟩ := hq.meta_vals m h
      exact ⟨n, (hmem n).2 (Or.inr hn), h1, h2⟩
    · simp at h
      subst h
      exact ⟨⟨q.heap, (o, e)⟩, (hmem _).2 (Or.inl rfl), rfl, rfl⟩
  · intro n hn
    rcases (hmem n).1 hn with rfl | h
    · exact ⟨⟨q.heap + 1, e, q.heap⟩, by simp, rfl, rfl⟩
    · obtain ⟨m, hm, hk, hi⟩ := hq.vals_meta n h
      exact ⟨m, List.mem_append_left _ hm, hk, hi⟩

/-- Inserting a key that is held with a priority equivalent to the new one
changes nothing. -/
theorem insert_equiv {c : P → P → Bool} (hc : StrictWeakOrder c)
    (q : addressable_priority_queue K P) (hq : Inv c q) (m : MapNode K) (hm : m ∈ q.meta)
    (n : SetNode P K) (hn : n ∈ q.vals) (hnk : n.val.2 = m.key) (o : P)
    (ho : Equiv c n.val.1 o) :
    insert c m.key o q = .ok ((m.addr, false), q) := by
  have heq := (cmp_equiv_iff c n.val (o, m.key)).2 ⟨ho, hnk⟩
  have hs := set_insert_found hc q.heap (o, m.key) q.vals hq.sorted n hn heq.1 heq.2
  unfold insert
  simp [map_find_of_mem q.meta m hq.meta_key hm, hs]

/-- Inserting a key that is held with a priority not equivalent to the new
one: a new set node is linked in, the old one is unlinked and the map node is
redirected. -/
theorem insert_relocate {c : P → P → Bool} (hc : StrictWeakOrder c)
    (q : addressable_priority_queue K P) (hq : Inv c q) (m : MapNode K) (hm : m ∈ q.meta)
    (n : SetNode P K) (hn : n ∈ q.vals) (hnk : n.val.2 = m.key) (o : P)
    (ho : ¬ Equiv c n.val.1 o) :
    ∃ vals1, insert c m.key o q = .ok ((m.addr, false),
        { vals := vals1, meta := map_assign m.addr q.heap q.meta, heap := q.heap + 1 }) ∧
      vals1.Perm (⟨q.heap, (o, m.key)⟩ :: q.vals.filter (fun x => x.val.2 != m.key)) ∧
      Inv c { vals := vals1, meta := map_assign m.addr q.heap q.meta, heap := q.heap + 1 } := by
  have hne : ∀ y ∈ q.vals, cmp c y.val (o, m.key) = true ∨ cmp c (o, m.key) y.val = true := by
    intro y hy
    by_cases hyk : y.val.2 = m.key
    · have : y = n := List.inj_on_of_nodup_map hq.vals_key hy hn (by rw [hyk, hnk])
      subst this
      exact cmp_total_of_not_equiv c _ _ ho
    · exact cmp_total_of_key_ne c _ _ hyk
  obtain ⟨i1, i2, i3⟩ := set_insert_new hc q.heap (o, m.key) q.vals hne
  obtain ⟨n0, hn0, ha0, hk0⟩ := hq.meta_vals m hm
  have hlt := hq.vals_lt n0 hn0
  have hfresh : (q.heap != m.it) = true := by
    simp only [bne_iff_ne]
    omega
  have hperm : ((set_insert c q.heap (o, m.key) q.vals).1.filter (fun x => x.addr != m.it)).Perm
      (⟨q.heap, (o, m.key)⟩ :: q.vals.filter (fun x => x.val.2 != m.key)) := by
    have := i2.filter (fun x => x.addr != m.it)
    rw [List.filter_cons_of_pos (by simpa using hfresh), pq_filter_addr_eq_filter_key q hq m hm] at this
    exact this
  have hmem : ∀ x, x ∈ (set_insert c q.heap (o, m.key) q.vals).1.filter (fun x => x.addr != m.it)
      ↔ x = ⟨q.heap, (o, m.key)⟩ ∨ (x ∈ q.vals ∧ x.val.2 ≠ m.key) := by
    intro x
    rw [hperm.mem_iff, List.mem_cons, List.mem_filter]
    simp
  refine ⟨_, ?_, hperm, ?_⟩
  · unfold insert
    simp only [map_find_of_mem q.meta m hq.meta_key hm, i1, if_true]
    rw [erase_node_of_mem SetNode.addr m.it _ ⟨n0, i2.mem_iff.2 (List.mem_cons_of_mem _ hn0), ha0⟩]
  constructor
  · rw [(hperm.map SetNode.addr).nodup_iff, List.map_cons, List.nodup_cons]
    refine ⟨?_, hq.vals_addr.sublist ((List.filter_sublist _).map _)⟩
    intro ha
    obtain ⟨x, hx, hxa⟩ := List.mem_map.1 ha
    have := hq.vals_lt x (List.mem_filter.1 hx).1
    simp only at hxa
    omega
  · intro x hx
    show x.addr < q.heap + 1
    rcases (hmem x).1 hx with rfl | h
    · simp
    · have := hq.vals_lt x h.1
      omega
  · rw [(hperm.map (fun n => n.val.2)).nodup_iff, List.map_cons, List.nodup_cons]
    refine ⟨?_, hq.vals_key.sublist ((List.filter_sublist _).map _)⟩
    intro ha
    obtain ⟨x, hx, hxk⟩ := List.mem_map.1 ha
    have := (List.mem_filter.1 hx).2
    simp only at hxk
    simp [hxk] at this
  · exact (i3 hq.sorted).filter _
  · rw [map_assign_addr]
    exact hq.meta_addr
  · intro x hx
    show x.addr < q.heap + 1
    obtain ⟨y, hy, h | h⟩ := (mem_map_assign _ _ _ _).1 hx
    · have := hq.meta_lt y hy
      rw [h.2]
      show y.addr < q.heap + 1
      omega
    · have := hq.meta_lt y hy
      rw [h.2]
      omega
  · rw [map_assign_key]
    exact hq.meta_key
  · intro x hx
    obtain ⟨y, hy, h | h⟩ := (mem_map_assign _ _ _ _).1 hx
    · have hym : y = m := List.inj_on_of_nodup_map hq.meta_addr hy hm h.1
      subst hym
      rw [h.2]
      exact ⟨⟨q.heap, (o, y.key)⟩, (hmem _).2 (Or.inl rfl), rfl, rfl⟩
    · have hyk : y.key ≠ m.key := fun hk =>
        h.1 (by rw [List.inj_on_of_nodup_map hq.meta_key hy hm hk])
      rw [h.2]
      obtain ⟨z, hz, hza, hzk⟩ := hq.meta_vals y hy
      exact ⟨z, (hmem z).2 (Or.inr ⟨hz, by rw [hzk]; exact hyk⟩), hza, hzk⟩
  · intro x hx
    rcases (hmem x).1 hx with rfl | h
    · exact ⟨⟨m.addr, m.key, q.heap⟩,
        (mem_map_assign _ _ _ _).2 ⟨m, hm, Or.inl ⟨rfl, rfl⟩⟩, rfl, rfl⟩
    · obtain ⟨y, hy, hk, hi⟩ := hq.vals_meta x h.1
      refine ⟨y, (mem_map_assign _ _ _ _).2 ⟨y, hy, Or.inr ⟨?_, rfl⟩⟩, hk, hi⟩
      intro ha
      have hym : y = m := List.inj_on_of_nodup_map hq.meta_addr hy hm ha
      subst hym
      exact h.2 hk.symm

theorem Equiv.refl {c : P → P → Bool} (hc : StrictWeakOrder c) (o : P) : Equiv c o o :=
  ⟨hc.irrefl o, hc.irrefl o⟩

theorem entries_filter (l : List (SetNode P K)) (e : K) :
    (l.filter (fun n => n.val.2 != e)).map SetNode.val
      = (l.map SetNode.val).filter (fun x => x.2 != e) := by
  rw [List.filter_map]
  rfl

theorem pq_keys_filter (l : List (SetNode P K)) (e : K) :
    (l.filter (fun n => n.val.2 != e)).map (fun n => n.val.2)
      = (l.map (fun n => n.val.2)).filter (fun k => k != e) := by
  rw [List.filter_map]
  rfl

theorem entries_nodup {c : P → P → Bool} (q : addressable_priority_queue K P) (hq : Inv c q) :
    (entries q).Nodup := by
  have h : (List.map Prod.snd (entries q)).Nodup := by
    simp only [entries, List.map_map]
    exact hq.vals_key
  exact List.Nodup.of_map _ h

/-- What `insert(e, o)` does on a state satisfying the invariant: afterwards
`e` is held once, with a priority `p` equivalent to `o`, which is `o` itself
unless `e` was held with a priority equivalent to `o` (then nothing changes). -/
theorem pq_insert_spec {c : P → P → Bool} (hc : StrictWeakOrder c)
    (q : addressable_priority_queue K P) (hq : Inv c q) (e : K) (o : P) :
    ∃ h q1 p, insert c e o q = .ok ((h, decide (e ∉ keys q)), q1) ∧ Inv c q1 ∧
      (∃ m ∈ q1.meta, m.addr = h ∧ m.key = e) ∧ Equiv c p o ∧
      (entries q1).Perm ((p, e) :: (entries q).filter (fun x => x.2 != e)) ∧
      ((∀ p0, (p0, e) ∈ entries q → ¬ Equiv c p0 o) → p = o) ∧
      ((p, e) ∈ entries q → q1 = q) := by
  by_cases he : e ∈ keys q
  · obtain ⟨m, hm, rfl⟩ := (pq_mem_keys_iff_meta q hq e).1 he
    obtain ⟨n, hn, hna, hnk⟩ := hq.meta_vals m hm
    by_cases ho : Equiv c n.val.1 o
    · have h1 := insert_equiv hc q hq m hm n hn hnk o ho
      refine ⟨m.addr, q, n.val.1, ?_, hq, ⟨m, hm, rfl, rfl⟩, ho, ?_, ?_, fun _ => rfl⟩
      · rw [h1]; simp [he]
      · have hmem : (n.val.1, m.key) ∈ entries q :=
          List.mem_map.2 ⟨n, hn, by rw [← hnk]⟩
        rw [List.perm_ext_iff_of_nodup (entries_nodup q hq)]
        · intro x
          rw [List.mem_cons, List.mem_filter]
          constructor
          · intro hx
            by_cases hxk : x.2 = m.key
            · left
              obtain ⟨y, hy, rfl⟩ := List.mem_map.1 hx
              have : y = n := List.inj_on_of_nodup_map hq.vals_key hy hn (by rw [hxk, hnk])
              rw [this, ← hnk]
            · right
              exact ⟨hx, by simpa using hxk⟩
          · rintro (rfl | h)
            · exact hmem
            · exact h.1
        · rw [List.nodup_cons]
          refine ⟨?_, (entries_nodup q hq).filter _⟩
          intro h
          simpa using (List.mem_filter.1 h).2
      · intro h
        exact absurd ho (h _ (List.mem_map.2 ⟨n, hn, by rw [← hnk]⟩))
    · obtain ⟨vals1, h1, h2, h3⟩ := insert_relocate hc q hq m hm n hn hnk o ho
      refine ⟨m.addr, _, o, ?_, h3, ?_, Equiv.refl hc o, ?_, fun _ => rfl, ?_⟩
      · rw [h1]; simp [he]
      · exact ⟨⟨m.addr, m.key, q.heap⟩,
          (mem_map_assign _ _ _ _).2 ⟨m, hm, Or.inl ⟨rfl, rfl⟩⟩, rfl, rfl⟩
      · have := h2.map SetNode.val
        rw [List.map_cons, entries_filter] at this
        exact this
      · intro hmem
        exfalso
        obtain ⟨y, hy, hyv⟩ := List.mem_map.1 hmem
        have : y = n := List.inj_on_of_nodup_map hq.vals_key hy hn (by rw [hyv, hnk])
        subst this
        apply ho
        rw [hyv]
        exact Equiv.refl hc o
  · obtain ⟨h1, h2, h3⟩ := insert_absent hc q hq e o he
    refine ⟨q.heap + 1, _, o, ?_, h3, ?_, Equiv.refl hc o, ?_, fun _ => rfl, ?_⟩
    · rw [h1]; simp [he]
    · exact ⟨⟨q.heap + 1, e, q.heap⟩, by simp, rfl, rfl⟩
    · have := h2.map SetNode.val
      rw [List.map_cons] at this
      have hf : (entries q).filter (fun x => x.2 != e) = entries q :=
        List.filter_eq_self.2 (fun x hx => by
          have : x.2 ≠ e := fun h => he ((mem_keys_iff_entries q e).2 ⟨x.1, by rw [← h]; exact hx⟩)
          simpa using this)
      rw [hf]
      exact this
    · intro hmem
      exact absurd ((mem_keys_iff_entries q e).2 ⟨o, hmem⟩) he

/-- Every returning call preserves the invariant. -/
theorem step_inv {c : P → P → Bool} (hc : StrictWeakOrder c)
    (q q1 : addressable_priority_queue K P) (hq : Inv c q) (o : Op K P)
    (h : step c o q = .ok q1) : Inv c q1 := by
  cases o with
  | insert e p =>
    obtain ⟨hd, q2, p', h1, h2, _⟩ := pq_insert_spec hc q hq e p
    simp only [step, h1] at h
    cases h
    exact h2
  | erase e =>
    simp only [step, pq_erase_eq q hq e] at h
    cases h
    exact pq_Inv_remove_key q hq e
  | erase_handle i =>
    simp only [step] at h
    obtain ⟨m, hm, rfl⟩ := pq_erase_handle_ok q q1 i h
    rw [pq_erase_handle_eq q hq m hm] at h
    cases h
    exact pq_Inv_remove_key q hq m.key
  | pop =>
    cases hv : q.vals with
    | nil => simp [step, pop, empty, hv] at h
    | cons n rest =>
      obtain ⟨_, h2, h3⟩ := pq_pop_eq q hq n rest hv
      simp only [step, h2] at h
      cases h
      have := pq_Inv_remove_key q hq n.val.2
      rw [← h3] at this
      exact this

theorem Reachable.pq_inv {c : P → P → Bool} (hc : StrictWeakOrder c)
    (q : addressable_priority_queue K P) (h : Reachable c q) : Inv c q := by
  induction h with
  | create => exact pq_Inv_create c
  | step o q q1 _ hs ih => exact step_inv hc q q1 ih o hs

end addressable_priority_queue

/-- The default `Cmp` on natural-number priorities, `std::less`, is a strict weak ordering. -/
theorem less_nat_strictWeakOrder :
    addressable_priority_queue.StrictWeakOrder (fun a b : Nat => decide (a < b)) := by
  constructor
  · intro a; simp
  · intro a b d h1 h2
    simp only [decide_eq_true_eq] at *
    omega
  · intro a b d h1 h2 h3 h4
    simp only [decide_eq_false_iff_not] at *
    omega

/-- Comparing natural-number priorities by their halves is a strict weak
ordering under which 2 and 3 are equivalent. -/
theorem half_nat_strictWeakOrder :
    addressable_priority_queue.StrictWeakOrder (fun a b : Nat => decide (a / 2 < b / 2)) := by
  constructor
  · intro a; simp
  · intro a b d h1 h2
    simp only [decide_eq_true_eq] at *
    omega
  · intro a b d h1 h2 h3 h4
    simp only [decide_eq_false_iff_not] at *
    omega

/-- C2: in every non-empty reachable state of an `addressable_priority_queue`
(`Cmp` a strict weak order on priorities, `<` a strict total order on keys),
`pop()` returns a key `k` whose current priority `p` is minimal among all
surviving keys under `Cmp`, and `k` is the smallest among the surviving keys
whose priority is equivalent to `p`; `top()` returns the same key. -/
theorem C2_pq_pop_returns_minimum {K P : Type} [LinearOrder K] (c : P → P → Bool)
    (hc : addressable_priority_queue.StrictWeakOrder c) (q : addressable_priority_queue K P)
    (hq : addressable_priority_queue.Reachable c q) (hne : q.empty = false) :
    ∃ k p q1, q.pop = .ok (k, q1) ∧ q.top = .ok k ∧
      (p, k) ∈ q.entries ∧ (∀ x ∈ q.entries, x.2 = k → x.1 = p) ∧
      (∀ x ∈ q.entries, c x.1 p = false) ∧
      (∀ x ∈ q.entries, addressable_priority_queue.Equiv c x.1 p → k ≤ x.2) ∧
      q1.entries = q.entries.filter (fun x => x.2 != k) := by
  have hinv := addressable_priority_queue.Reachable.pq_inv hc q hq
  cases hv : q.vals with
  | nil => simp [addressable_priority_queue.empty, hv] at hne
  | cons n rest =>
    obtain ⟨h1, h2, h3⟩ := addressable_priority_queue.pq_pop_eq q hinv n rest hv
    have hs := hinv.sorted
    rw [hv, List.pairwise_cons] at hs
    have hmem : ∀ x ∈ q.entries, x = n.val ∨ ∃ y ∈ rest, y.val = x := by
      intro x hx
      obtain ⟨y, hy, rfl⟩ := List.mem_map.1 hx
      rw [hv] at hy
      rcases List.mem_cons.1 hy with rfl | hy'
      · exact Or.inl rfl
      · exact Or.inr ⟨y, hy', rfl⟩
    refine ⟨n.val.2, n.val.1, _, h2, h1, ?_, ?_, ?_, ?_, ?_⟩
    · exact List.mem_map.2 ⟨n, by rw [hv]; exact List.mem_cons_self _ _, rfl⟩
    · intro x hx hxk
      obtain ⟨y, hy, rfl⟩ := List.mem_map.1 hx
      have : y = n := List.inj_on_of_nodup_map hinv.vals_key hy
        (by rw [hv]; exact List.mem_cons_self _ _) hxk
      rw [this]
    · intro x hx
      rcases hmem x hx with rfl | ⟨y, hy, rfl⟩
      · exact hc.irrefl _
      · rcases (addressable_priority_queue.cmp_iff c _ _).1 (hs.1 y hy) with h | h
        · exact hc.asymm _ _ h
        · exact h.1
    · intro x hx hxe
      rcases hmem x hx with rfl | ⟨y, hy, rfl⟩
      · exact le_refl _
      · rcases (addressable_priority_queue.cmp_iff c _ _).1 (hs.1 y hy) with h | h
        · rw [hxe.2] at h; cases h
        · exact le_of_lt h.2
    · show List.map SetNode.val rest = _
      rw [h3, addressable_priority_queue.entries_filter]
      rfl

/-- C2 at the state reached by `insert(5, 10); insert(3, 10)` with `std::less`. -/
theorem C2_pq_pop_returns_minimum_witness :
    ∃ k p q1, addressable_priority_queue.pop
        ({ vals := [⟨2, (10, 3)⟩, ⟨0, (10, 5)⟩], meta := [⟨1, 5, 0⟩, ⟨3, 3, 2⟩], heap := 4 } :
          addressable_priority_queue Nat Nat) = .ok (k, q1) ∧
      addressable_priority_queue.top
        ({ vals := [⟨2, (10, 3)⟩, ⟨0, (10, 5)⟩], meta := [⟨1, 5, 0⟩, ⟨3, 3, 2⟩], heap := 4 } :
          addressable_priority_queue Nat Nat) = .ok k ∧
      (p, k) ∈ [((10 : Nat), (3 : Nat)), (10, 5)] ∧ k = 3 ∧ p = 10 := by
  obtain ⟨k, p, q1, h1, h2, h3, -⟩ := C2_pq_pop_returns_minimum
    (fun a b : Nat => decide (a < b)) less_nat_strictWeakOrder
    ({ vals := [⟨2, (10, 3)⟩, ⟨0, (10, 5)⟩], meta := [⟨1, 5, 0⟩, ⟨3, 3, 2⟩], heap := 4 } :
      addressable_priority_queue Nat Nat)
    (.step (.insert 3 10) { vals := [⟨0, (10, 5)⟩], meta := [⟨1, 5, 0⟩], heap := 2 } _
      (.step (.insert 5 10) addressable_priority_queue.create _ .create rfl) rfl) rfl
  refine ⟨k, p, q1, h1, h2, h3, ?_, ?_⟩
  · simp [addressable_priority_queue.top] at h2
    exact h2.symm
  · simp [addressable_priority_queue.top] at h2
    subst h2
    simp [addressable_priority_queue.entries] at h3
    exact h3

/-- C3 as stated fails: with a `Cmp` that compares priorities by their halves
(a strict weak ordering), the reachable queue holding key 0 with priority 2
keeps the pair (2, 0) when `insert(0, 3)` is called, although 3 differs from 2;
the pair (3, 0) is not in the queue afterwards. -/
theorem C3_pq_reinsert_counterexample :
    addressable_priority_queue.StrictWeakOrder (fun a b : Nat => decide (a / 2 < b / 2)) ∧
    addressable_priority_queue.Reachable (fun a b : Nat => decide (a / 2 < b / 2))
      ({ vals := [⟨0, (2, 0)⟩], meta := [⟨1, 0, 0⟩], heap := 2 } :
        addressable_priority_queue Nat Nat) ∧
    ((2 : Nat), (0 : Nat)) ∈ ({ vals := [⟨0, (2, 0)⟩], meta := [⟨1, 0, 0⟩], heap := 2 } :
        addressable_priority_queue Nat Nat).entries ∧
    (3 : Nat) ≠ 2 ∧
    ∃ q1, addressable_priority_queue.insert (fun a b : Nat => decide (a / 2 < b / 2)) 0 3
        ({ vals := [⟨0, (2, 0)⟩], meta := [⟨1, 0, 0⟩], heap := 2 } :
          addressable_priority_queue Nat Nat) = .ok ((1, false), q1) ∧
      ((3 : Nat), (0 : Nat)) ∉ q1.entries ∧ ((2 : Nat), (0 : Nat)) ∈ q1.entries := by
  refine ⟨half_nat_strictWeakOrder,
    .step (.insert 0 2) addressable_priority_queue.create _ .create rfl, by decide, by decide,
    _, rfl, by decide, by decide⟩

/-- C3, amended: in every reachable state of an `addressable_priority_queue`
that holds key `k` with priority `p`, `insert(k, o)` returns `wasNew = false`;
when `o` is not equivalent to `p` under `Cmp` the set of surviving keys is
unchanged, the queue afterwards holds exactly one pair for `k`, namely
`(o, k)`, the pair `(p, k)` is gone and every other key keeps its priority;
when `o` is equivalent to `p` under `Cmp` the queue is left unchanged. -/
theorem C3_pq_reinsert_relocates {K P : Type} [LinearOrder K] (c : P → P → Bool)
    (hc : addressable_priority_queue.StrictWeakOrder c) (q : addressable_priority_queue K P)
    (hq : addressable_priority_queue.Reachable c q) (k : K) (p o : P)
    (hk : (p, k) ∈ q.entries) :
    (¬ addressable_priority_queue.Equiv c p o →
      ∃ h q1, addressable_priority_queue.insert c k o q = .ok ((h, false), q1) ∧
        (∀ k1, k1 ∈ q1.keys ↔ k1 ∈ q.keys) ∧
        q1.entries.filter (fun x => x.2 == k) = [(o, k)] ∧
        (p, k) ∉ q1.entries ∧
        (∀ x : P × K, x.2 ≠ k → (x ∈ q1.entries ↔ x ∈ q.entries))) ∧
    (addressable_priority_queue.Equiv c p o →
      ∃ h, addressable_priority_queue.insert c k o q = .ok ((h, false), q)) := by
  have hinv := addressable_priority_queue.Reachable.pq_inv hc q hq
  have hkeys : k ∈ q.keys := (addressable_priority_queue.mem_keys_iff_entries q k).2 ⟨p, hk⟩
  have huniq : ∀ p0, (p0, k) ∈ q.entries → p0 = p := by
    intro p0 h0
    obtain ⟨y, hy, hyv⟩ := List.mem_map.1 h0
    obtain ⟨z, hz, hzv⟩ := List.mem_map.1 hk
    have : y = z := List.inj_on_of_nodup_map hinv.vals_key hy hz (by rw [hyv, hzv])
    rw [this, hzv] at hyv
    exact (Prod.mk.inj hyv).1.symm
  obtain ⟨h, q1, p1, h1, h2, _, h4, h5, h6, h7⟩ :=
    addressable_priority_queue.pq_insert_spec hc q hinv k o
  have hb : decide (k ∉ q.keys) = false := by simp [hkeys]
  rw [hb] at h1
  constructor
  · intro hne
    have hp1 : p1 = o := h6 (fun p0 h0 => by rw [huniq p0 h0]; exact hne)
    subst hp1
    have hmem : ∀ x : P × K, x ∈ q1.entries ↔ x = (p1, k) ∨ (x ∈ q.entries ∧ x.2 ≠ k) := by
      intro x
      rw [h5.mem_iff, List.mem_cons, List.mem_filter]
      simp
    have hfilter : q1.entries.filter (fun x => x.2 == k) = [(p1, k)] := by
      have hperm := h5.filter (fun x => x.2 == k)
      rw [List.filter_cons_of_pos (by simp), List.filter_filter] at hperm
      have hnil : List.filter (fun a => (a.2 == k && a.2 != k)) q.entries = [] := by
        rw [List.filter_eq_nil_iff]
        intro a _
        by_cases hak : a.2 = k <;> simp [hak]
      rw [hnil] at hperm
      exact List.perm_singleton.1 hperm
    refine ⟨h, q1, h1, ?_, hfilter, ?_, ?_⟩
    · intro k1
      rw [addressable_priority_queue.mem_keys_iff_entries,
        addressable_priority_queue.mem_keys_iff_entries]
      constructor
      · rintro ⟨p0, h0⟩
        rcases (hmem _).1 h0 with h0 | h0
        · rw [(Prod.mk.inj h0).2]
          exact ⟨p, hk⟩
        · exact ⟨p0, h0.1⟩
      · rintro ⟨p0, h0⟩
        by_cases hk1 : k1 = k
        · exact ⟨p1, (hmem _).2 (Or.inl (by rw [hk1]))⟩
        · exact ⟨p0, (hmem _).2 (Or.inr ⟨h0, hk1⟩)⟩
    · intro hpk
      rcases (hmem _).1 hpk with h0 | h0
      · apply hne
        rw [(Prod.mk.inj h0).1]
        exact addressable_priority_queue.Equiv.refl hc p1
      · exact h0.2 rfl
    · intro x hx
      rw [hmem x]
      constructor
      · rintro (h0 | h0)
        · rw [h0] at hx
          exact absurd rfl hx
        · exact h0.1
      · intro h0
        exact Or.inr ⟨h0, hx⟩
  · intro heq
    obtain ⟨m, hm, rfl⟩ := (addressable_priority_queue.pq_mem_keys_iff_meta q hinv k).1 hkeys
    obtain ⟨n, hn, hnv⟩ := List.mem_map.1 hk
    have hnk : n.val.2 = m.key := by rw [hnv]
    have hnp : n.val.1 = p := by rw [hnv]
    exact ⟨m.addr, addressable_priority_queue.insert_equiv hc q hinv m hm n hn hnk o
      (by rw [hnp]; exact heq)⟩

/-- C3 (amended) at the state reached by `insert(0, 2)`, with `std::less`:
`insert(0, 3)` relocates key 0, and `insert(0, 2)` leaves the queue as it is. -/
theorem C3_pq_reinsert_relocates_witness :
    (¬ addressable_priority_queue.Equiv (fun a b : Nat => decide (a < b)) 2 3 →
      ∃ h q1, addressable_priority_queue.insert (fun a b : Nat => decide (a < b)) 0 3
          ({ vals := [⟨0, (2, 0)⟩], meta := [⟨1, 0, 0⟩], heap := 2 } :
            addressable_priority_queue Nat Nat) = .ok ((h, false), q1) ∧
        (∀ k1, k1 ∈ q1.keys ↔ k1 ∈ ({ vals := [⟨0, (2, 0)⟩], meta := [⟨1, 0, 0⟩], heap := 2 } :
            addressable_priority_queue Nat Nat).keys) ∧
        q1.entries.filter (fun x => x.2 == 0) = [(3, 0)] ∧
        (2, 0) ∉ q1.entries ∧
        (∀ x : Nat × Nat, x.2 ≠ 0 →
          (x ∈ q1.entries ↔ x ∈ ({ vals := [⟨0, (2, 0)⟩], meta := [⟨1, 0, 0⟩], heap := 2 } :
            addressable_priority_queue Nat Nat).entries))) ∧
    (addressable_priority_queue.Equiv (fun a b : Nat => decide (a < b)) 2 3 →
      ∃ h, addressable_priority_queue.insert (fun a b : Nat => decide (a < b)) 0 3
          ({ vals := [⟨0, (2, 0)⟩], meta := [⟨1, 0, 0⟩], heap := 2 } :
            addressable_priority_queue Nat Nat) = .ok ((h, false),
          { vals := [⟨0, (2, 0)⟩], meta := [⟨1, 0, 0⟩], heap := 2 })) :=
  C3_pq_reinsert_relocates (fun a b : Nat => decide (a < b)) less_nat_strictWeakOrder
    { vals := [⟨0, (2, 0)⟩], meta := [⟨1, 0, 0⟩], heap := 2 }
    (.step (.insert 0 2) addressable_priority_queue.create _ .create rfl) 0 2 3 (by decide)

/-- C5: for both queues, in every reachable state `erase(e)` returns true iff
`e` is in the queue; when it returns false the queue is unchanged, and when it
returns true exactly `e` is removed while all other keys keep their order
(FIFO queue) or their priority and order (priority queue). -/
theorem C5_erase_key_reports_presence {K P : Type} [LinearOrder K] :
    (∀ (q : addressable_fifo_queue K) (e : K), addressable_fifo_queue.Reachable q →
      ∃ b q1, addressable_fifo_queue.erase e q = .ok (b, q1) ∧
        (b = true ↔ e ∈ q.keys) ∧ (b = false → q1 = q) ∧
        (b = true → q1.keys = q.keys.filter (fun k => k != e))) ∧
    (∀ (c : P → P → Bool) (q : addressable_priority_queue K P) (e : K),
      addressable_priority_queue.StrictWeakOrder c → addressable_priority_queue.Reachable c q →
      ∃ b q1, addressable_priority_queue.erase e q = .ok (b, q1) ∧
        (b = true ↔ e ∈ q.keys) ∧ (b = false → q1 = q) ∧
        (b = true → q1.entries = q.entries.filter (fun x => x.2 != e))) := by
  constructor
  · intro q e hq
    have hinv := addressable_fifo_queue.Reachable.fifo_inv q hq
    refine ⟨_, _, addressable_fifo_queue.fifo_erase_eq q hinv e, by simp, ?_, ?_⟩
    · intro hb
      have he : e ∉ q.keys := by simpa using hb
      have h1 : q.vals.filter (fun n => n.key != e) = q.vals :=
        List.filter_eq_self.2 (fun n hn => by
          have : n.key ≠ e := fun h => he (h ▸ List.mem_map.2 ⟨n, hn, rfl⟩)
          simpa using this)
      have h2 : q.meta.filter (fun n => n.key != e) = q.meta :=
        List.filter_eq_self.2 (fun n hn => by
          have : n.key ≠ e := fun h =>
            he ((addressable_fifo_queue.fifo_mem_keys_iff_meta q hinv e).2 ⟨n, hn, h⟩)
          simpa using this)
      rw [h1, h2]
    · intro _
      simp [addressable_fifo_queue.keys, addressable_fifo_queue.fifo_keys_filter]
  · intro c q e hc hq
    have hinv := addressable_priority_queue.Reachable.pq_inv hc q hq
    refine ⟨_, _, addressable_priority_queue.pq_erase_eq q hinv e, by simp, ?_, ?_⟩
    · intro hb
      have he : e ∉ q.keys := by simpa using hb
      have h1 : q.vals.filter (fun n => n.val.2 != e) = q.vals :=
        List.filter_eq_self.2 (fun n hn => by
          have : n.val.2 ≠ e := fun h => he (h ▸ List.mem_map.2 ⟨n, hn, rfl⟩)
          simpa using this)
      have h2 : q.meta.filter (fun n => n.key != e) = q.meta :=
        List.filter_eq_self.2 (fun n hn => by
          have : n.key ≠ e := fun h =>
            he ((addressable_priority_queue.pq_mem_keys_iff_meta q hinv e).2 ⟨n, hn, h⟩)
          simpa using this)
      rw [h1, h2]
    · intro _
      exact addressable_priority_queue.entries_filter q.vals e

/-- C5 at the states reached by `insert(1); insert(2)` (FIFO queue) and by
`insert(5, 10); insert(3, 10)` (priority queue), erasing the keys 1 and 5. -/
theorem C5_erase_key_reports_presence_witness :
    (∃ b q1, addressable_fifo_queue.erase 1
        ({ vals := [⟨0, 1⟩, ⟨2, 2⟩], meta := [⟨1, 1, 0⟩, ⟨3, 2, 2⟩], heap := 4 } :
          addressable_fifo_queue Nat) = .ok (b, q1) ∧ b = true ∧ q1.keys = [2]) ∧
    (∃ b q1, addressable_priority_queue.erase 5
        ({ vals := [⟨2, (10, 3)⟩, ⟨0, (10, 5)⟩], meta := [⟨1, 5, 0⟩, ⟨3, 3, 2⟩], heap := 4 } :
          addressable_priority_queue Nat Nat) = .ok (b, q1) ∧ b = true ∧
        q1.entries = [(10, 3)]) := by
  obtain ⟨b, q1, h1, h2, -, h4⟩ := (C5_erase_key_reports_presence (K := Nat) (P := Nat)).1
    { vals := [⟨0, 1⟩, ⟨2, 2⟩], meta := [⟨1, 1, 0⟩, ⟨3, 2, 2⟩], heap := 4 } 1
    (.step (.insert 2) { vals := [⟨0, 1⟩], meta := [⟨1, 1, 0⟩], heap := 2 } _
      (.step (.insert 1) addressable_fifo_queue.create _ .create rfl) rfl)
  obtain ⟨b', q1', h1', h2', -, h4'⟩ := (C5_erase_key_reports_presence (K := Nat) (P := Nat)).2
    (fun a b : Nat => decide (a < b))
    { vals := [⟨2, (10, 3)⟩, ⟨0, (10, 5)⟩], meta := [⟨1, 5, 0⟩, ⟨3, 3, 2⟩], heap := 4 } 5
    less_nat_strictWeakOrder
    (.step (.insert 3 10) { vals := [⟨0, (10, 5)⟩], meta := [⟨1, 5, 0⟩], heap := 2 } _
      (.step (.insert 5 10) addressable_priority_queue.create _ .create rfl) rfl)
  have hb : b = true := h2.2 (by decide)
  have hb' : b' = true := h2'.2 (by decide)
  exact ⟨⟨b, q1, h1, hb, by rw [h4 hb]; rfl⟩, ⟨b', q1', h1', hb', by rw [h4' hb']; rfl⟩⟩

/-- C6 as stated fails: on the empty queues `top()` and `pop()` raise no error;
`pop()` trips its assertion and `top()` reads through the end of an empty
container. -/
theorem C6_empty_queue_counterexample :
    (¬ ∃ x, addressable_fifo_queue.pop (addressable_fifo_queue.create :
        addressable_fifo_queue Nat) = .throws x) ∧
    (¬ ∃ x, addressable_fifo_queue.top (addressable_fifo_queue.create :
        addressable_fifo_queue Nat) = .throws x) ∧
    (¬ ∃ x, addressable_priority_queue.pop (addressable_priority_queue.create :
        addressable_priority_queue Nat Nat) = .throws x) ∧
    (¬ ∃ x, addressable_priority_queue.top (addressable_priority_queue.create :
        addressable_priority_queue Nat Nat) = .throws x) := by
  refine ⟨?_, ?_, ?_, ?_⟩ <;> rintro ⟨x, hx⟩ <;> cases hx

/-- C6, amended: `top()` and `pop()` require a non-empty queue and raise no
EmptyQueue error: on an empty `addressable_fifo_queue` or
`addressable_priority_queue`, `pop()` fails its assertion `!empty()` and the
result of `top()` is undefined; on a non-empty reachable queue both return a
key, the same one. -/
theorem C6_top_pop_require_nonempty {K P : Type} [LinearOrder K] :
    (∀ q : addressable_fifo_queue K, q.empty = true →
      q.pop = .assertFailed ∧ q.top = .undefined) ∧
    (∀ q : addressable_priority_queue K P, q.empty = true →
      q.pop = .assertFailed ∧ q.top = .undefined) ∧
    (∀ q : addressable_fifo_queue K, addressable_fifo_queue.Reachable q → q.empty = false →
      ∃ k q1, q.top = .ok k ∧ q.pop = .ok (k, q1)) ∧
    (∀ (c : P → P → Bool) (q : addressable_priority_queue K P),
      addressable_priority_queue.StrictWeakOrder c → addressable_priority_queue.Reachable c q →
      q.empty = false → ∃ k q1, q.top = .ok k ∧ q.pop = .ok (k, q1)) := by
  refine ⟨?_, ?_, ?_, ?_⟩
  · intro q hq
    have hv : q.vals = [] := by simpa [addressable_fifo_queue.empty] using hq
    simp [addressable_fifo_queue.pop, addressable_fifo_queue.top, addressable_fifo_queue.empty, hv]
  · intro q hq
    have hv : q.vals = [] := by simpa [addressable_priority_queue.empty] using hq
    simp [addressable_priority_queue.pop, addressable_priority_queue.top,
      addressable_priority_queue.empty, hv]
  · intro q hq hne
    cases hv : q.vals with
    | nil => simp [addressable_fifo_queue.empty, hv] at hne
    | cons n rest =>
      obtain ⟨h1, h2, _⟩ := addressable_fifo_queue.fifo_pop_eq q
        (addressable_fifo_queue.Reachable.fifo_inv q hq) n rest hv
      exact ⟨_, _, h1, h2⟩
  · intro c q hc hq hne
    cases hv : q.vals with
    | nil => simp [addressable_priority_queue.empty, hv] at hne
    | cons n rest =>
      obtain ⟨h1, h2, _⟩ := addressable_priority_queue.pq_pop_eq q
        (addressable_priority_queue.Reachable.pq_inv hc q hq) n rest hv
      exact ⟨_, _, h1, h2⟩

/-- C6 (amended) at the empty queues and at the queues holding one key. -/
theorem C6_top_pop_require_nonempty_witness :
    (addressable_fifo_queue.pop (addressable_fifo_queue.create : addressable_fifo_queue Nat)
        = .assertFailed ∧
      addressable_fifo_queue.top (addressable_fifo_queue.create : addressable_fifo_queue Nat)
        = .undefined) ∧
    (addressable_priority_queue.pop
        (addressable_priority_queue.create : addressable_priority_queue Nat Nat)
        = .assertFailed ∧
      addressable_priority_queue.top
        (addressable_priority_queue.create : addressable_priority_queue Nat Nat)
        = .undefined) ∧
    (∃ k q1, addressable_fifo_queue.top
        ({ vals := [⟨0, 1⟩], meta := [⟨1, 1, 0⟩], heap := 2 } : addressable_fifo_queue Nat)
          = .ok k ∧
      addressable_fifo_queue.pop
        ({ vals := [⟨0, 1⟩], meta := [⟨1, 1, 0⟩], heap := 2 } : addressable_fifo_queue Nat)
          = .ok (k, q1)) ∧
    (∃ k q1, addressable_priority_queue.top
        ({ vals := [⟨0, (10, 5)⟩], meta := [⟨1, 5, 0⟩], heap := 2 } :
          addressable_priority_queue Nat Nat) = .ok k ∧
      addressable_priority_queue.pop
        ({ vals := [⟨0, (10, 5)⟩], meta := [⟨1, 5, 0⟩], heap := 2 } :
          addressable_priority_queue Nat Nat) = .ok (k, q1)) :=
  ⟨(C6_top_pop_require_nonempty (K := Nat) (P := Nat)).1 _ rfl,
   (C6_top_pop_require_nonempty (K := Nat) (P := Nat)).2.1 _ rfl,
   (C6_top_pop_require_nonempty (K := Nat) (P := Nat)).2.2.1 _
     (.step (.insert 1) addressable_fifo_queue.create _ .create rfl) rfl,
   (C6_top_pop_require_nonempty (K := Nat) (P := Nat)).2.2.2 (fun a b : Nat => decide (a < b)) _
     less_nat_strictWeakOrder
     (.step (.insert 5 10) addressable_priority_queue.create _ .create rfl) rfl⟩

/-- C7: re-insert idempotence of `addressable_priority_queue`: in every
reachable state, calling `insert(k, p)` twice in a row returns
`wasNew = false` on the second call (and on the first iff `k` was already
present), the same handle both times, and the queue state after the second
call equals the state after the first. -/
theorem C7_pq_reinsert_idempotent {K P : Type} [LinearOrder K] (c : P → P → Bool)
    (hc : addressable_priority_queue.StrictWeakOrder c) (q : addressable_priority_queue K P)
    (hq : addressable_priority_queue.Reachable c q) (k : K) (p : P) :
    ∃ h wasNew q1, addressable_priority_queue.insert c k p q = .ok ((h, wasNew), q1) ∧
      (wasNew = false ↔ k ∈ q.keys) ∧
      addressable_priority_queue.insert c k p q1 = .ok ((h, false), q1) := by
  have hinv := addressable_priority_queue.Reachable.pq_inv hc q hq
  obtain ⟨h, q1, p1, h1, h2, ⟨m, hm, hma, hmk⟩, h4, h5, _⟩ :=
    addressable_priority_queue.pq_insert_spec hc q hinv k p
  refine ⟨h, _, q1, h1, by simp, ?_⟩
  have hmem : (p1, k) ∈ q1.entries := h5.mem_iff.2 (List.mem_cons_self _ _)
  obtain ⟨n, hn, hnv⟩ := List.mem_map.1 hmem
  have hnk : n.val.2 = m.key := by rw [hnv, hmk]
  have hnp : addressable_priority_queue.Equiv c n.val.1 p := by rw [hnv]; exact h4
  have := addressable_priority_queue.insert_equiv hc q1 h2 m hm n hn hnk p hnp
  rw [hmk, hma] at this
  exact this

/-- C7 at the state reached by `insert(5, 10)` with `std::less`, inserting the
new key 3 with priority 7 twice. -/
theorem C7_pq_reinsert_idempotent_witness :
    ∃ h wasNew q1, addressable_priority_queue.insert (fun a b : Nat => decide (a < b)) 3 7
        ({ vals := [⟨0, (10, 5)⟩], meta := [⟨1, 5, 0⟩], heap := 2 } :
          addressable_priority_queue Nat Nat) = .ok ((h, wasNew), q1) ∧
      (wasNew = false ↔ 3 ∈ ({ vals := [⟨0, (10, 5)⟩], meta := [⟨1, 5, 0⟩], heap := 2 } :
          addressable_priority_queue Nat Nat).keys) ∧
      addressable_priority_queue.insert (fun a b : Nat => decide (a < b)) 3 7 q1
        = .ok ((h, false), q1) :=
  C7_pq_reinsert_idempotent (fun a b : Nat => decide (a < b)) less_nat_strictWeakOrder
    { vals := [⟨0, (10, 5)⟩], meta := [⟨1, 5, 0⟩], heap := 2 }
    (.step (.insert 5 10) addressable_priority_queue.create _ .create rfl) 3 7

/-- C8: representation invariant of `addressable_priority_queue`, in every
state reached from the empty queue by `insert`, `erase(key)`, `erase(handle)`
with a valid handle, and `pop`: every key occurs in at most one (priority, key)
pair of the ordered set, the key set of the key-to-position map equals the set
of keys occurring in the ordered set (each key once in the map), and the
position stored for key `k` designates the one set node whose key is `k`; so in
`insert` the case "pair already in the set but key missing from the map"
does not occur. -/
theorem C8_pq_representation_invariant {K P : Type} [LinearOrder K] (c : P → P → Bool)
    (hc : addressable_priority_queue.StrictWeakOrder c) (q : addressable_priority_queue K P)
    (hq : addressable_priority_queue.Reachable c q) :
    (q.entries.map Prod.snd).Nodup ∧
    (∀ k, k ∈ q.meta.map MapNode.key ↔ k ∈ q.entries.map Prod.snd) ∧
    (q.meta.map MapNode.key).Nodup ∧
    (q.vals.map SetNode.addr).Nodup ∧
    (∀ m ∈ q.meta, ∃ n ∈ q.vals, n.addr = m.it ∧ n.val.2 = m.key) ∧
    (∀ (e : K) (o : P),
      ¬ (map_find e q.meta = none ∧ (set_insert c q.heap (o, e) q.vals).2.2 = false)) := by
  have hinv := addressable_priority_queue.Reachable.pq_inv hc q hq
  have hkeys : q.entries.map Prod.snd = q.keys := by
    simp [addressable_priority_queue.entries, addressable_priority_queue.keys, List.map_map]
  refine ⟨?_, ?_, hinv.meta_key, hinv.vals_addr, hinv.meta_vals, ?_⟩
  · rw [hkeys]
    exact hinv.vals_key
  · intro k
    rw [hkeys, addressable_priority_queue.pq_mem_keys_iff_meta q hinv k, List.mem_map]
  · rintro e o ⟨h1, h2⟩
    have hnone := (map_find_none e q.meta).1 h1
    have he : e ∉ q.keys := by
      rw [addressable_priority_queue.pq_mem_keys_iff_meta q hinv e]
      rintro ⟨m, hm, hme⟩
      exact hnone m hm hme
    have hne' : ∀ y ∈ q.vals, cmp c y.val (o, e) = true ∨ cmp c (o, e) y.val = true := by
      intro y hy
      apply addressable_priority_queue.cmp_total_of_key_ne
      intro h
      exact he (List.mem_map.2 ⟨y, hy, h⟩)
    have := (addressable_priority_queue.set_insert_new hc q.heap (o, e) q.vals hne').1
    rw [this] at h2
    cases h2

/-- C8 at the state reached by `insert(5, 10); insert(3, 10)` with `std::less`. -/
theorem C8_pq_representation_invariant_witness :
    (({ vals := [⟨2, (10, 3)⟩, ⟨0, (10, 5)⟩], meta := [⟨1, 5, 0⟩, ⟨3, 3, 2⟩], heap := 4 } :
        addressable_priority_queue Nat Nat).entries.map Prod.snd).Nodup ∧
    (∀ k,
      k ∈ ({ vals := [⟨2, (10, 3)⟩, ⟨0, (10, 5)⟩], meta := [⟨1, 5, 0⟩, ⟨3, 3, 2⟩], heap := 4 } :
        addressable_priority_queue Nat Nat).meta.map MapNode.key ↔
      k ∈ ({ vals := [⟨2, (10, 3)⟩, ⟨0, (10, 5)⟩], meta := [⟨1, 5, 0⟩, ⟨3, 3, 2⟩], heap := 4 } :
        addressable_priority_queue Nat Nat).entries.map Prod.snd) :=
  ⟨(C8_pq_representation_invariant (fun a b : Nat => decide (a < b)) less_nat_strictWeakOrder
      { vals := [⟨2, (10, 3)⟩, ⟨0, (10, 5)⟩], meta := [⟨1, 5, 0⟩, ⟨3, 3, 2⟩], heap := 4 }
      (.step (.insert 3 10) { vals := [⟨0, (10, 5)⟩], meta := [⟨1, 5, 0⟩], heap := 2 } _
        (.step (.insert 5 10) addressable_priority_queue.create _ .create rfl) rfl)).1,
   (C8_pq_representation_invariant (fun a b : Nat => decide (a < b)) less_nat_strictWeakOrder
      { vals := [⟨2, (10, 3)⟩, ⟨0, (10, 5)⟩], meta := [⟨1, 5, 0⟩, ⟨3, 3, 2⟩], heap := 4 }
      (.step (.insert 3 10) { vals := [⟨0, (10, 5)⟩], meta := [⟨1, 5, 0⟩], heap := 2 } _
        (.step (.insert 5 10) addressable_priority_queue.create _ .create rfl) rfl)).2.1⟩

/-- C9 for the handle 1 returned by `insert(1)` on the empty queue, used after
a further `insert(2)`. -/
theorem C9_fifo_handle_designates_key_witness :
    addressable_fifo_queue.insert 1 (addressable_fifo_queue.create : addressable_fifo_queue Nat)
      = .ok ((1, true), { vals := [⟨0, 1⟩], meta := [⟨1, 1, 0⟩], heap := 2 }) ∧
    ∃ q3, addressable_fifo_queue.erase_handle 1
        ({ vals := [⟨0, 1⟩, ⟨2, 2⟩], meta := [⟨1, 1, 0⟩, ⟨3, 2, 2⟩], heap := 4 } :
          addressable_fifo_queue Nat) = .ok q3 ∧
      addressable_fifo_queue.erase 1
        ({ vals := [⟨0, 1⟩, ⟨2, 2⟩], meta := [⟨1, 1, 0⟩, ⟨3, 2, 2⟩], heap := 4 } :
          addressable_fifo_queue Nat) = .ok (true, q3) :=
  ⟨rfl, C9_fifo_handle_designates_key addressable_fifo_queue.create
    { vals := [⟨0, 1⟩], meta := [⟨1, 1, 0⟩], heap := 2 }
    { vals := [⟨0, 1⟩, ⟨2, 2⟩], meta := [⟨1, 1, 0⟩, ⟨3, 2, 2⟩], heap := 4 }
    1 1 true [.insert 2] .create rfl
    (.cons (.insert 2) [] _ _ _ (show (2 : Nat) ≠ 1 by decide) rfl (.nil _))⟩

/-- C1 for the sequence `insert(1); insert(2); insert(1); erase(2); insert(3)`:
popping until empty returns 1, then 3. -/
theorem C1_fifo_survivors_and_pop_order_witness :
    ∃ q, addressable_fifo_queue.run
        ([.insert 1, .insert 2, .insert 1, .erase 2, .insert 3].map
          addressable_fifo_queue.KeyOp.toOp)
        (addressable_fifo_queue.create : addressable_fifo_queue Nat) = .ok q ∧
      addressable_fifo_queue.drain 2 q = some ([1, 3], { vals := [], meta := [], heap := 7 }) := by
  obtain ⟨q, h1, -⟩ := C1_fifo_survivors_and_pop_order
    ([.insert 1, .insert 2, .insert 1, .erase 2, .insert 3] :
      List (addressable_fifo_queue.KeyOp Nat))
  refine ⟨q, h1, ?_⟩
  have h2 : addressable_fifo_queue.run
      ([.insert 1, .insert 2, .insert 1, .erase 2, .insert 3].map
        addressable_fifo_queue.KeyOp.toOp)
      (addressable_fifo_queue.create : addressable_fifo_queue Nat)
      = .ok { vals := [⟨4, 1⟩, ⟨5, 3⟩], meta := [⟨1, 1, 4⟩, ⟨6, 3, 5⟩], heap := 7 } := rfl
  rw [h2] at h1
  cases h1
  rfl

/-! ## wfs_file_base: the direct-I/O fallback of `open_file_impl` -/

/-- With direct I/O compiled in, a mode with `DIRECT` asks for unbuffered
access in the first call, and clearing the flag changes nothing else. -/
theorem flags_direct (mode : open_mode) (hd : mode.DIRECT = true) :
    flags_and_attributes false mode &&& FILE_FLAG_NO_BUFFERING = FILE_FLAG_NO_BUFFERING ∧
    (flags_and_attributes false mode &&& (0xFFFFFFFF ^^^ FILE_FLAG_NO_BUFFERING))
      &&& FILE_FLAG_NO_BUFFERING = 0 ∧
    (flags_and_attributes false mode &&& (0xFFFFFFFF ^^^ FILE_FLAG_NO_BUFFERING))
      ||| FILE_FLAG_NO_BUFFERING = flags_and_attributes false mode := by
  unfold flags_and_attributes
  rw [hd]
  cases mode.RDONLY <;> decide

/-- Without direct I/O compiled in, the unbuffered flag is never passed. -/
theorem flags_direct_off (mode : open_mode) :
    flags_and_attributes true mode &&& FILE_FLAG_NO_BUFFERING = 0 := by
  unfold flags_and_attributes
  cases mode.RDONLY <;> cases mode.DIRECT <;> decide

/-- C10 as stated fails in a build with `FOXXLL_DIRECT_IO_OFF`: for the mode
`RDWR | CREAT | DIRECT | REQUIRE_DIRECT`, `open_file_impl` returns the
invalid-handle sentinel as a normal result, raising no `io_error` and making no
operating-system call; and for `RDWR | CREAT | DIRECT` a failing first open is
not retried. -/
theorem C10_open_file_impl_counterexample :
    open_file_impl no_direct_api true "disk0" mode_rdwr_require_direct { os := 0, calls := [] }
      = (.ok INVALID_HANDLE_VALUE, { os := 0, calls := [] }) ∧
    (mode_rdwr_require_direct.DIRECT = true ∧ mode_rdwr_require_direct.REQUIRE_DIRECT = true) ∧
    (open_file_impl
        { no_direct_api with CreateFileA := fun _ s => (INVALID_HANDLE_VALUE, s + 1) }
        true "disk0" mode_rdwr_direct { os := 0, calls := [] }).2.calls.length = 1 := by
  refine ⟨rfl, ⟨rfl, rfl⟩, rfl⟩

/-- C10, amended: direct-I/O fallback of `open_file_impl`. In a build with
direct I/O compiled in (`FOXXLL_DIRECT_IO_OFF` not set), for every path and
mode: a valid handle from the first `CreateFileA` is returned after that one
call; if the first open fails and the mode has `DIRECT` without
`REQUIRE_DIRECT`, the open is retried exactly once with identical file name,
access, share mode, disposition and attributes except that the unbuffered flag
is cleared, the retry's handle is returned when it is valid and an `io_error`
is raised when it is not; if the first open fails and the mode has
`REQUIRE_DIRECT` or no `DIRECT`, no retry is made and the call fails with an
`io_error`; the invalid-handle sentinel is never returned as a success. In a
build with `FOXXLL_DIRECT_IO_OFF`, a mode with `DIRECT` and `REQUIRE_DIRECT`
returns the invalid-handle sentinel without any operating-system call, and
every other mode makes exactly one `CreateFileA` call without the unbuffered
flag, returning its handle when valid and raising an `io_error` otherwise. -/
theorem C10_open_file_impl_direct_fallback {σ : Type} (api : WinApi σ) (filename : String)
    (mode : open_mode) (w : World σ) :
    ((api.CreateFileA (first_args false filename mode) w.os).1 ≠ INVALID_HANDLE_VALUE →
      open_file_impl api false filename mode w
        = (.ok (api.CreateFileA (first_args false filename mode) w.os).1,
           { os := (api.CreateFileA (first_args false filename mode) w.os).2,
             calls := w.calls ++ [.CreateFileA (first_args false filename mode)] })) ∧
    ((api.CreateFileA (first_args false filename mode) w.os).1 = INVALID_HANDLE_VALUE →
      mode.DIRECT = true → mode.REQUIRE_DIRECT = false →
      (open_file_impl api false filename mode w).2.calls
        = w.calls ++ [.CreateFileA (first_args false filename mode),
            .CreateFileA (clear_no_buffering (first_args false filename mode))] ∧
      (clear_no_buffering (first_args false filename mode)).lpFileName
        = (first_args false filename mode).lpFileName ∧
      (clear_no_buffering (first_args false filename mode)).dwDesiredAccess
        = (first_args false filename mode).dwDesiredAccess ∧
      (clear_no_buffering (first_args false filename mode)).dwShareMode
        = (first_args false filename mode).dwShareMode ∧
      (clear_no_buffering (first_args false filename mode)).dwCreationDisposition
        = (first_args false filename mode).dwCreationDisposition ∧
      (first_args false filename mode).dwFlagsAndAttributes &&& FILE_FLAG_NO_BUFFERING
        = FILE_FLAG_NO_BUFFERING ∧
      (clear_no_buffering (first_args false filename mode)).dwFlagsAndAttributes
        &&& FILE_FLAG_NO_BUFFERING = 0 ∧
      (clear_no_buffering (first_args false filename mode)).dwFlagsAndAttributes
        ||| FILE_FLAG_NO_BUFFERING = (first_args false filename mode).dwFlagsAndAttributes ∧
      ((api.CreateFileA (clear_no_buffering (first_args false filename mode))
            (api.CreateFileA (first_args false filename mode) w.os).2).1 ≠ INVALID_HANDLE_VALUE →
        (open_file_impl api false filename mode w).1
          = .ok (api.CreateFileA (clear_no_buffering (first_args false filename mode))
            (api.CreateFileA (first_args false filename mode) w.os).2).1) ∧
      ((api.CreateFileA (clear_no_buffering (first_args false filename mode))
            (api.CreateFileA (first_args false filename mode) w.os).2).1 = INVALID_HANDLE_VALUE →
        (open_file_impl api false filename mode w).1 = .throws (.io_error "CreateFile()"))) ∧
    ((api.CreateFileA (first_args false filename mode) w.os).1 = INVALID_HANDLE_VALUE →
      (mode.REQUIRE_DIRECT = true ∨ mode.DIRECT = false) →
      (open_file_impl api false filename mode w).2.calls
        = w.calls ++ [.CreateFileA (first_args false filename mode)] ∧
      (open_file_impl api false filename mode w).1 = .throws (.io_error "CreateFile()")) ∧
    (open_file_impl api false filename mode w).1 ≠ .ok INVALID_HANDLE_VALUE ∧
    (mode.DIRECT = true → mode.REQUIRE_DIRECT = true →
      open_file_impl api true filename mode w = (.ok INVALID_HANDLE_VALUE, w)) ∧
    ((mode.DIRECT = false ∨ mode.REQUIRE_DIRECT = false) →
      (open_file_impl api true filename mode w).2.calls
        = w.calls ++ [.CreateFileA (first_args true filename mode)] ∧
      (first_args true filename mode).dwFlagsAndAttributes &&& FILE_FLAG_NO_BUFFERING = 0 ∧
      ((api.CreateFileA (first_args true filename mode) w.os).1 ≠ INVALID_HANDLE_VALUE →
        (open_file_impl api true filename mode w).1
          = .ok (api.CreateFileA (first_args true filename mode) w.os).1) ∧
      ((api.CreateFileA (first_args true filename mode) w.os).1 = INVALID_HANDLE_VALUE →
        (open_file_impl api true filename mode w).1 = .throws (.io_error "CreateFile()"))) := by
  refine ⟨?_, ?_, ?_, ?_, ?_, ?_⟩
  · intro h1
    simp [open_file_impl, call_CreateFileA, h1]
  · intro h1 hd hr
    obtain ⟨f1, f2, f3⟩ := flags_direct mode hd
    refine ⟨?_, rfl, rfl, rfl, rfl, f1, f2, f3, ?_, ?_⟩
    · by_cases h2 : (api.CreateFileA (clear_no_buffering (first_args false filename mode))
          (api.CreateFileA (first_args false filename mode) w.os).2).1 = INVALID_HANDLE_VALUE
        <;> simp [open_file_impl, call_CreateFileA, h1, hd, hr, h2]
    · intro h2
      simp [open_file_impl, call_CreateFileA, h1, hd, hr, h2]
    · intro h2
      simp [open_file_impl, call_CreateFileA, h1, hd, hr, h2]
  · intro h1 hm
    rcases hm with hr | hd
    · simp [open_file_impl, call_CreateFileA, h1, hr]
    · simp [open_file_impl, call_CreateFileA, h1, hd]
  · by_cases h1 : (api.CreateFileA (first_args false filename mode) w.os).1
        = INVALID_HANDLE_VALUE
    · by_cases hc : mode.DIRECT = true ∧ mode.REQUIRE_DIRECT = false
      · by_cases h2 : (api.CreateFileA (clear_no_buffering (first_args false filename mode))
            (api.CreateFileA (first_args false filename mode) w.os).2).1 = INVALID_HANDLE_VALUE
        · simp [open_file_impl, call_CreateFileA, h1, hc.1, hc.2, h2]
        · simp [open_file_impl, call_CreateFileA, h1, hc.1, hc.2, h2]
      · have hc' : ¬ (mode.DIRECT = true ∧ mode.REQUIRE_DIRECT = false) := hc
        simp only [Bool.not_eq_true, not_and, Bool.not_eq_false] at hc'
        cases hd : mode.DIRECT with
        | false => simp [open_file_impl, call_CreateFileA, h1, hd]
        | true => simp [open_file_impl, call_CreateFileA, h1, hd, hc' hd]
    · simp [open_file_impl, call_CreateFileA, h1]
  · intro hd hr
    simp [open_file_impl, hd, hr]
  · intro hm
    have hcond : ¬ (mode.DIRECT = true ∧ mode.REQUIRE_DIRECT = true) := by
      rcases hm with h | h <;> simp [h]
    refine ⟨?_, flags_direct_off mode, ?_, ?_⟩
    · by_cases h1 : (api.CreateFileA (first_args true filename mode) w.os).1
          = INVALID_HANDLE_VALUE <;>
        simp [open_file_impl, call_CreateFileA, hcond, h1]
    · intro h1
      simp [open_file_impl, call_CreateFileA, hcond, h1]
    · intro h1
      simp [open_file_impl, call_CreateFileA, hcond, h1]

/-- C10 (amended) on an operating system that refuses unbuffered access, for
the mode `RDWR | CREAT | DIRECT`: the open is retried once without the
unbuffered flag and the retry's handle 7 is returned. -/
theorem C10_open_file_impl_direct_fallback_witness :
    open_file_impl no_direct_api false "disk0" mode_rdwr_direct { os := 0, calls := [] }
      = (.ok 7, { os := 2, calls :=
          [.CreateFileA ⟨"disk0", 0xC0000000, 0, 4, 0x20000000⟩,
           .CreateFileA ⟨"disk0", 0xC0000000, 0, 4, 0⟩] }) ∧
    (open_file_impl no_direct_api false "disk0" mode_rdwr_direct { os := 0, calls := [] }).2.calls
      = [] ++ [.CreateFileA (first_args false "disk0" mode_rdwr_direct),
          .CreateFileA (clear_no_buffering (first_args false "disk0" mode_rdwr_direct))] :=
  ⟨rfl, ((C10_open_file_impl_direct_fallback no_direct_api "disk0" mode_rdwr_direct
    { os := 0, calls := [] }).2.1 rfl rfl rfl).1⟩

/-! ## wfs_file_base: close, set_size, lock and the constructor -/

/-- C12: `wfs_file_base::close` is idempotent: after a `close()` that returns,
the descriptor field equals the invalid-handle sentinel, and a further
`close()` performs no operating-system call, raises no error and leaves every
field of the handle unchanged. -/
theorem C12_close_idempotent {σ : Type} (api : WinApi σ) (fb fb1 : wfs_file_base)
    (w w1 : World σ) (h : wfs_file_base.close api fb w = (.ok (), fb1, w1)) :
    fb1.file_des_ = INVALID_HANDLE_VALUE ∧
    wfs_file_base.close api fb1 w1 = (.ok (), fb1, w1) := by
  unfold wfs_file_base.close at h
  by_cases hd : fb.file_des_ = INVALID_HANDLE_VALUE
  · rw [if_pos hd] at h
    cases h
    exact ⟨hd, by simp [wfs_file_base.close, hd]⟩
  · rw [if_neg hd] at h
    by_cases hc : (call_CloseHandle api fb.file_des_ w).1 = false
    · rw [if_pos hc] at h
      cases h
    · rw [if_neg hc] at h
      cases h
      exact ⟨rfl, by simp [wfs_file_base.close]⟩

/-- C12 for the open handle 1 on the example system that hands out fresh
handles: the first `close()` calls `CloseHandle(1)`, the second does nothing. -/
theorem C12_close_idempotent_witness :
    wfs_file_base.close fresh_handle_api
        { file_des_ := 1, mode_ := mode_rdwr_direct, filename_ := "disk0", locked_ := true,
          bytes_per_sector_ := some 512, need_alignment_ := true } { os := 1, calls := [] }
      = (.ok (), { file_des_ := INVALID_HANDLE_VALUE, mode_ := mode_rdwr_direct,
                   filename_ := "disk0", locked_ := true, bytes_per_sector_ := some 512,
                   need_alignment_ := true },
          { os := 1, calls := [.CloseHandle 1] }) ∧
    wfs_file_base.close fresh_handle_api
        { file_des_ := INVALID_HANDLE_VALUE, mode_ := mode_rdwr_direct, filename_ := "disk0",
          locked_ := true, bytes_per_sector_ := some 512, need_alignment_ := true }
        { os := 1, calls := [.CloseHandle 1] }
      = (.ok (), { file_des_ := INVALID_HANDLE_VALUE, mode_ := mode_rdwr_direct,
                   filename_ := "disk0", locked_ := true, bytes_per_sector_ := some 512,
                   need_alignment_ := true },
          { os := 1, calls := [.CloseHandle 1] }) :=
  ⟨rfl, (C12_close_idempotent fresh_handle_api
    { file_des_ := 1, mode_ := mode_rdwr_direct, filename_ := "disk0", locked_ := true,
      bytes_per_sector_ := some 512, need_alignment_ := true } _ { os := 1, calls := [] } _
    rfl).2⟩

/-- A `_size()` that returns made one `GetFileSizeEx` call and changed no field. -/
theorem size_ok {σ : Type} (api : WinApi σ) (fb fb1 : wfs_file_base) (w w1 : World σ) (n : Nat)
    (h : wfs_file_base._size api fb w = (.ok n, fb1, w1)) :
    fb1 = fb ∧ w1 = (call_GetFileSizeEx api fb.file_des_ w).2 ∧
    w1.calls = w.calls ++ [.GetFileSizeEx fb.file_des_] := by
  unfold wfs_file_base._size at h
  split at h
  · cases h
  · rename_i r w2 heq
    cases h
    have : w1 = (call_GetFileSizeEx api fb.file_des_ w).2 := by rw [heq]
    exact ⟨rfl, this, by rw [this]; rfl⟩

/-- A resize on the held descriptor that returns made the two calls
`SetFilePointerEx` and `SetEndOfFile` on it and changed no field. -/
theorem set_size_move_end_ok {σ : Type} (api : WinApi σ) (newsize : Nat)
    (fb fb1 : wfs_file_base) (w w1 : World σ)
    (h : set_size_move_end api newsize fb w = (.ok (), fb1, w1)) :
    fb1 = fb ∧
    w1.calls = w.calls ++ [.SetFilePointerEx fb.file_des_ newsize, .SetEndOfFile fb.file_des_] := by
  unfold set_size_move_end at h
  split at h
  · cases h
  · split at h
    · cases h
    · cases h
      exact ⟨rfl, by simp [call_SetEndOfFile, call_SetFilePointerEx]⟩

/-- A close-and-reopen block that returns closed the held descriptor and then
ran `open_file_impl` with the given mode, whose handle is the new descriptor. -/
theorem set_size_reopen_ok {σ : Type} (api : WinApi σ) (off : Bool) (m : open_mode)
    (fb fb1 : wfs_file_base) (w w1 : World σ)
    (h : set_size_reopen api off m fb w = (.ok (), fb1, w1)) :
    ∃ wA, wA.calls = w.calls ++ [.CloseHandle fb.file_des_] ∧
      open_file_impl api off fb.filename_ m wA = (.ok fb1.file_des_, w1) ∧
      fb1 = { fb with file_des_ := fb1.file_des_ } := by
  unfold set_size_reopen at h
  split at h
  · cases h
  · split at h
    · rename_i hd w2 heq
      cases h
      exact ⟨_, rfl, heq, rfl⟩
    · cases h
    · cases h
    · cases h

/-- Opening with the mode `WRONLY` makes one `CreateFileA` call, without the
unbuffered flag; when it returns, the handle is valid. -/
theorem open_WRONLY_ok {σ : Type} (api : WinApi σ) (off : Bool) (name : String)
    (w w1 : World σ) (hd : HANDLE)
    (h : open_file_impl api off name mode_WRONLY w = (.ok hd, w1)) :
    hd ≠ INVALID_HANDLE_VALUE ∧
    w1.calls = w.calls ++ [.CreateFileA (first_args off name mode_WRONLY)] ∧
    (first_args off name mode_WRONLY).dwFlagsAndAttributes &&& FILE_FLAG_NO_BUFFERING = 0 := by
  have hflag : (first_args off name mode_WRONLY).dwFlagsAndAttributes
      &&& FILE_FLAG_NO_BUFFERING = 0 := by
    show flags_and_attributes off mode_WRONLY &&& FILE_FLAG_NO_BUFFERING = 0
    cases off <;> rfl
  have hD : mode_WRONLY.DIRECT = false := rfl
  by_cases h1 : (api.CreateFileA (first_args off name mode_WRONLY) w.os).1 = INVALID_HANDLE_VALUE
  · simp [open_file_impl, call_CreateFileA, hD, h1] at h
  · simp [open_file_impl, call_CreateFileA, hD, h1] at h
    obtain ⟨h2, h3⟩ := h
    subst h2
    refine ⟨h1, ?_, hflag⟩
    rw [← h3]

/-- C13 as stated fails for a mode with `TRUNC`: the handle constructed with
`RDWR | CREAT | TRUNC | DIRECT` (sector size 512) and resized to 100 bytes is
reopened at the end with the disposition `OPEN_ALWAYS`, not with the
`TRUNCATE_EXISTING` of its original open mode. -/
theorem C13_set_size_counterexample :
    wfs_file_base.wfs_file_base fresh_handle_api false "disk0" mode_rdwr_trunc_direct
        { os := 0, calls := [] }
      = (.ok { file_des_ := 1, mode_ := mode_rdwr_trunc_direct, filename_ := "disk0",
               locked_ := true, bytes_per_sector_ := some 512, need_alignment_ := true },
          { os := 1, calls := [.CreateFileA ⟨"disk0", 0xC0000000, 0, 5, 0x20000000⟩,
              .LockFile 1, .GetFullPathNameA "disk0"] }) ∧
    wfs_file_base.set_size fresh_handle_api false 100
        { file_des_ := 1, mode_ := mode_rdwr_trunc_direct, filename_ := "disk0",
          locked_ := true, bytes_per_sector_ := some 512, need_alignment_ := true }
        { os := 1, calls := [] }
      = (.ok (), { file_des_ := 3, mode_ := mode_rdwr_trunc_direct, filename_ := "disk0",
                   locked_ := true, bytes_per_sector_ := some 512, need_alignment_ := true },
          { os := 3, calls := [.GetFileSizeEx 1, .CloseHandle 1,
              .CreateFileA ⟨"disk0", 0x40000000, 0, 4, 0⟩,
              .SetFilePointerEx 2 100, .SetEndOfFile 2, .CloseHandle 2,
              .CreateFileA ⟨"disk0", 0xC0000000, 0, 4, 0x20000000⟩] }) ∧
    first_args false "disk0" mode_rdwr_trunc_direct = ⟨"disk0", 0xC0000000, 0, 5, 0x20000000⟩ ∧
    (⟨"disk0", 0xC0000000, 0, 4, 0x20000000⟩ : CreateFileArgs)
      ≠ first_args false "disk0" mode_rdwr_trunc_direct := by
  refine ⟨rfl, rfl, rfl, by decide⟩

/-- C13, amended: `set_size(newsize)` on a handle opened writable (without
`RDONLY`), for sizes below 2^63, when the call returns. In `DIRECT` mode with a
sector size `s > 0` stored in the handle and `newsize` not a multiple of `s`:
after querying the size it closes the descriptor, reopens the file with the
mode `WRONLY` (one `CreateFileA` without the unbuffered flag), sets the file's
end to `newsize` on that descriptor, closes it again and reopens the file
through `open_file_impl` with the original open mode with `TRUNC` cleared; the
descriptor field becomes the handle of that last open and no other field
changes. Without `DIRECT`, or when `newsize` is a multiple of the sector size,
the descriptor is never closed or reopened: after querying the size the file's
end is set to `newsize` on the existing descriptor and no field changes. -/
theorem C13_set_size_reopens_for_unaligned_size {σ : Type} (api : WinApi σ) (off : Bool)
    (newsize : Nat) (fb fb1 : wfs_file_base) (w w1 : World σ)
    (hw : fb.mode_.RDONLY = false) (hn : newsize < 2 ^ 63)
    (h : wfs_file_base.set_size api off newsize fb w = (.ok (), fb1, w1)) :
    (fb.mode_.DIRECT = true → ∀ s, fb.bytes_per_sector_ = some s → 0 < s → newsize % s ≠ 0 →
      ∃ h1 wA, h1 ≠ INVALID_HANDLE_VALUE ∧
        wA.calls = w.calls ++ [.GetFileSizeEx fb.file_des_, .CloseHandle fb.file_des_,
          .CreateFileA (first_args off fb.filename_ mode_WRONLY),
          .SetFilePointerEx h1 newsize, .SetEndOfFile h1, .CloseHandle h1] ∧
        (first_args off fb.filename_ mode_WRONLY).dwFlagsAndAttributes
          &&& FILE_FLAG_NO_BUFFERING = 0 ∧
        open_file_impl api off fb.filename_ { fb.mode_ with TRUNC := false } wA
          = (.ok fb1.file_des_, w1) ∧
        fb1 = { fb with file_des_ := fb1.file_des_ }) ∧
    ((fb.mode_.DIRECT = false ∨
        ∃ s, fb.bytes_per_sector_ = some s ∧ 0 < s ∧ newsize % s = 0) →
      fb1 = fb ∧
      w1.calls = w.calls ++ [.GetFileSizeEx fb.file_des_,
        .SetFilePointerEx fb.file_des_ newsize, .SetEndOfFile fb.file_des_]) := by
  unfold wfs_file_base.set_size at h
  split at h
  · cases h
  · cases h
  · cases h
  · rename_i cur fb0 w0 hsize
    obtain ⟨e1, -, e3⟩ := size_ok api fb fb0 w w0 cur hsize
    subst e1
    rw [hw] at h
    simp only [Bool.false_eq_true, if_false] at h
    constructor
    · intro hd s hs hs0 hmod
      have hbad : direct_with_bad_size fb0 newsize = some true := by
        simp [direct_with_bad_size, hd, hs, Nat.pos_iff_ne_zero.1 hs0, hmod]
      rw [hbad] at h
      simp only at h
      split at h
      · rename_i u2 fb2 w2 hre1
        split at h
        · rename_i u3 fb3 w3 hmv
          obtain ⟨wA, a1, a2, a3⟩ := set_size_reopen_ok api off mode_WRONLY fb0 fb2 w0 w2 hre1
          obtain ⟨b1, b2, b3⟩ := open_WRONLY_ok api off fb0.filename_ wA w2 fb2.file_des_ a2
          obtain ⟨c1, c2⟩ := set_size_move_end_ok api newsize fb2 fb3 w2 w3 hmv
          rw [c1] at h
          obtain ⟨wB, d1, d2, d3⟩ := set_size_reopen_ok api off _ fb2 fb1 w3 w1 h
          have hname : fb2.filename_ = fb0.filename_ := by rw [a3]
          have hmode : fb2.mode_ = fb0.mode_ := by rw [a3]
          refine ⟨fb2.file_des_, wB, b1, ?_, b3, ?_, ?_⟩
          · rw [d1, c2, b2, a1, e3]
            simp
          · rw [← hname, ← hmode]
            exact d2
          · rw [d3, a3]
        · rename_i hne
          rw [h] at hne
          exact absurd rfl (hne () fb1 w1)
      · rename_i hne
        rw [h] at hne
        exact absurd rfl (hne () fb1 w1)
    · intro hcase
      have hbad : direct_with_bad_size fb0 newsize = some false := by
        rcases hcase with hd | ⟨s, hs, hs0, hmod⟩
        · simp [direct_with_bad_size, hd]
        · cases hd : fb0.mode_.DIRECT
          · simp [direct_with_bad_size, hd]
          · simp [direct_with_bad_size, hd, hs, Nat.pos_iff_ne_zero.1 hs0, hmod]
      rw [hbad] at h
      simp only at h
      obtain ⟨c1, c2⟩ := set_size_move_end_ok api newsize fb0 fb1 w0 w1 h
      refine ⟨c1, ?_⟩
      rw [c2, e3]
      simp

/-- C13 (amended) for the handle 1 with mode `RDWR | CREAT | DIRECT` and sector
size 512 on the example system that hands out fresh handles, resized to 100
bytes: the size is set on the handle 2 of the `WRONLY` reopen and the handle
ends up holding the handle 3 of the final reopen. -/
theorem C13_set_size_reopens_for_unaligned_size_witness :
    wfs_file_base.set_size fresh_handle_api false 100
        { file_des_ := 1, mode_ := mode_rdwr_direct, filename_ := "disk0", locked_ := true,
          bytes_per_sector_ := some 512, need_alignment_ := true } { os := 1, calls := [] }
      = (.ok (), { file_des_ := 3, mode_ := mode_rdwr_direct, filename_ := "disk0",
                   locked_ := true, bytes_per_sector_ := some 512, need_alignment_ := true },
          { os := 3, calls := [.GetFileSizeEx 1, .CloseHandle 1,
              .CreateFileA ⟨"disk0", 0x40000000, 0, 4, 0⟩,
              .SetFilePointerEx 2 100, .SetEndOfFile 2, .CloseHandle 2,
              .CreateFileA ⟨"disk0", 0xC0000000, 0, 4, 0x20000000⟩] }) ∧
    ∃ h1 wA, h1 ≠ INVALID_HANDLE_VALUE ∧
      wA.calls = [] ++ [.GetFileSizeEx 1, .CloseHandle 1,
        .CreateFileA (first_args false "disk0" mode_WRONLY),
        .SetFilePointerEx h1 100, .SetEndOfFile h1, .CloseHandle h1] ∧
      (first_args false "disk0" mode_WRONLY).dwFlagsAndAttributes
        &&& FILE_FLAG_NO_BUFFERING = 0 ∧
      open_file_impl fresh_handle_api false "disk0" { mode_rdwr_direct with TRUNC := false } wA
        = (.ok 3, { os := 3, calls := [.GetFileSizeEx 1, .CloseHandle 1,
              .CreateFileA ⟨"disk0", 0x40000000, 0, 4, 0⟩,
              .SetFilePointerEx 2 100, .SetEndOfFile 2, .CloseHandle 2,
              .CreateFileA ⟨"disk0", 0xC0000000, 0, 4, 0x20000000⟩] }) :=
  ⟨rfl, by
    obtain ⟨h1, wA, e1, e2, e3, e4, -⟩ := (C13_set_size_reopens_for_unaligned_size
      fresh_handle_api false 100
      { file_des_ := 1, mode_ := mode_rdwr_direct, filename_ := "disk0", locked_ := true,
        bytes_per_sector_ := some 512, need_alignment_ := true } _ { os := 1, calls := [] } _
      rfl (by decide) rfl).1 rfl 512 rfl (by decide) (by decide)
    exact ⟨h1, wA, e1, e2, e3, e4⟩⟩

/-- The constructor never stores a sector size other than 512: when it returns,
`bytes_per_sector_` is either unassigned or 512, whatever the operating system
reported. -/
theorem constructor_sector_size {σ : Type} (api : WinApi σ) (off : Bool) (filename : String)
    (mode : open_mode) (w w1 : World σ) (fb : wfs_file_base)
    (h : wfs_file_base.wfs_file_base api off filename mode w = (.ok fb, w1)) :
    fb.bytes_per_sector_ = none ∨
    (fb.bytes_per_sector_ = some 512 ∧
      ∃ w0, (call_GetFullPathNameA api filename w0).1 = none) := by
  have hlock : ∀ (fb0 fb2 : wfs_file_base) (wa wb : World σ) (u : Unit),
      fb0.bytes_per_sector_ = none →
      (if !mode.NO_LOCK then wfs_file_base.lock api fb0 wa else (.ok (), fb0, wa))
        = (.ok u, fb2, wb) → fb2.bytes_per_sector_ = none := by
    intro fb0 fb2 wa wb u h0 hl
    cases hno : mode.NO_LOCK
    · simp only [hno, Bool.not_false, if_true] at hl
      unfold wfs_file_base.lock at hl
      split at hl
      · cases hl; exact h0
      · split at hl
        · cases hl
        · cases hl; exact h0
    · simp only [hno, Bool.not_true, Bool.false_eq_true, if_false] at hl
      cases hl; exact h0
  unfold wfs_file_base.wfs_file_base at h
  split at h
  · cases h
  · cases h
  · cases h
  · split at h
    · cases h
    · cases h
    · cases h
    · rename_i u fb2 w2 hl
      have hnone := hlock _ fb2 _ w2 u rfl hl
      split at h
      · split at h
        · rename_i w3 hp
          cases h
          exact Or.inr ⟨rfl, w2, by rw [hp]⟩
        · split at h
          · cases h; exact Or.inl hnone
          · cases h; exact Or.inl hnone
      · cases h; exact Or.inl hnone

/-- C11 fails on the code: on a system where the full path is resolved and the
disk reports 4096 bytes per sector, the constructor in the mode
`RDWR | CREAT | DIRECT` returns a handle whose `bytes_per_sector_` was never
assigned (the reported value went to a local variable of the same name); when
the sector-size query fails the member is unassigned as well, not 512; only
when resolving the full path fails is it 512. A later `set_size` on the first
handle reads the unassigned member. -/
theorem C11_sector_size_not_stored :
    wfs_file_base.wfs_file_base sector_4096_api false "disk0" mode_rdwr_direct
        { os := 0, calls := [] }
      = (.ok { file_des_ := 1, mode_ := mode_rdwr_direct, filename_ := "disk0",
               locked_ := true, bytes_per_sector_ := none, need_alignment_ := true },
          { os := 1, calls := [.CreateFileA ⟨"disk0", 0xC0000000, 0, 4, 0x20000000⟩,
              .LockFile 1, .GetFullPathNameA "disk0",
              .GetDiskFreeSpaceA (directory_part example_full_path)] }) ∧
    (sector_4096_api.GetDiskFreeSpaceA (directory_part example_full_path) 1).1 = some 4096 ∧
    (wfs_file_base.wfs_file_base no_sector_size_api false "disk0" mode_rdwr_direct
        { os := 0, calls := [] }).1
      = .ok { file_des_ := 1, mode_ := mode_rdwr_direct, filename_ := "disk0",
              locked_ := true, bytes_per_sector_ := none, need_alignment_ := true } ∧
    (wfs_file_base.wfs_file_base fresh_handle_api false "disk0" mode_rdwr_direct
        { os := 0, calls := [] }).1
      = .ok { file_des_ := 1, mode_ := mode_rdwr_direct, filename_ := "disk0",
              locked_ := true, bytes_per_sector_ := some 512, need_alignment_ := true } ∧
    (wfs_file_base.set_size sector_4096_api false 4096
        { file_des_ := 1, mode_ := mode_rdwr_direct, filename_ := "disk0",
          locked_ := true, bytes_per_sector_ := none, need_alignment_ := true }
        { os := 1, calls := [] }).1 = .undefined := by
  refine ⟨rfl, rfl, rfl, rfl, rfl⟩

/-- C16 fails on the code: the handle constructed with `RDWR | CREAT | DIRECT`
(locking on, sector size 512) holds the locked descriptor 1; `set_size(100)`
closes it and ends on the reopened descriptor 3 with `locked_` still true,
although no `LockFile` call was ever made on descriptor 3; a later `lock()`
returns early without any operating-system call. -/
theorem C16_locked_flag_survives_reopen :
    wfs_file_base.wfs_file_base fresh_handle_api false "disk0" mode_rdwr_direct
        { os := 0, calls := [] }
      = (.ok { file_des_ := 1, mode_ := mode_rdwr_direct, filename_ := "disk0",
               locked_ := true, bytes_per_sector_ := some 512, need_alignment_ := true },
          { os := 1, calls := [.CreateFileA ⟨"disk0", 0xC0000000, 0, 4, 0x20000000⟩,
              .LockFile 1, .GetFullPathNameA "disk0"] }) ∧
    wfs_file_base.set_size fresh_handle_api false 100
        { file_des_ := 1, mode_ := mode_rdwr_direct, filename_ := "disk0",
          locked_ := true, bytes_per_sector_ := some 512, need_alignment_ := true }
        { os := 1, calls := [.CreateFileA ⟨"disk0", 0xC0000000, 0, 4, 0x20000000⟩,
            .LockFile 1, .GetFullPathNameA "disk0"] }
      = (.ok (), { file_des_ := 3, mode_ := mode_rdwr_direct, filename_ := "disk0",
                   locked_ := true, bytes_per_sector_ := some 512, need_alignment_ := true },
          { os := 3, calls := [.CreateFileA ⟨"disk0", 0xC0000000, 0, 4, 0x20000000⟩,
              .LockFile 1, .GetFullPathNameA "disk0",
              .GetFileSizeEx 1, .CloseHandle 1,
              .CreateFileA ⟨"disk0", 0x40000000, 0, 4, 0⟩,
              .SetFilePointerEx 2 100, .SetEndOfFile 2, .CloseHandle 2,
              .CreateFileA ⟨"disk0", 0xC0000000, 0, 4, 0x20000000⟩] }) ∧
    ApiCall.LockFile 3 ∉
      [ApiCall.CreateFileA ⟨"disk0", 0xC0000000, 0, 4, 0x20000000⟩,
        .LockFile 1, .GetFullPathNameA "disk0",
        .GetFileSizeEx 1, .CloseHandle 1,
        .CreateFileA ⟨"disk0", 0x40000000, 0, 4, 0⟩,
        .SetFilePointerEx 2 100, .SetEndOfFile 2, .CloseHandle 2,
        .CreateFileA ⟨"disk0", 0xC0000000, 0, 4, 0x20000000⟩] ∧
    wfs_file_base.lock fresh_handle_api
        { file_des_ := 3, mode_ := mode_rdwr_direct, filename_ := "disk0",
          locked_ := true, bytes_per_sector_ := some 512, need_alignment_ := true }
        { os := 3, calls := [.CreateFileA ⟨"disk0", 0xC0000000, 0, 4, 0x20000000⟩,
            .LockFile 1, .GetFullPathNameA "disk0",
            .GetFileSizeEx 1, .CloseHandle 1,
            .CreateFileA ⟨"disk0", 0x40000000, 0, 4, 0⟩,
            .SetFilePointerEx 2 100, .SetEndOfFile 2, .CloseHandle 2,
            .CreateFileA ⟨"disk0", 0xC0000000, 0, 4, 0x20000000⟩] }
      = (.ok (), { file_des_ := 3, mode_ := mode_rdwr_direct, filename_ := "disk0",
                   locked_ := true, bytes_per_sector_ := some 512, need_alignment_ := true },
          { os := 3, calls := [.CreateFileA ⟨"disk0", 0xC0000000, 0, 4, 0x20000000⟩,
              .LockFile 1, .GetFullPathNameA "disk0",
              .GetFileSizeEx 1, .CloseHandle 1,
              .CreateFileA ⟨"disk0", 0x40000000, 0, 4, 0⟩,
              .SetFilePointerEx 2 100, .SetEndOfFile 2, .CloseHandle 2,
              .CreateFileA ⟨"disk0", 0xC0000000, 0, 4, 0x20000000⟩] }) := by
  refine ⟨rfl, rfl, by simp, rfl⟩

/-! ## disk_queue: the fairness policy and the dispatch order -/

/-- C14: the fairness policy of a `disk_queue` is a static default: it is
`WRITE` for every `disk_queue`, and for every `op` in `READ`, `WRITE`, `NONE`,
`set_priority_op(op)` returns without error and leaves the policy and every
field of the queue unchanged. -/
theorem C14_priority_op_is_static_WRITE {R : Type} (q : disk_queue R) (op : priority_op) :
    disk_queue._priority_op = priority_op.WRITE ∧
    disk_queue.set_priority_op op q = (.ok (), q) ∧
    (disk_queue.set_priority_op op q).2.write_queue = q.write_queue ∧
    (disk_queue.set_priority_op op q).2.read_queue = q.read_queue ∧
    (disk_queue.set_priority_op op q).2.sem = q.sem :=
  ⟨rfl, rfl, rfl, rfl, rfl⟩

theorem run_events_snoc {R : Type} (es : List (QueueEvent R)) (e : QueueEvent R)
    (s : disk_queue R × List (Dispatched R)) :
    run_events (es ++ [e]) s = run_events [e] (run_events es s) := by
  induction es generalizing s with
  | nil => rfl
  | cons a es ih =>
    cases a with
    | add_readreq req => exact ih _
    | add_writereq req => exact ih _
    | pickup =>
      simp only [List.cons_append, run_events]
      cases s.1.worker_pickup with
      | none => exact ih _
      | some r => exact ih _

/-- What a pickup does, by the state of the two queues, when a permit is there. -/
theorem worker_pickup_cases {R : Type} (q : disk_queue R) (hs : 0 < q.sem) :
    (∀ req rest, q.write_queue = req :: rest →
      q.worker_pickup = some (.WRITE req, { q with write_queue := rest, sem := q.sem - 1 })) ∧
    (q.write_queue = [] → ∀ req rest, q.read_queue = req :: rest →
      q.worker_pickup = some (.READ req, { q with read_queue := rest, sem := q.sem - 1 })) ∧
    (q.write_queue = [] → q.read_queue = [] → q.worker_pickup = none) := by
  have hs' : q.sem ≠ 0 := Nat.pos_iff_ne_zero.1 hs
  refine ⟨?_, ?_, ?_⟩
  · intro req rest hw
    simp [disk_queue.worker_pickup, hs', disk_queue.select, disk_queue._priority_op,
      disk_queue.take_write, hw]
  · intro hw req rest hr
    simp [disk_queue.worker_pickup, hs', disk_queue.select, disk_queue._priority_op,
      disk_queue.take_read, hw, hr]
  · intro hw hr
    simp [disk_queue.worker_pickup, hs', disk_queue.select, disk_queue._priority_op,
      disk_queue.take_write, hw, hr]

theorem QueueInv_step {R : Type} (es : List (QueueEvent R)) (e : QueueEvent R)
    (s : disk_queue R × List (Dispatched R)) (h : QueueInv es s) :
    QueueInv (es ++ [e]) (run_events [e] s) := by
  obtain ⟨h1, h2, h3⟩ := h
  cases e with
  | add_readreq req =>
    constructor
    · simp only [run_events, disk_queue.add_readreq, List.length_append, List.length_singleton]
      omega
    · simp only [run_events, disk_queue.add_readreq, submitted_writes, List.filterMap_append]
      simpa [submitted_writes] using h2
    · simp only [run_events, disk_queue.add_readreq, submitted_reads, List.filterMap_append]
      simp only [submitted_reads] at h3
      rw [h3]
      simp
  | add_writereq req =>
    constructor
    · simp only [run_events, disk_queue.add_writereq, List.length_append, List.length_singleton]
      omega
    · simp only [run_events, disk_queue.add_writereq, submitted_writes, List.filterMap_append]
      simp only [submitted_writes] at h2
      rw [h2]
      simp
    · simp only [run_events, disk_queue.add_writereq, submitted_reads, List.filterMap_append]
      simpa [submitted_reads] using h3
  | pickup =>
    have hw0 : submitted_writes (es ++ [QueueEvent.pickup]) = submitted_writes es := by
      simp [submitted_writes, List.filterMap_append]
    have hr0 : submitted_reads (es ++ [QueueEvent.pickup]) = submitted_reads es := by
      simp [submitted_reads, List.filterMap_append]
    cases hwq : s.1.write_queue with
    | cons req rest =>
      have hs : 0 < s.1.sem := by rw [h1, hwq]; simp
      have hp := (worker_pickup_cases s.1 hs).1 req rest hwq
      simp only [run_events, hp]
      constructor
      · simp only
        rw [h1, hwq]
        simp only [List.length_cons]
        omega
      · rw [hw0, h2, hwq]
        simp [dispatched_writes, List.filterMap_append]
      · rw [hr0, h3]
        simp [dispatched_reads, List.filterMap_append]
    | nil =>
      cases hrq : s.1.read_queue with
      | cons req rest =>
        have hs : 0 < s.1.sem := by rw [h1, hrq]; simp
        have hp := (worker_pickup_cases s.1 hs).2.1 hwq req rest hrq
        simp only [run_events, hp]
        constructor
        · simp only
          rw [h1, hwq, hrq]
          simp only [List.length_cons, List.length_nil]
          omega
        · rw [hw0, h2, hwq]
          simp [dispatched_writes, List.filterMap_append]
        · rw [hr0, h3, hrq]
          simp [dispatched_reads, List.filterMap_append]
      | nil =>
        have hs : s.1.sem = 0 := by rw [h1, hwq, hrq]; rfl
        have hp : s.1.worker_pickup = none := by simp [disk_queue.worker_pickup, hs]
        simp only [run_events, hp]
        exact ⟨h1, by rw [hw0]; exact h2, by rw [hr0]; exact h3⟩

theorem QueueInv_run {R : Type} (es : List (QueueEvent R)) :
    QueueInv es (run_events es (disk_queue.create, [])) := by
  induction es using List.reverseRecOn with
  | nil => constructor <;> rfl
  | append_singleton es e ih =>
    rw [run_events_snoc]
    exact QueueInv_step es e _ ih

/-- C15: dispatch order of a disk queue under the default policy, for the
worker modelled from the spec. After any sequence of submissions and pickups
starting from the empty queue: if the write queue is non-empty the next pickup
takes the oldest pending WRITE, otherwise the oldest pending READ, so a pickup
that takes a READ finds no WRITE pending; the worker blocks exactly when both
queues are empty; and the requests of each kind are dispatched in submission
order (those submitted are those dispatched, in order, followed by those still
pending). With WRITEs at offsets 0, 4096, 8192 and READs at offsets 0, 4096
all pending, in either submission order of the two kinds, five pickups
dispatch WRITE(0), WRITE(4096), WRITE(8192), READ(0), READ(4096). -/
theorem C15_dispatch_prefers_writes_in_fifo_order {R : Type} (es : List (QueueEvent R)) :
    (∀ req rest, (run_events es (disk_queue.create, [])).1.write_queue = req :: rest →
      (run_events es (disk_queue.create, [])).1.worker_pickup
        = some (.WRITE req,
            { (run_events es (disk_queue.create, [])).1 with
              write_queue := rest,
              sem := (run_events es (disk_queue.create, [])).1.sem - 1 })) ∧
    ((run_events es (disk_queue.create, [])).1.write_queue = [] →
      ∀ req rest, (run_events es (disk_queue.create, [])).1.read_queue = req :: rest →
      (run_events es (disk_queue.create, [])).1.worker_pickup
        = some (.READ req,
            { (run_events es (disk_queue.create, [])).1 with
              read_queue := rest,
              sem := (run_events es (disk_queue.create, [])).1.sem - 1 })) ∧
    (∀ req q1, (run_events es (disk_queue.create, [])).1.worker_pickup = some (.READ req, q1) →
      (run_events es (disk_queue.create, [])).1.write_queue = []) ∧
    ((run_events es (disk_queue.create, [])).1.worker_pickup = none ↔
      (run_events es (disk_queue.create, [])).1.write_queue = [] ∧
      (run_events es (disk_queue.create, [])).1.read_queue = []) ∧
    submitted_writes es
      = dispatched_writes (run_events es (disk_queue.create, [])).2
        ++ (run_events es (disk_queue.create, [])).1.write_queue ∧
    submitted_reads es
      = dispatched_reads (run_events es (disk_queue.create, [])).2
        ++ (run_events es (disk_queue.create, [])).1.read_queue ∧
    run_events
        [.add_writereq ⟨0, 4096⟩, .add_writereq ⟨4096, 4096⟩, .add_writereq ⟨8192, 4096⟩,
         .add_readreq ⟨0, 4096⟩, .add_readreq ⟨4096, 4096⟩,
         .pickup, .pickup, .pickup, .pickup, .pickup]
        ((disk_queue.create : disk_queue request), [])
      = (disk_queue.create,
         [.WRITE ⟨0, 4096⟩, .WRITE ⟨4096, 4096⟩, .WRITE ⟨8192, 4096⟩,
          .READ ⟨0, 4096⟩, .READ ⟨4096, 4096⟩]) ∧
    run_events
        [.add_readreq ⟨0, 4096⟩, .add_writereq ⟨0, 4096⟩, .add_readreq ⟨4096, 4096⟩,
         .add_writereq ⟨4096, 4096⟩, .add_writereq ⟨8192, 4096⟩,
         .pickup, .pickup, .pickup, .pickup, .pickup]
        ((disk_queue.create : disk_queue request), [])
      = (disk_queue.create,
         [.WRITE ⟨0, 4096⟩, .WRITE ⟨4096, 4096⟩, .WRITE ⟨8192, 4096⟩,
          .READ ⟨0, 4096⟩, .READ ⟨4096, 4096⟩]) := by
  obtain ⟨h1, h2, h3⟩ := QueueInv_run es
  generalize run_events es (disk_queue.create, []) = s at h1 h2 h3 ⊢
  refine ⟨?_, ?_, ?_, ?_, h2, h3, rfl, rfl⟩
  · intro req rest hw
    exact (worker_pickup_cases s.1 (by rw [h1, hw]; simp)).1 req rest hw
  · intro hw req rest hr
    exact (worker_pickup_cases s.1 (by rw [h1, hr]; simp)).2.1 hw req rest hr
  · intro req q1 hp
    cases hw : s.1.write_queue with
    | nil => rfl
    | cons a rest =>
      rw [(worker_pickup_cases s.1 (by rw [h1, hw]; simp)).1 a rest hw] at hp
      cases hp
  · constructor
    · intro hp
      cases hw : s.1.write_queue with
      | cons a rest =>
        rw [(worker_pickup_cases s.1 (by rw [h1, hw]; simp)).1 a rest hw] at hp
        cases hp
      | nil =>
        cases hr : s.1.read_queue with
        | cons a rest =>
          rw [(worker_pickup_cases s.1 (by rw [h1, hr]; simp)).2.1 hw a rest hr] at hp
          cases hp
        | nil => exact ⟨rfl, rfl⟩
    · rintro ⟨hw, hr⟩
      have hs : s.1.sem = 0 := by rw [h1, hw, hr]; rfl
      simp [disk_queue.worker_pickup, hs]

theorem NoLocking.chain {σ : Type} {fb fb1 fb2 : wfs_file_base} {w w1 w2 : World σ}
    (h1 : NoLocking fb w fb1 w1) (h2 : NoLocking fb1 w1 fb2 w2) : NoLocking fb w fb2 w2 := by
  obtain ⟨a1, cs1, b1, c1⟩ := h1
  obtain ⟨a2, cs2, b2, c2⟩ := h2
  refine ⟨a2.trans a1, cs1 ++ cs2, by rw [b2, b1, List.append_assoc], ?_⟩
  intro h hm
  rcases List.mem_append.1 hm with hm | hm
  · exact c1 h hm
  · exact c2 h hm

/-- The calls made by `open_file_impl` are `CreateFileA` calls. -/
theorem open_file_impl_calls {σ : Type} (api : WinApi σ) (off : Bool) (name : String)
    (m : open_mode) (w : World σ) :
    ∃ cs, (open_file_impl api off name m w).2.calls = w.calls ++ cs ∧
      ∀ h, ApiCall.LockFile h ∉ cs := by
  unfold open_file_impl
  split
  · exact ⟨[], by simp, by simp⟩
  · simp only
    split
    · exact ⟨[.CreateFileA (first_args off name m)], by simp [call_CreateFileA], by simp⟩
    · split
      · split
        · exact ⟨[.CreateFileA (first_args off name m),
            .CreateFileA (clear_no_buffering (first_args off name m))],
            by simp [call_CreateFileA], by simp⟩
        · exact ⟨[.CreateFileA (first_args off name m),
            .CreateFileA (clear_no_buffering (first_args off name m))],
            by simp [call_CreateFileA], by simp⟩
      · exact ⟨[.CreateFileA (first_args off name m)], by simp [call_CreateFileA], by simp⟩

theorem set_size_reopen_noLocking {σ : Type} (api : WinApi σ) (off : Bool) (m : open_mode)
    (fb : wfs_file_base) (w : World σ) :
    NoLocking fb w (set_size_reopen api off m fb w).2.1 (set_size_reopen api off m fb w).2.2 := by
  have hclose : NoLocking fb w fb (call_CloseHandle api fb.file_des_ w).2 :=
    ⟨rfl, [.CloseHandle fb.file_des_], rfl, by simp⟩
  obtain ⟨cs, hcs, hno⟩ := open_file_impl_calls api off fb.filename_ m
    (call_CloseHandle api fb.file_des_ w).2
  unfold set_size_reopen
  split
  · exact hclose
  · split
    all_goals
      rename_i w2 heq
      rw [heq] at hcs
      exact hclose.chain ⟨rfl, cs, hcs, hno⟩

theorem set_size_move_end_noLocking {σ : Type} (api : WinApi σ) (newsize : Nat)
    (fb : wfs_file_base) (w : World σ) :
    NoLocking fb w (set_size_move_end api newsize fb w).2.1
      (set_size_move_end api newsize fb w).2.2 := by
  unfold set_size_move_end
  split
  · exact ⟨rfl, [.SetFilePointerEx fb.file_des_ newsize], rfl, by simp⟩
  · split
    · exact ⟨rfl, [.SetFilePointerEx fb.file_des_ newsize, .SetEndOfFile fb.file_des_],
        by simp [call_SetEndOfFile, call_SetFilePointerEx], by simp⟩
    · exact ⟨rfl, [.SetFilePointerEx fb.file_des_ newsize, .SetEndOfFile fb.file_des_],
        by simp [call_SetEndOfFile, call_SetFilePointerEx], by simp⟩

/-- Whatever its outcome, `set_size` leaves `locked_` as it was and makes no
`LockFile` call: a descriptor it reopens is not locked by it. -/
theorem set_size_noLocking {σ : Type} (api : WinApi σ) (off : Bool) (newsize : Nat)
    (fb : wfs_file_base) (w : World σ) :
    NoLocking fb w (wfs_file_base.set_size api off newsize fb w).2.1
      (wfs_file_base.set_size api off newsize fb w).2.2 := by
  have hsize : NoLocking fb w (wfs_file_base._size api fb w).2.1
      (wfs_file_base._size api fb w).2.2 := by
    unfold wfs_file_base._size
    split
    · rename_i w1 heq
      exact ⟨rfl, [.GetFileSizeEx fb.file_des_], by
        have : w1 = (call_GetFileSizeEx api fb.file_des_ w).2 := by rw [heq]
        rw [this]; rfl, by simp⟩
    · rename_i r w1 heq
      exact ⟨rfl, [.GetFileSizeEx fb.file_des_], by
        have : w1 = (call_GetFileSizeEx api fb.file_des_ w).2 := by rw [heq]
        rw [this]; rfl, by simp⟩
  unfold wfs_file_base.set_size
  split
  · rename_i e fb1 w1 heq
    rw [heq] at hsize; exact hsize
  · rename_i fb1 w1 heq
    rw [heq] at hsize; exact hsize
  · rename_i fb1 w1 heq
    rw [heq] at hsize; exact hsize
  · rename_i n fb1 w1 heq
    rw [heq] at hsize
    simp only at hsize
    split
    · exact hsize
    · split
      · exact hsize
      · exact hsize.chain (set_size_move_end_noLocking api newsize fb1 w1)
      · have h1 := set_size_reopen_noLocking api off mode_WRONLY fb1 w1
        split
        · rename_i u2 fb2 w2 heq2
          rw [heq2] at h1
          simp only at h1
          have h2 := set_size_move_end_noLocking api newsize fb2 w2
          split
          · rename_i u3 fb3 w3 heq3
            rw [heq3] at h2
            simp only at h2
            exact (hsize.chain (h1.chain h2)).chain (set_size_reopen_noLocking api off _ fb3 w3)
          · exact hsize.chain (h1.chain h2)
        · exact hsize.chain h1

end Foxxll
